import Mathlib

/-!
# Multi-user banking system (`12_OOPs_Javascript_Classes/Examples/04_MultiUserBankingSystem.js`)

A shallow embedding of the banking example.

* In this namespace JavaScript numbers are exact rationals (`ℚ`): it settles the
  properties whose truth does not turn on rounding, on `NaN` or on an infinity. The
  namespace `Banking64` further down repeats the same functions over IEEE doubles and
  settles the properties that do.
* Objects live in a heap: `World.heap` is the list of all `BankAccount` objects ever
  constructed and an object reference is an index into it, so that two references may
  alias (`transfer(a, a, x)`).
* A thrown exception does not undo the mutations performed before it, therefore every
  operation returns an `Outcome`: how the call completed together with the world it left.
* A template literal is kept as the list of its parts (`Text`), so that no commitment on
  how a number or a date prints is needed.
* `new Date()` reads the next value of the stream `World.dates`.
-/

namespace Banking

/-- One part of a string built by a template literal. -/
inductive Part where
  | str (s : String)
  | num (x : ℚ)
  | isoDate (t : Nat)
  deriving DecidableEq, Repr

/-- A string, kept as the sequence of the parts that were concatenated to build it. -/
abbrev Text := List Part

/-- An element of `transactionHistory`: the object `{ date: new Date(), detail }`. -/
structure Transaction where
  date : Nat
  detail : Text
  deriving DecidableEq, Repr

/-- The concrete class of an account object, with the field that class adds. -/
inductive AccountClass where
  | SavingsAccount (interestRate : ℚ)
  | CurrentAccount (overdraftLimit : ℚ)
  deriving DecidableEq, Repr

/-- Fields set by the `BankAccount` constructor and by the subclass constructor. -/
structure BankAccount where
  accountNumber : String
  _balance : ℚ
  transactionHistory : List Transaction
  cls : AccountClass
  deriving DecidableEq, Repr

/-- Everything the program can observe or mutate. -/
structure World where
  /-- all account objects; a reference is an index -/
  heap : List BankAccount
  /-- `logger.logs` of the single `Logger` instance -/
  logs : List Text
  /-- lines written by `console.log` -/
  console : List Text
  /-- values the coming `new Date()` calls return -/
  dates : Nat → Nat
  /-- whether the static field `Logger.instance` is set; line 23 sets it when the file
  is loaded, before any other call, and `logs` is then the `logs` of that instance -/
  loggerInstance : Bool

/-- How a call completed. -/
inductive Completion (α : Type) where
  | returned (value : α)
  | threw (message : String)
  deriving DecidableEq, Repr

/-- Result of a call: its completion and the world it left behind. -/
structure Outcome (α : Type) where
  completion : Completion α
  world : World

/-- The call returned normally. -/
def Outcome.succeeded {α : Type} (o : Outcome α) : Bool :=
  match o.completion with
  | .returned _ => true
  | .threw _ => false

/-- The call threw. -/
def Outcome.failed {α : Type} (o : Outcome α) : Bool :=
  !o.succeeded

/-- Message of the `TypeError` raised by a method call on something that is not an
object of a class having that method. -/
def typeError : String := "TypeError"

/-- Evaluate `new Date()`: take the next value of the clock stream. -/
def World.newDate (w : World) : Nat × World :=
  (w.dates 0, { w with dates := fun n => w.dates (n + 1) })

/-- Dereference an account. -/
def World.account? (w : World) (ref : Nat) : Option BankAccount :=
  w.heap[ref]?

/-- Overwrite the object behind a reference. -/
def World.setAccount (w : World) (ref : Nat) (acc : BankAccount) : World :=
  { w with heap := w.heap.set ref acc }

/-- `Logger.log(message)`, lines 12-16. -/
def Logger.log (w : World) (message : Text) : World :=
  let (timestamp, w1) := w.newDate
  { w1 with
    logs := w1.logs ++ [[.str "[", .isoDate timestamp, .str "] "] ++ message]
    console := w1.console ++ [[.str "[LOG]: "] ++ message] }

/-- `BankAccount._recordTransaction(detail)`, lines 83-85. -/
def BankAccount._recordTransaction (w : World) (this : Nat) (detail : Text) : World :=
  match w.account? this with
  | none => w
  | some acc =>
    let (date, w1) := w.newDate
    w1.setAccount this
      { acc with transactionHistory := acc.transactionHistory ++ [{ date := date, detail := detail }] }

/-- `BankAccount.deposit(amount)`, lines 68-74. -/
def BankAccount.deposit (w : World) (this : Nat) (amount : ℚ) : Outcome Unit :=
  match w.account? this with
  | none => ⟨.threw typeError, w⟩
  | some acc =>
    if amount ≤ 0 then
      ⟨.threw "Deposit amount must be greater than zero.", w⟩
    else
      let w1 := w.setAccount this { acc with _balance := acc._balance + amount }
      let w2 := BankAccount._recordTransaction w1 this [.str "Deposited ", .num amount]
      let w3 := Logger.log w2
        [.str "Deposit of ", .num amount, .str " made to account ", .str acc.accountNumber]
      ⟨.returned (), w3⟩

/-- `BankAccount.withdraw(amount)`, lines 76-81. -/
def BankAccount.withdraw (w : World) (this : Nat) (amount : ℚ) : Outcome Unit :=
  match w.account? this with
  | none => ⟨.threw typeError, w⟩
  | some acc =>
    if amount > acc._balance then
      ⟨.threw "Insufficient funds.", w⟩
    else
      let w1 := w.setAccount this { acc with _balance := acc._balance - amount }
      let w2 := BankAccount._recordTransaction w1 this [.str "Withdrew ", .num amount]
      let w3 := Logger.log w2
        [.str "Withdrawal of ", .num amount, .str " from account ", .str acc.accountNumber]
      ⟨.returned (), w3⟩

/-- `BankAccount.getBalance()`, lines 87-89. -/
def BankAccount.getBalance (w : World) (this : Nat) : Option ℚ :=
  (w.account? this).map (·._balance)

/-- `SavingsAccount.applyInterest()`, lines 103-109. Only a `SavingsAccount` has the
method; on any other receiver the call is a `TypeError`. -/
def SavingsAccount.applyInterest (w : World) (this : Nat) : Outcome Unit :=
  match w.account? this with
  | none => ⟨.threw typeError, w⟩
  | some acc =>
    match acc.cls with
    | .CurrentAccount _ => ⟨.threw typeError, w⟩
    | .SavingsAccount interestRate =>
      let interest := (acc._balance * interestRate) / 100
      match BankAccount.deposit w this interest with
      | ⟨.threw e, w1⟩ => ⟨.threw e, w1⟩
      | ⟨.returned _, w1⟩ =>
        ⟨.returned (), Logger.log w1
          [.str "Interest of ", .num interest, .str " applied to savings account ",
           .str acc.accountNumber]⟩

/-- `CurrentAccount.withdraw(amount)`, lines 119-124: the override, ending in
`super.withdraw(amount)`. -/
def CurrentAccount.withdraw (w : World) (this : Nat) (amount : ℚ) : Outcome Unit :=
  match w.account? this with
  | none => ⟨.threw typeError, w⟩
  | some acc =>
    match acc.cls with
    | .SavingsAccount _ => ⟨.threw typeError, w⟩
    | .CurrentAccount overdraftLimit =>
      if amount > acc._balance + overdraftLimit then
        ⟨.threw "Overdraft limit exceeded.", w⟩
      else
        BankAccount.withdraw w this amount

/-- The call `account.deposit(amount)`: both classes inherit `BankAccount.deposit`. -/
def deposit (w : World) (account : Nat) (amount : ℚ) : Outcome Unit :=
  BankAccount.deposit w account amount

/-- The call `account.withdraw(amount)`, dispatched on the class of the receiver:
`SavingsAccount` inherits `BankAccount.withdraw`, `CurrentAccount` overrides it. -/
def withdraw (w : World) (account : Nat) (amount : ℚ) : Outcome Unit :=
  match w.account? account with
  | none => ⟨.threw typeError, w⟩
  | some acc =>
    match acc.cls with
    | .SavingsAccount _ => BankAccount.withdraw w account amount
    | .CurrentAccount _ => CurrentAccount.withdraw w account amount

/-- `TransactionService.transfer(fromAccount, toAccount, amount)`, lines 129-135. -/
def TransactionService.transfer (w : World) (fromAccount toAccount : Nat) (amount : ℚ) :
    Outcome Unit :=
  match withdraw w fromAccount amount with
  | ⟨.threw e, w1⟩ => ⟨.threw e, w1⟩
  | ⟨.returned _, w1⟩ =>
    match deposit w1 toAccount amount with
    | ⟨.threw e, w2⟩ => ⟨.threw e, w2⟩
    | ⟨.returned _, w2⟩ =>
      match w2.account? fromAccount, w2.account? toAccount with
      | some f, some t =>
        ⟨.returned (), Logger.log w2
          [.str "Transferred ", .num amount, .str " from ", .str f.accountNumber,
           .str " to ", .str t.accountNumber]⟩
      | _, _ => ⟨.threw typeError, w2⟩

/-- `new SavingsAccount(accountNumber, balance, interestRate)`, lines 98-101 with the
base constructor, lines 59-66; `new.target` is `SavingsAccount`, so the guard passes.
The new object is allocated at the end of the heap and its reference returned. -/
def SavingsAccount.new (w : World) (accountNumber : String) (balance interestRate : ℚ) :
    Outcome Nat :=
  ⟨.returned w.heap.length,
   { w with heap := w.heap ++ [{ accountNumber := accountNumber, _balance := balance,
                                 transactionHistory := [],
                                 cls := .SavingsAccount interestRate }] }⟩

/-- `new CurrentAccount(accountNumber, balance, overdraftLimit)`, lines 114-117 with the
base constructor, lines 59-66. -/
def CurrentAccount.new (w : World) (accountNumber : String) (balance overdraftLimit : ℚ) :
    Outcome Nat :=
  ⟨.returned w.heap.length,
   { w with heap := w.heap ++ [{ accountNumber := accountNumber, _balance := balance,
                                 transactionHistory := [],
                                 cls := .CurrentAccount overdraftLimit }] }⟩

/-- `BankFactory.createAccount(type, ...args)`, lines 140-149, with the three arguments
both constructors take. -/
def BankFactory.createAccount (w : World) (type : String) (accountNumber : String)
    (balance param : ℚ) : Outcome Nat :=
  if type = "savings" then SavingsAccount.new w accountNumber balance param
  else if type = "current" then CurrentAccount.new w accountNumber balance param
  else ⟨.threw "Invalid account type.", w⟩

/-! ## Notions used by the properties -/

/-- Signed amount of a history entry: `+amount` for `Deposited ${amount}`, `-amount` for
`Withdrew ${amount}`. -/
def signedAmount (t : Transaction) : ℚ :=
  match t.detail with
  | [.str "Deposited ", .num amount] => amount
  | [.str "Withdrew ", .num amount] => -amount
  | _ => 0

/-- Sum of the signed amounts of a transaction history. -/
def ledgerSum (history : List Transaction) : ℚ :=
  (history.map signedAmount).sum

/-- The account a successful `deposit(amount)` leaves, when the entry is dated `date`. -/
def BankAccount.afterDeposit (a : BankAccount) (amount : ℚ) (date : Nat) : BankAccount :=
  { a with _balance := a._balance + amount
           transactionHistory :=
             a.transactionHistory ++ [{ date := date, detail := [.str "Deposited ", .num amount] }] }

/-- The account a successful `withdraw(amount)` leaves, when the entry is dated `date`. -/
def BankAccount.afterWithdraw (a : BankAccount) (amount : ℚ) (date : Nat) : BankAccount :=
  { a with _balance := a._balance - amount
           transactionHistory :=
             a.transactionHistory ++ [{ date := date, detail := [.str "Withdrew ", .num amount] }] }

/-- One change of an account object made by a successful `deposit` or `withdraw`: the
only two places of the program that assign `_balance` or push onto `transactionHistory`. -/
inductive AccountStep : BankAccount → BankAccount → Prop where
  | deposited (a : BankAccount) (amount : ℚ) (date : Nat) (hpos : 0 < amount) :
      AccountStep a (a.afterDeposit amount date)
  | withdrew (a : BankAccount) (amount : ℚ) (date : Nat) (hle : amount ≤ a._balance)
      (hover : ∀ overdraftLimit, a.cls = .CurrentAccount overdraftLimit →
        amount ≤ a._balance + overdraftLimit) :
      AccountStep a (a.afterWithdraw amount date)

/-- Any number of successive changes of an account object. -/
def AccountSteps : BankAccount → BankAccount → Prop :=
  Relation.ReflTransGen AccountStep

/-- Shape of the effect of a call on the heap: every object is still there, changed by
steps only. -/
def StepsOnly (w w1 : World) : Prop :=
  ∀ r a, w.account? r = some a → ∃ b, w1.account? r = some b ∧ AccountSteps a b

/-- A call a client can make on the accounts of a world. -/
inductive Call where
  | deposit (account : Nat) (amount : ℚ)
  | withdraw (account : Nat) (amount : ℚ)
  | applyInterest (account : Nat)
  | transfer (fromAccount toAccount : Nat) (amount : ℚ)
  deriving DecidableEq, Repr

/-- Perform one call. -/
def Call.exec (w : World) : Call → Outcome Unit
  | .deposit account amount => Banking.deposit w account amount
  | .withdraw account amount => Banking.withdraw w account amount
  | .applyInterest account => SavingsAccount.applyInterest w account
  | .transfer fromAccount toAccount amount =>
    TransactionService.transfer w fromAccount toAccount amount

/-- Perform a sequence of calls one after the other, each inside its own `try`: a call
that throws leaves the world as it was at the throw and the next call goes on from there. -/
def runCalls (w : World) : List Call → World
  | [] => w
  | c :: cs => runCalls (c.exec w).world cs

/-- The world at the start of the example: no account yet, an empty log, and a clock. -/
def World.initial : World :=
  { heap := [], logs := [], console := [], dates := fun n => 1700000000000 + n,
    loggerInstance := true }

/-- The world of the example after lines 159-160: reference `0` is `savingsAcc`
(`"SA123"`, balance 5000, rate 2.5) and reference `1` is `currentAcc` (`"CA456"`,
balance 10000, overdraft limit 2000). -/
def exampleWorld : World :=
  (BankFactory.createAccount
    (BankFactory.createAccount World.initial "savings" "SA123" 5000 (5 / 2)).world
    "current" "CA456" 10000 2000).world

/-! ## The logger as a singleton, customers and constructors -/

/-- The world while the file is being loaded, before line 23: `Logger.instance` is not
set yet. -/
def World.atLoad : World :=
  { World.initial with loggerInstance := false }

/-- `new Logger()`, lines 4-10: the first construction makes the new object the
instance and gives it an empty `logs`; every construction returns `Logger.instance`, so
the world keeps the one logger it has. -/
def Logger.new (w : World) : World :=
  if !w.loggerInstance then { w with loggerInstance := true, logs := [] }
  else w

/-- `Logger.getLogs()`, lines 18-20. -/
def Logger.getLogs (w : World) : List Text :=
  w.logs

/-- The characters of a part, given how JavaScript prints a number and what
`toISOString` gives for a date. -/
def Part.render (numStr : ℚ → String) (isoStr : Nat → String) : Part → String
  | .str s => s
  | .num x => numStr x
  | .isoDate t => isoStr t

/-- The characters of a text: those of its parts, one after the other. -/
def Text.render (numStr : ℚ → String) (isoStr : Nat → String) : Text → String
  | [] => ""
  | p :: rest => p.render numStr isoStr ++ Text.render numStr isoStr rest

/-- The classes of the file, as values of `new.target`. -/
inductive ClassName where
  | User
  | Customer
  | BankAccount
  | SavingsAccount
  | CurrentAccount
  deriving DecidableEq, Repr

/-- Fields set by the `User` constructor. -/
structure User where
  name : String
  email : String
  deriving DecidableEq, Repr

/-- Fields of a `Customer` object; `accounts` holds references to account objects. -/
structure Customer where
  name : String
  email : String
  customerId : String
  accounts : List Nat
  deriving DecidableEq, Repr

/-- Fields set by the `BankAccount` constructor itself. -/
structure BankAccountFields where
  accountNumber : String
  _balance : ℚ
  transactionHistory : List Transaction
  deriving DecidableEq, Repr

/-- The body of the `User` constructor, lines 27-33, run with the given `new.target`. -/
def User.constructor (newTarget : ClassName) (name email : String) : Completion User :=
  if newTarget = .User then .threw "Cannot instantiate an abstract class."
  else .returned { name := name, email := email }

/-- The body of the `Customer` constructor, lines 42-46: `super(name, email)` passes
`new.target` on. -/
def Customer.constructor (newTarget : ClassName) (name email customerId : String) :
    Completion Customer :=
  match User.constructor newTarget name email with
  | .threw e => .threw e
  | .returned u =>
    .returned { name := u.name, email := u.email, customerId := customerId, accounts := [] }

/-- The body of the `BankAccount` constructor, lines 59-66. -/
def BankAccount.constructor (newTarget : ClassName) (accountNumber : String) (balance : ℚ) :
    Completion BankAccountFields :=
  if newTarget = .BankAccount then .threw "Cannot instantiate an abstract class."
  else .returned { accountNumber := accountNumber, _balance := balance,
                   transactionHistory := [] }

/-- The body of the `SavingsAccount` constructor, lines 98-101. -/
def SavingsAccount.constructor (newTarget : ClassName) (accountNumber : String)
    (balance interestRate : ℚ) : Completion BankAccount :=
  match BankAccount.constructor newTarget accountNumber balance with
  | .threw e => .threw e
  | .returned f =>
    .returned { accountNumber := f.accountNumber, _balance := f._balance,
                transactionHistory := f.transactionHistory,
                cls := .SavingsAccount interestRate }

/-- The body of the `CurrentAccount` constructor, lines 114-117. -/
def CurrentAccount.constructor (newTarget : ClassName) (accountNumber : String)
    (balance overdraftLimit : ℚ) : Completion BankAccount :=
  match BankAccount.constructor newTarget accountNumber balance with
  | .threw e => .threw e
  | .returned f =>
    .returned { accountNumber := f.accountNumber, _balance := f._balance,
                transactionHistory := f.transactionHistory,
                cls := .CurrentAccount overdraftLimit }

/-- The expression `new User(name, email)`: `new.target` is `User`. -/
def User.new (name email : String) : Completion User :=
  User.constructor .User name email

/-- The expression `new Customer(name, email, customerId)`. -/
def Customer.new (name email customerId : String) : Completion Customer :=
  Customer.constructor .Customer name email customerId

/-- The expression `new BankAccount(accountNumber, balance)`. -/
def BankAccount.new (accountNumber : String) (balance : ℚ) : Completion BankAccountFields :=
  BankAccount.constructor .BankAccount accountNumber balance

/-- `Customer.addAccount(account)`, lines 48-50. -/
def Customer.addAccount (this : Customer) (account : Nat) : Customer :=
  { this with accounts := this.accounts ++ [account] }

/-- `BankAccount.getAccountDetails()`, lines 91-93. -/
def BankAccount.getAccountDetails (w : World) (this : Nat) : Outcome Text :=
  match BankAccount.getBalance w this, w.account? this with
  | some balance, some acc =>
    ⟨.returned [.str "Account: ", .str acc.accountNumber, .str ", Balance: ", .num balance], w⟩
  | _, _ => ⟨.threw typeError, w⟩

/-- The call `accounts.map((acc) => acc.getAccountDetails())` of line 53, element by
element from the first. -/
def mapAccountDetails (w : World) : List Nat → Outcome (List Text)
  | [] => ⟨.returned [], w⟩
  | acc :: rest =>
    match BankAccount.getAccountDetails w acc with
    | ⟨.threw e, w1⟩ => ⟨.threw e, w1⟩
    | ⟨.returned details, w1⟩ =>
      match mapAccountDetails w1 rest with
      | ⟨.threw e, w2⟩ => ⟨.threw e, w2⟩
      | ⟨.returned more, w2⟩ => ⟨.returned (details :: more), w2⟩

/-- `Customer.listAccounts()`, lines 52-54: the customer object after the call and the
outcome of the call. -/
def Customer.listAccounts (w : World) (this : Customer) : Customer × Outcome (List Text) :=
  (this, mapAccountDetails w this.accounts)

/-- The summary `Account: <accountNumber>, Balance: <balance>` of the account behind a
reference, as the world has it now. -/
def accountSummary (w : World) (account : Nat) : Text :=
  match w.account? account with
  | some acc => [.str "Account: ", .str acc.accountNumber, .str ", Balance: ", .num acc._balance]
  | none => []

/-- The event log only grew between two worlds: the old `logs` is an initial segment of
the new one, and `Logger.instance` is as it was. -/
def LogKept (w w1 : World) : Prop :=
  w.logs <+: w1.logs ∧ w1.loggerInstance = w.loggerInstance

/-- The ISO string of the first date of the example clock, 1700000000000 ms. -/
def exampleIso (_t : Nat) : String := "2023-11-14T22:13:20.000Z"

/-- `String(x)` for the whole numbers of the example; other numbers are not printed in
the properties that use it. -/
def exampleNum (x : ℚ) : String := toString x.num

end Banking

/-!
# JavaScript numbers as IEEE 754 doubles

The model above takes numbers as exact rationals. That decides every property whose truth
does not turn on rounding or on `NaN`; the properties that do are settled on the model
below, in which a number is a double: `NaN`, an infinity, or a finite value, and every
arithmetic result is rounded to the nearest double, a tie going to the even one, with
overflow to an infinity. The two zeros are not told apart: the sources neither divide by
a variable nor test the sign of a zero.
-/

namespace IEEE

/-- A JavaScript number: `NaN`, the two infinities, or a finite value. -/
inductive JSNumber where
  | nan
  | negInf
  | posInf
  | fin (q : ℚ)
  deriving DecidableEq, Repr

/-- Rounding of a rational to the nearest integer, a tie going to the even one. -/
def roundHalfEven (t : ℚ) : ℤ :=
  if t - ⌊t⌋ < 1 / 2 then ⌊t⌋
  else if 1 / 2 < t - ⌊t⌋ then ⌊t⌋ + 1
  else if ⌊t⌋ % 2 = 0 then ⌊t⌋
  else ⌊t⌋ + 1

/-- Exponent of the spacing of the doubles around a magnitude. -/
def ulpExponent (a : ℚ) : ℤ :=
  max (Int.log 2 a) (-1022) - 52

/-- Rounding of a magnitude to the grid of the doubles around it. -/
def roundMagnitude (a : ℚ) : ℚ :=
  roundHalfEven (a / 2 ^ ulpExponent a) * 2 ^ ulpExponent a

/-- Rounding to nearest, ties to even, with an unbounded exponent above. -/
def roundNearest (x : ℚ) : ℚ :=
  if 0 ≤ x then roundMagnitude x else -roundMagnitude (-x)

/-- The double that an exact result becomes: the nearest one, or an infinity when that
is at or beyond `2^1024`. -/
def JSNumber.ofRat (x : ℚ) : JSNumber :=
  if 2 ^ 1024 ≤ roundNearest x then .posInf
  else if roundNearest x ≤ -2 ^ 1024 then .negInf
  else .fin (roundNearest x)

/-- A numeric literal. -/
instance (n : Nat) : OfNat JSNumber n := ⟨.fin n⟩

/-- `-a`. -/
def JSNumber.neg : JSNumber → JSNumber
  | .nan => .nan
  | .negInf => .posInf
  | .posInf => .negInf
  | .fin x => .fin (-x)

/-- `a + b`. -/
def JSNumber.add : JSNumber → JSNumber → JSNumber
  | .nan, _ => .nan
  | _, .nan => .nan
  | .posInf, .negInf => .nan
  | .negInf, .posInf => .nan
  | .posInf, _ => .posInf
  | _, .posInf => .posInf
  | .negInf, _ => .negInf
  | _, .negInf => .negInf
  | .fin x, .fin y => .ofRat (x + y)

/-- `a - b`. -/
def JSNumber.sub (a b : JSNumber) : JSNumber :=
  a.add b.neg

/-- The infinity of the sign of a finite factor or numerator, `NaN` for a zero. -/
def JSNumber.infOfSign (x : ℚ) : JSNumber :=
  if 0 < x then .posInf else if x < 0 then .negInf else .nan

/-- `a * b`. -/
def JSNumber.mul : JSNumber → JSNumber → JSNumber
  | .nan, _ => .nan
  | _, .nan => .nan
  | .posInf, .posInf => .posInf
  | .posInf, .negInf => .negInf
  | .negInf, .posInf => .negInf
  | .negInf, .negInf => .posInf
  | .posInf, .fin y => infOfSign y
  | .negInf, .fin y => infOfSign (-y)
  | .fin x, .posInf => infOfSign x
  | .fin x, .negInf => infOfSign (-x)
  | .fin x, .fin y => .ofRat (x * y)

/-- `a / b` for a divisor that is not a zero; the only divisor in the sources is the
literal `100`. A finite number divided by a zero is given the infinity of the sign of
the numerator, as for the zero `+0`. -/
def JSNumber.div : JSNumber → JSNumber → JSNumber
  | .nan, _ => .nan
  | _, .nan => .nan
  | .posInf, .fin y => if 0 ≤ y then .posInf else .negInf
  | .negInf, .fin y => if 0 ≤ y then .negInf else .posInf
  | .posInf, _ => .nan
  | .negInf, _ => .nan
  | .fin _, .posInf => .fin 0
  | .fin _, .negInf => .fin 0
  | .fin x, .fin y => if y = 0 then infOfSign x else .ofRat (x / y)

/-- `a < b`. -/
def JSNumber.lt : JSNumber → JSNumber → Bool
  | .nan, _ => false
  | _, .nan => false
  | .posInf, _ => false
  | _, .negInf => false
  | .negInf, _ => true
  | _, .posInf => true
  | .fin x, .fin y => decide (x < y)

/-- `a <= b`. -/
def JSNumber.le : JSNumber → JSNumber → Bool
  | .nan, _ => false
  | _, .nan => false
  | .negInf, _ => true
  | _, .posInf => true
  | .posInf, _ => false
  | _, .negInf => false
  | .fin x, .fin y => decide (x ≤ y)

/-- `a > b`. -/
def JSNumber.gt (a b : JSNumber) : Bool :=
  b.lt a

/-- A value that a JavaScript number can have: a finite one is a double. -/
def JSNumber.IsDouble : JSNumber → Prop
  | .fin x => JSNumber.ofRat x = .fin x
  | _ => True

/-- One part of a string built by a template literal. -/
inductive Part where
  | str (s : String)
  | num (x : JSNumber)
  | isoDate (t : Nat)
  deriving DecidableEq, Repr

/-- A string, kept as the sequence of the parts that were concatenated to build it. -/
abbrev Text := List Part

end IEEE

/-!
# The banking system over doubles

The same functions of `04_MultiUserBankingSystem.js` as in `Banking`, with every number a
double: the guards are the comparisons of JavaScript, which are false as soon as an
operand is `NaN`, and `+=`, `-=`, `*` and `/` round.
-/

namespace Banking64

open IEEE (JSNumber Part Text)
open Banking (Completion typeError)

/-- An element of `transactionHistory`: the object `{ date: new Date(), detail }`. -/
structure Transaction where
  date : Nat
  detail : Text
  deriving DecidableEq, Repr

/-- The concrete class of an account object, with the field that class adds. -/
inductive AccountClass where
  | SavingsAccount (interestRate : JSNumber)
  | CurrentAccount (overdraftLimit : JSNumber)
  deriving DecidableEq, Repr

/-- Fields set by the `BankAccount` constructor and by the subclass constructor. -/
structure BankAccount where
  accountNumber : String
  _balance : JSNumber
  transactionHistory : List Transaction
  cls : AccountClass
  deriving DecidableEq, Repr

/-- Everything the program can observe or mutate. -/
structure World where
  /-- all account objects; a reference is an index -/
  heap : List BankAccount
  /-- `logger.logs` of the single `Logger` instance -/
  logs : List Text
  /-- lines written by `console.log` -/
  console : List Text
  /-- values the coming `new Date()` calls return -/
  dates : Nat → Nat

/-- Result of a call: its completion and the world it left behind. -/
structure Outcome (α : Type) where
  completion : Completion α
  world : World

/-- The call returned normally. -/
def Outcome.succeeded {α : Type} (o : Outcome α) : Bool :=
  match o.completion with
  | .returned _ => true
  | .threw _ => false

/-- The call threw. -/
def Outcome.failed {α : Type} (o : Outcome α) : Bool :=
  !o.succeeded

/-- Evaluate `new Date()`: take the next value of the clock stream. -/
def World.newDate (w : World) : Nat × World :=
  (w.dates 0, { w with dates := fun n => w.dates (n + 1) })

/-- Dereference an account. -/
def World.account? (w : World) (ref : Nat) : Option BankAccount :=
  w.heap[ref]?

/-- Overwrite the object behind a reference. -/
def World.setAccount (w : World) (ref : Nat) (acc : BankAccount) : World :=
  { w with heap := w.heap.set ref acc }

/-- `Logger.log(message)`, lines 12-16. -/
def Logger.log (w : World) (message : Text) : World :=
  let (timestamp, w1) := w.newDate
  { w1 with
    logs := w1.logs ++ [[.str "[", .isoDate timestamp, .str "] "] ++ message]
    console := w1.console ++ [[.str "[LOG]: "] ++ message] }

/-- `BankAccount._recordTransaction(detail)`, lines 83-85. -/
def BankAccount._recordTransaction (w : World) (this : Nat) (detail : Text) : World :=
  match w.account? this with
  | none => w
  | some acc =>
    let (date, w1) := w.newDate
    w1.setAccount this
      { acc with transactionHistory := acc.transactionHistory ++ [{ date := date, detail := detail }] }

/-- `BankAccount.deposit(amount)`, lines 68-74. -/
def BankAccount.deposit (w : World) (this : Nat) (amount : JSNumber) : Outcome Unit :=
  match w.account? this with
  | none => ⟨.threw typeError, w⟩
  | some acc =>
    if amount.le 0 then
      ⟨.threw "Deposit amount must be greater than zero.", w⟩
    else
      let w1 := w.setAccount this { acc with _balance := acc._balance.add amount }
      let w2 := BankAccount._recordTransaction w1 this [.str "Deposited ", .num amount]
      let w3 := Logger.log w2
        [.str "Deposit of ", .num amount, .str " made to account ", .str acc.accountNumber]
      ⟨.returned (), w3⟩

/-- `BankAccount.withdraw(amount)`, lines 76-81. -/
def BankAccount.withdraw (w : World) (this : Nat) (amount : JSNumber) : Outcome Unit :=
  match w.account? this with
  | none => ⟨.threw typeError, w⟩
  | some acc =>
    if amount.gt acc._balance then
      ⟨.threw "Insufficient funds.", w⟩
    else
      let w1 := w.setAccount this { acc with _balance := acc._balance.sub amount }
      let w2 := BankAccount._recordTransaction w1 this [.str "Withdrew ", .num amount]
      let w3 := Logger.log w2
        [.str "Withdrawal of ", .num amount, .str " from account ", .str acc.accountNumber]
      ⟨.returned (), w3⟩

/-- `SavingsAccount.applyInterest()`, lines 103-109. Only a `SavingsAccount` has the
method; on any other receiver the call is a `TypeError`. -/
def SavingsAccount.applyInterest (w : World) (this : Nat) : Outcome Unit :=
  match w.account? this with
  | none => ⟨.threw typeError, w⟩
  | some acc =>
    match acc.cls with
    | .CurrentAccount _ => ⟨.threw typeError, w⟩
    | .SavingsAccount interestRate =>
      let interest := (acc._balance.mul interestRate).div 100
      match BankAccount.deposit w this interest with
      | ⟨.threw e, w1⟩ => ⟨.threw e, w1⟩
      | ⟨.returned _, w1⟩ =>
        ⟨.returned (), Logger.log w1
          [.str "Interest of ", .num interest, .str " applied to savings account ",
           .str acc.accountNumber]⟩

/-- `CurrentAccount.withdraw(amount)`, lines 119-124: the override, ending in
`super.withdraw(amount)`. -/
def CurrentAccount.withdraw (w : World) (this : Nat) (amount : JSNumber) : Outcome Unit :=
  match w.account? this with
  | none => ⟨.threw typeError, w⟩
  | some acc =>
    match acc.cls with
    | .SavingsAccount _ => ⟨.threw typeError, w⟩
    | .CurrentAccount overdraftLimit =>
      if amount.gt (acc._balance.add overdraftLimit) then
        ⟨.threw "Overdraft limit exceeded.", w⟩
      else
        BankAccount.withdraw w this amount

/-- The call `account.deposit(amount)`: both classes inherit `BankAccount.deposit`. -/
def deposit (w : World) (account : Nat) (amount : JSNumber) : Outcome Unit :=
  BankAccount.deposit w account amount

/-- The call `account.withdraw(amount)`, dispatched on the class of the receiver:
`SavingsAccount` inherits `BankAccount.withdraw`, `CurrentAccount` overrides it. -/
def withdraw (w : World) (account : Nat) (amount : JSNumber) : Outcome Unit :=
  match w.account? account with
  | none => ⟨.threw typeError, w⟩
  | some acc =>
    match acc.cls with
    | .SavingsAccount _ => BankAccount.withdraw w account amount
    | .CurrentAccount _ => CurrentAccount.withdraw w account amount

/-- `TransactionService.transfer(fromAccount, toAccount, amount)`, lines 129-135. -/
def TransactionService.transfer (w : World) (fromAccount toAccount : Nat)
    (amount : JSNumber) : Outcome Unit :=
  match withdraw w fromAccount amount with
  | ⟨.threw e, w1⟩ => ⟨.threw e, w1⟩
  | ⟨.returned _, w1⟩ =>
    match deposit w1 toAccount amount with
    | ⟨.threw e, w2⟩ => ⟨.threw e, w2⟩
    | ⟨.returned _, w2⟩ =>
      match w2.account? fromAccount, w2.account? toAccount with
      | some f, some t =>
        ⟨.returned (), Logger.log w2
          [.str "Transferred ", .num amount, .str " from ", .str f.accountNumber,
           .str " to ", .str t.accountNumber]⟩
      | _, _ => ⟨.threw typeError, w2⟩

/-- `new SavingsAccount(accountNumber, balance, interestRate)`, lines 98-101 with the
base constructor, lines 59-66. The new object is allocated at the end of the heap and
its reference returned. -/
def SavingsAccount.new (w : World) (accountNumber : String)
    (balance interestRate : JSNumber) : Outcome Nat :=
  ⟨.returned w.heap.length,
   { w with heap := w.heap ++ [{ accountNumber := accountNumber, _balance := balance,
                                 transactionHistory := [],
                                 cls := .SavingsAccount interestRate }] }⟩

/-- `new CurrentAccount(accountNumber, balance, overdraftLimit)`, lines 114-117 with the
base constructor, lines 59-66. -/
def CurrentAccount.new (w : World) (accountNumber : String)
    (balance overdraftLimit : JSNumber) : Outcome Nat :=
  ⟨.returned w.heap.length,
   { w with heap := w.heap ++ [{ accountNumber := accountNumber, _balance := balance,
                                 transactionHistory := [],
                                 cls := .CurrentAccount overdraftLimit }] }⟩

/-- `BankFactory.createAccount(type, ...args)`, lines 140-149, with the three arguments
both constructors take. -/
def BankFactory.createAccount (w : World) (type : String) (accountNumber : String)
    (balance param : JSNumber) : Outcome Nat :=
  if type = "savings" then SavingsAccount.new w accountNumber balance param
  else if type = "current" then CurrentAccount.new w accountNumber balance param
  else ⟨.threw "Invalid account type.", w⟩

/-! ## Notions used by the properties -/

/-- The lowest balance the class of the account allows: `0` for a savings account,
`-overdraftLimit` for a current account. -/
def BankAccount.floor (a : BankAccount) : JSNumber :=
  match a.cls with
  | .SavingsAccount _ => 0
  | .CurrentAccount overdraftLimit => overdraftLimit.neg

/-- The overdraft limit of a current account is a number that is not negative (a double
`>= 0` or `Infinity`); nothing is asked of a savings account. -/
def BankAccount.limitNonneg (a : BankAccount) : Prop :=
  match a.cls with
  | .SavingsAccount _ => True
  | .CurrentAccount overdraftLimit =>
    (0 : JSNumber).le overdraftLimit = true ∧ overdraftLimit.IsDouble

/-- The balance is not below the floor: it is at or above it, or it is `NaN`. -/
def BankAccount.notBelowFloor (a : BankAccount) : Prop :=
  a._balance = .nan ∨ a.floor.le a._balance = true

/-- The balance that the entries of a transaction history give, applied in order to a
starting balance: `+ amount` for `Deposited ${amount}`, `- amount` for
`Withdrew ${amount}`, each in double arithmetic. -/
def replay (start : JSNumber) : List Transaction → JSNumber
  | [] => start
  | t :: rest =>
    match t.detail with
    | [.str "Deposited ", .num amount] => replay (start.add amount) rest
    | [.str "Withdrew ", .num amount] => replay (start.sub amount) rest
    | _ => replay start rest

/-- The account a successful `deposit(amount)` leaves, when the entry is dated `date`. -/
def BankAccount.afterDeposit (a : BankAccount) (amount : JSNumber) (date : Nat) :
    BankAccount :=
  { a with _balance := a._balance.add amount
           transactionHistory :=
             a.transactionHistory ++ [{ date := date, detail := [.str "Deposited ", .num amount] }] }

/-- The account a successful `withdraw(amount)` leaves, when the entry is dated `date`. -/
def BankAccount.afterWithdraw (a : BankAccount) (amount : JSNumber) (date : Nat) :
    BankAccount :=
  { a with _balance := a._balance.sub amount
           transactionHistory :=
             a.transactionHistory ++ [{ date := date, detail := [.str "Withdrew ", .num amount] }] }

/-- One change of an account object made by a successful `deposit` or `withdraw`: the
only two places of the program that assign `_balance` or push onto `transactionHistory`. -/
inductive AccountStep : BankAccount → BankAccount → Prop where
  | deposited (a : BankAccount) (amount : JSNumber) (date : Nat)
      (hguard : amount.le 0 = false) :
      AccountStep a (a.afterDeposit amount date)
  | withdrew (a : BankAccount) (amount : JSNumber) (date : Nat)
      (hguard : amount.gt a._balance = false) :
      AccountStep a (a.afterWithdraw amount date)

/-- Any number of successive changes of an account object. -/
def AccountSteps : BankAccount → BankAccount → Prop :=
  Relation.ReflTransGen AccountStep

/-- Shape of the effect of a call on the heap: every object is still there, changed by
steps only. -/
def StepsOnly (w w1 : World) : Prop :=
  ∀ r a, w.account? r = some a → ∃ b, w1.account? r = some b ∧ AccountSteps a b

/-- A call a client can make on the accounts of a world. -/
inductive Call where
  | deposit (account : Nat) (amount : JSNumber)
  | withdraw (account : Nat) (amount : JSNumber)
  | applyInterest (account : Nat)
  | transfer (fromAccount toAccount : Nat) (amount : JSNumber)
  deriving DecidableEq, Repr

/-- Perform one call. -/
def Call.exec (w : World) : Call → Outcome Unit
  | .deposit account amount => Banking64.deposit w account amount
  | .withdraw account amount => Banking64.withdraw w account amount
  | .applyInterest account => SavingsAccount.applyInterest w account
  | .transfer fromAccount toAccount amount =>
    TransactionService.transfer w fromAccount toAccount amount

/-- Perform a sequence of calls one after the other, each inside its own `try`: a call
that throws leaves the world as it was at the throw and the next call goes on from there. -/
def runCalls (w : World) : List Call → World
  | [] => w
  | c :: cs => runCalls (c.exec w).world cs

/-- The world at the start of the example: no account yet, an empty log, and a clock. -/
def World.initial : World :=
  { heap := [], logs := [], console := [], dates := fun n => 1700000000000 + n }

/-- The world of the example after lines 159-160: reference `0` is `savingsAcc`
(`"SA123"`, balance 5000, rate 2.5) and reference `1` is `currentAcc` (`"CA456"`,
balance 10000, overdraft limit 2000). -/
def exampleWorld : World :=
  (BankFactory.createAccount
    (BankFactory.createAccount World.initial "savings" "SA123" 5000 (.fin (5 / 2))).world
    "current" "CA456" 10000 2000).world

/-- A world with one account: reference `0` is an account of the given class, balance
and empty transaction history, as its constructor leaves it. -/
def singleAccount (balance : JSNumber) (cls : AccountClass) : World :=
  { World.initial with
    heap := [{ accountNumber := "A1", _balance := balance, transactionHistory := [],
               cls := cls }] }

/-- A world with two savings accounts of rate 2.5 and empty transaction histories:
reference `0` is `"A1"`, reference `1` is `"B1"`. -/
def twoAccounts (balanceA balanceB : JSNumber) : World :=
  { World.initial with
    heap := [{ accountNumber := "A1", _balance := balanceA, transactionHistory := [],
               cls := .SavingsAccount (.fin (5 / 2)) },
             { accountNumber := "B1", _balance := balanceB, transactionHistory := [],
               cls := .SavingsAccount (.fin (5 / 2)) }] }

end Banking64

/-!
# Vehicles (`12_OOPs_Javascript_Classes/Examples/BasicOOPS.js`)

Vehicle objects are values handed from call to call; a method returns the object it
leaves and the lines it writes to the console. A speed is a double (`IEEE.JSNumber`), so
that `NaN` and the infinities can be assigned and compared as JavaScript does.
-/

namespace BasicOOPS

open Banking (Part Text Completion)
open IEEE (JSNumber)

/-- The classes of the file, as values of `new.target`. -/
inductive ClassName where
  | Vehicle
  | Car
  | Bike
  deriving DecidableEq, Repr

/-- The concrete class of a vehicle object, with the field that class adds. -/
inductive VehicleClass where
  | Car (model : String)
  | Bike (type : String)
  deriving DecidableEq, Repr

/-- Fields set by the `Vehicle` constructor itself. -/
structure VehicleFields where
  brand : String
  wheels : ℚ
  _speed : JSNumber
  deriving DecidableEq, Repr

/-- Fields of a `Car` or `Bike` object. -/
structure Vehicle where
  brand : String
  wheels : ℚ
  _speed : JSNumber
  cls : VehicleClass
  deriving DecidableEq, Repr

/-- The body of the `Vehicle` constructor, lines 3-12, run with the given `new.target`. -/
def Vehicle.constructor (newTarget : ClassName) (brand : String) (wheels : ℚ) :
    Completion VehicleFields :=
  if newTarget = .Vehicle then
    .threw "Vehicle is an abstract class and cannot be instantiated directly."
  else .returned { brand := brand, wheels := wheels, _speed := 0 }

/-- The body of the `Car` constructor, lines 52-55. -/
def Car.constructor (newTarget : ClassName) (brand model : String) : Completion Vehicle :=
  match Vehicle.constructor newTarget brand 4 with
  | .threw e => .threw e
  | .returned f =>
    .returned { brand := f.brand, wheels := f.wheels, _speed := f._speed, cls := .Car model }

/-- The body of the `Bike` constructor, lines 72-75. -/
def Bike.constructor (newTarget : ClassName) (brand type : String) : Completion Vehicle :=
  match Vehicle.constructor newTarget brand 2 with
  | .threw e => .threw e
  | .returned f =>
    .returned { brand := f.brand, wheels := f.wheels, _speed := f._speed, cls := .Bike type }

/-- The expression `new Vehicle(brand, wheels)`. -/
def Vehicle.new (brand : String) (wheels : ℚ) : Completion VehicleFields :=
  Vehicle.constructor .Vehicle brand wheels

/-- The expression `new Car(brand, model)`. -/
def Car.new (brand model : String) : Completion Vehicle :=
  Car.constructor .Car brand model

/-- The expression `new Bike(brand, type)`. -/
def Bike.new (brand type : String) : Completion Vehicle :=
  Bike.constructor .Bike brand type

/-- The getter `speed`, lines 15-17. -/
def Vehicle.speed (this : Vehicle) : JSNumber :=
  this._speed

/-- The setter `speed`, lines 20-26: the vehicle after `this.speed = value` and the
console lines written. -/
def Vehicle.set_speed (this : Vehicle) (value : JSNumber) : Vehicle × List Text :=
  if value.lt 0 then (this, [[.str "Speed cannot be negative!"]])
  else ({ this with _speed := value }, [])

/-- `Vehicle.compareSpeeds(vehicle1, vehicle2)`, lines 39-47. -/
def Vehicle.compareSpeeds (vehicle1 vehicle2 : Vehicle) : String :=
  if vehicle1.speed.gt vehicle2.speed then
    vehicle1.brand ++ " is faster than " ++ vehicle2.brand ++ "."
  else if vehicle1.speed.lt vehicle2.speed then
    vehicle2.brand ++ " is faster than " ++ vehicle1.brand ++ "."
  else
    vehicle1.brand ++ " and " ++ vehicle2.brand ++ " have the same speed."

/-- A sequence of assignments `this.speed = value`, one after the other. -/
def Vehicle.assignSpeeds (this : Vehicle) (values : List JSNumber) : Vehicle :=
  values.foldl (fun v value => (v.set_speed value).1) this

/-- The object `tesla` of line 96, as `new Car("Tesla", "Model S")` leaves it. -/
def tesla : Vehicle :=
  { brand := "Tesla", wheels := 4, _speed := 0, cls := .Car "Model S" }

/-- The object `ducati` of line 97, as `new Bike("Ducati", "Sports")` leaves it. -/
def ducati : Vehicle :=
  { brand := "Ducati", wheels := 2, _speed := 0, cls := .Bike "Sports" }

end BasicOOPS

/-!
# Shop (`12_OOPs_Javascript_Classes/Examples/E-Commerce.js`)

Products, users and orders are values handed from call to call. The function that
`DiscountDecorator` stores in `order.checkout` is kept as the discount rate it closes
over: `Order.checkoutWrappers` lists the rates of the decorations applied, the latest
first, and calling `checkout` runs them from the latest down to the method of the class.
Prices, totals and discount rates are doubles (`IEEE.JSNumber`): `+=` and `*=` round.
-/

namespace ECommerce

open IEEE (JSNumber Part Text)
open Banking (Completion typeError)

/-- The classes of the products, as values of `new.target`. -/
inductive ClassName where
  | Product
  | Electronics
  | Clothing
  deriving DecidableEq, Repr

/-- The options object handed to a product constructor; `warranty` and `size` may be
absent. -/
structure Options where
  name : String
  price : JSNumber
  warranty : Option ℚ
  size : Option String
  deriving DecidableEq, Repr

/-- The concrete class of a product object, with the field that class adds. -/
inductive ProductClass where
  | Electronics (warranty : Option ℚ)
  | Clothing (size : Option String)
  deriving DecidableEq, Repr

/-- Fields set by the `Product` constructor itself. -/
structure ProductFields where
  name : String
  price : JSNumber
  deriving DecidableEq, Repr

/-- Fields of an `Electronics` or `Clothing` object. -/
structure Product where
  name : String
  price : JSNumber
  cls : ProductClass
  deriving DecidableEq, Repr

/-- The body of the `Product` constructor, lines 51-57, run with the given `new.target`;
without an argument the destructuring of the parameter throws a `TypeError`. -/
def Product.constructor (newTarget : ClassName) (options : Option Options) :
    Completion ProductFields :=
  match options with
  | none => .threw typeError
  | some o =>
    if newTarget = .Product then .threw "Cannot instantiate an abstract class."
    else .returned { name := o.name, price := o.price }

/-- The body of the `Electronics` constructor, lines 67-70. -/
def Electronics.constructor (newTarget : ClassName) (options : Option Options) :
    Completion Product :=
  match options with
  | none => .threw typeError
  | some o =>
    match Product.constructor newTarget
        (some { name := o.name, price := o.price, warranty := none, size := none }) with
    | .threw e => .threw e
    | .returned f =>
      .returned { name := f.name, price := f.price, cls := .Electronics o.warranty }

/-- The body of the `Clothing` constructor, lines 79-82. -/
def Clothing.constructor (newTarget : ClassName) (options : Option Options) :
    Completion Product :=
  match options with
  | none => .threw typeError
  | some o =>
    match Product.constructor newTarget
        (some { name := o.name, price := o.price, warranty := none, size := none }) with
    | .threw e => .threw e
    | .returned f =>
      .returned { name := f.name, price := f.price, cls := .Clothing o.size }

/-- The expression `new Product(options)`. -/
def Product.new (options : Option Options) : Completion ProductFields :=
  Product.constructor .Product options

/-- The expression `new Electronics(options)`. -/
def Electronics.new (options : Option Options) : Completion Product :=
  Electronics.constructor .Electronics options

/-- The expression `new Clothing(options)`. -/
def Clothing.new (options : Option Options) : Completion Product :=
  Clothing.constructor .Clothing options

/-- `ProductFactory.createProduct(type, options)`, lines 37-46. -/
def ProductFactory.createProduct (type : String) (options : Option Options) :
    Completion Product :=
  if type = "Electronics" then Electronics.new options
  else if type = "Clothing" then Clothing.new options
  else .threw "Invalid product type"

/-- Fields set by the `User` constructor, lines 112-115. -/
structure User where
  name : String
  email : String
  deriving DecidableEq, Repr

/-- Fields of an `Order` object; `checkoutWrappers` stands for its own `checkout`
property. -/
structure Order where
  user : User
  products : List Product
  total : JSNumber
  checkoutWrappers : List JSNumber
  deriving DecidableEq, Repr

/-- The expression `new Order(user)`, lines 120-124. -/
def Order.new (user : User) : Order :=
  { user := user, products := [], total := 0, checkoutWrappers := [] }

/-- `Order.addProduct(product)`, lines 126-131: the order returned (`this`) and the
console line written. -/
def Order.addProduct (this : Order) (product : Product) : Order × List Text :=
  ({ this with products := this.products ++ [product], total := this.total.add product.price },
   [[.str "Added product: ", .str product.name]])

/-- The method `checkout` of the class, lines 133-136. -/
def Order.classCheckout (this : Order) : Order × List Text :=
  (this,
   [[.str "Order for ", .str this.user.name, .str " completed! Total: $", .num this.total],
    [.str "Products:", .str " ", .str (", ".intercalate (this.products.map (·.name)))]])

/-- The call of the function stored by the decorations whose rates are given, latest
first, lines 142-146: each multiplies `total`, logs, and calls the one it wrapped. -/
def Order.callCheckout : List JSNumber → Order → Order × List Text
  | [], this => this.classCheckout
  | discountRate :: wrapped, this =>
    let this1 := { this with total := this.total.mul ((1 : JSNumber).sub discountRate) }
    let line : Text := [.str "Discount applied: ", .num (discountRate.mul 100), .str "%"]
    let (this2, lines) := Order.callCheckout wrapped this1
    (this2, line :: lines)

/-- The call `order.checkout()`. -/
def Order.checkout (this : Order) : Order × List Text :=
  Order.callCheckout this.checkoutWrappers this

/-- `DiscountDecorator(order, discountRate)`, lines 140-148. -/
def DiscountDecorator (order : Order) (discountRate : JSNumber) : Order :=
  { order with checkoutWrappers := discountRate :: order.checkoutWrappers }

/-- A sequence of `addProduct` calls, chained as in line 186. -/
def Order.addProducts (this : Order) (products : List Product) : Order :=
  products.foldl (fun o p => (o.addProduct p).1) this

/-- The order after `k` calls of `checkout()`. -/
def Order.checkoutTimes (this : Order) : Nat → Order
  | 0 => this
  | k + 1 => Order.checkoutTimes (this.checkout).1 k

/-- Sum of the prices of a list of products, added one after the other from 0 in double
arithmetic. -/
def priceSum (products : List Product) : JSNumber :=
  products.foldl (fun t p => t.add p.price) 0

/-- A total multiplied `k` times by `1 - rate` in double arithmetic, each product being
rounded to the nearest double. -/
def discounted (total rate : JSNumber) : Nat → JSNumber
  | 0 => total
  | k + 1 => discounted (total.mul ((1 : JSNumber).sub rate)) rate k

/-- The product `phone` of lines 173-177. -/
def phone : Product :=
  { name := "Smartphone", price := 999, cls := .Electronics (some 2) }

/-- The product `shirt` of lines 179-183. -/
def shirt : Product :=
  { name := "T-Shirt", price := 25, cls := .Clothing (some "M") }

/-- The user `user1` of line 167. -/
def user1 : User :=
  { name := "Alice", email := "alice@example.com" }

/-! ## The dependency-injection container -/

/-- A JavaScript value, as far as registering it as a service needs: the primitive values
and a reference to an object. -/
inductive Value where
  | undefined
  | null
  | bool (b : Bool)
  | num (x : ℚ)
  | str (s : String)
  | obj (ref : Nat)
  deriving DecidableEq, Repr

/-- What `!value` negates: `undefined`, `null`, `false`, `0` and the empty string are
falsy, every other value is truthy. -/
def Value.truthy : Value → Bool
  | .undefined => false
  | .null => false
  | .bool b => b
  | .num x => decide (x ≠ 0)
  | .str s => decide (s ≠ "")
  | .obj _ => true

/-- `map.get(key)` on a `Map` kept as the list of its entries: the value of the entry
with that key, `undefined` when there is none. -/
def Map.get : List (String × Value) → String → Value
  | [], _ => .undefined
  | (k, v) :: rest, key => if k = key then v else Map.get rest key

/-- `map.set(key, value)`: the entry with that key gets the value, or a new entry is
added at the end. -/
def Map.set : List (String × Value) → String → Value → List (String × Value)
  | [], key, value => [(key, value)]
  | (k, v) :: rest, key, value =>
    if k = key then (k, value) :: rest else (k, v) :: Map.set rest key value

/-- Field of a `Container` object: the `Map` `services`. -/
structure Container where
  services : List (String × Value)
  deriving DecidableEq, Repr

/-- The expression `new Container()`, lines 3-5. -/
def Container.new : Container :=
  { services := [] }

/-- `Container.register(name, service)`, lines 7-9. -/
def Container.register (this : Container) (name : String) (service : Value) : Container :=
  { this with services := Map.set this.services name service }

/-- `Container.resolve(name)`, lines 11-17. -/
def Container.resolve (this : Container) (name : String) : Completion Value :=
  let service := Map.get this.services name
  if !service.truthy then .threw ("Service " ++ name ++ " not found.")
  else .returned service

/-- A sequence of `register(name, service)` calls, one after the other. -/
def Container.registerAll (this : Container) (calls : List (String × Value)) : Container :=
  calls.foldl (fun c call => c.register call.1 call.2) this

/-- The service of the last call of the sequence that registers under `name`, if any. -/
def lastRegistered : List (String × Value) → String → Option Value
  | [], _ => none
  | (k, v) :: rest, name =>
    match lastRegistered rest name with
    | some later => some later
    | none => if k = name then some v else none

/-- The call threw. -/
def hasThrown {α : Type} : Completion α → Bool
  | .threw _ => true
  | .returned _ => false

end ECommerce

/-!
# Game entities (`12_OOPs_Javascript_Classes/Examples/GameEntityManagment.js`)

Entities live in a heap, `World.entities`, and a reference is an index into it: the pool,
the variables of the script and the arguments of `attack` may name the same object. A
call returns `none` when it throws a `TypeError` for a reference that names no object,
which every method does, if at all, before it changes anything.
-/

namespace Game

open Banking (Part Text)

/-- The object `{ x, y }` of `position`. -/
structure Position where
  x : ℚ
  y : ℚ
  deriving DecidableEq, Repr

/-- The concrete class of an entity; a player carries the variable `_inventory` that its
`getInventory` closes over. -/
inductive EntityClass where
  | Player (_inventory : Option (List String))
  | Enemy
  deriving DecidableEq, Repr

/-- Fields of a `Player` or `Enemy` object. -/
structure Entity where
  name : String
  position : Position
  health : ℚ
  attackPower : ℚ
  isAlive : Bool
  cls : EntityClass
  deriving DecidableEq, Repr

/-- The entity objects and the console. -/
structure World where
  entities : List Entity
  console : List Text
  deriving DecidableEq, Repr

/-- Dereference an entity. -/
def World.entity? (w : World) (ref : Nat) : Option Entity :=
  w.entities[ref]?

/-- Overwrite the object behind a reference. -/
def World.setEntity (w : World) (ref : Nat) (e : Entity) : World :=
  { w with entities := w.entities.set ref e }

/-- `console.log` of one line. -/
def World.log (w : World) (line : Text) : World :=
  { w with console := w.console ++ [line] }

/-- `MovableMixin.move(x, y)`, lines 3-9. -/
def MovableMixin.move (w : World) (this : Nat) (x y : ℚ) : Option World :=
  match w.entity? this with
  | none => none
  | some e =>
    let e1 := { e with position := { x := e.position.x + x, y := e.position.y + y } }
    some ((w.setEntity this e1).log
      [.str e1.name, .str " moved to (", .num e1.position.x, .str ", ", .num e1.position.y,
       .str ")"])

/-- `HealthMixin.takeDamage(amount)`, lines 26-34. -/
def HealthMixin.takeDamage (w : World) (this : Nat) (amount : ℚ) : Option World :=
  match w.entity? this with
  | none => none
  | some e =>
    let e1 := { e with health := e.health - amount }
    if e1.health ≤ 0 then
      some ((w.setEntity this { e1 with isAlive := false }).log
        [.str e1.name, .str " has been defeated!"])
    else
      some ((w.setEntity this e1).log [.str e1.name, .str "\x27s health is now ", .num e1.health])

/-- `AttackableMixin.attack(target)`, lines 13-22. -/
def AttackableMixin.attack (w : World) (this target : Nat) : Option World :=
  match w.entity? this, w.entity? target with
  | some attacker, some t =>
    if !t.isAlive then
      some (w.log [.str t.name, .str " is already defeated!"])
    else
      HealthMixin.takeDamage
        (w.log [.str attacker.name, .str " attacks ", .str t.name, .str " for ",
                .num attacker.attackPower, .str " damage!"])
        target attacker.attackPower
  | _, _ => none

/-- The state `new Player(name)` gives a player, lines 39-42 and 50-56. -/
def Player.fresh (name : String) : Entity :=
  { name := name, position := { x := 0, y := 0 }, health := 100, attackPower := 10,
    isAlive := true, cls := .Player none }

/-- The state `new Enemy(name)` gives an enemy, lines 39-42 and 69-74. -/
def Enemy.fresh (name : String) : Entity :=
  { name := name, position := { x := 0, y := 0 }, health := 50, attackPower := 5,
    isAlive := true, cls := .Enemy }

/-- The expression `new Player(name)`: the reference of the new object and the world. -/
def Player.new (w : World) (name : String) : Nat × World :=
  (w.entities.length, { w with entities := w.entities ++ [Player.fresh name] })

/-- The expression `new Enemy(name)`: the reference of the new object and the world. -/
def Enemy.new (w : World) (name : String) : Nat × World :=
  (w.entities.length, { w with entities := w.entities ++ [Enemy.fresh name] })

/-- Field of an `EnemyPool` object: the array `pool`, its last element being the one
`pop` takes. -/
structure EnemyPool where
  pool : List Nat
  deriving DecidableEq, Repr

/-- The expression `new EnemyPool()`, lines 79-81. -/
def EnemyPool.new : EnemyPool :=
  { pool := [] }

/-- `EnemyPool.getEnemy(name)`, lines 83-95: the reference returned, the pool and the
world after the call. -/
def EnemyPool.getEnemy (w : World) (this : EnemyPool) (name : String) :
    Option (Nat × EnemyPool × World) :=
  match this.pool.getLast? with
  | some enemy =>
    match w.entity? enemy with
    | none => none
    | some e =>
      some (enemy, { pool := this.pool.dropLast },
        (w.log [.str "Reusing enemy: ", .str e.name]).setEntity enemy
          { e with name := name, health := 50, isAlive := true })
  | none =>
    let (ref, w1) := Enemy.new (w.log [.str "Creating new enemy: ", .str name]) name
    some (ref, this, w1)

/-- `EnemyPool.releaseEnemy(enemy)`, lines 97-100. -/
def EnemyPool.releaseEnemy (w : World) (this : EnemyPool) (enemy : Nat) :
    Option (EnemyPool × World) :=
  match w.entity? enemy with
  | none => none
  | some e =>
    some ({ pool := this.pool ++ [enemy] }, w.log [.str "Releasing enemy: ", .str e.name])

/-- A sequence of calls `attacker.attack(target)`, given as pairs (attacker, target). -/
def runAttacks (w : World) : List (Nat × Nat) → Option World
  | [] => some w
  | (attacker, target) :: rest =>
    match AttackableMixin.attack w attacker target with
    | none => none
    | some w1 => runAttacks w1 rest

/-- The entity that `takeDamage(amount)` leaves. -/
def Entity.damaged (e : Entity) (amount : ℚ) : Entity :=
  if e.health - amount ≤ 0 then { e with health := e.health - amount, isAlive := false }
  else { e with health := e.health - amount }

/-- The entity that the reuse branch of `getEnemy(name)` leaves. -/
def Entity.reused (e : Entity) (name : String) : Entity :=
  { e with name := name, health := 50, isAlive := true }

/-- An entity whose `isAlive` flag agrees with its health. -/
def Entity.consistent (e : Entity) : Prop :=
  e.isAlive = true ↔ 0 < e.health

/-- How an entity may have changed over a sequence of attacks: its attack power is the
same, and if its flag agreed with its health it still does and the health has not grown. -/
def Entity.Evolves (e e1 : Entity) : Prop :=
  e1.attackPower = e.attackPower ∧ (e.consistent → e1.consistent ∧ e1.health ≤ e.health)

/-- Every entity of the first world is still there in the second, evolved. -/
def WorldEvolves (w w1 : World) : Prop :=
  ∀ q e, w.entity? q = some e → ∃ e1, w1.entity? q = some e1 ∧ e.Evolves e1

/-- The world of the script after lines 126-136: reference `0` is `player` (`Hero`),
`1` is `goblin` and `2` is `orc`, both obtained from the empty pool. -/
def scriptWorld : World :=
  { entities := [Player.fresh "Hero", Enemy.fresh "Goblin", Enemy.fresh "Orc"],
    console := [[.str "Creating new enemy: ", .str "Goblin"],
                [.str "Creating new enemy: ", .str "Orc"]] }

end Game

namespace IEEE

/-! ## Rounding to the nearest double -/

theorem floor_le_roundHalfEven (t : ℚ) : ⌊t⌋ ≤ roundHalfEven t := by
  unfold roundHalfEven
  split_ifs <;> omega

theorem roundHalfEven_le_floor_add_one (t : ℚ) : roundHalfEven t ≤ ⌊t⌋ + 1 := by
  unfold roundHalfEven
  split_ifs <;> omega

theorem roundHalfEven_intCast (n : ℤ) : roundHalfEven (n : ℚ) = n := by
  unfold roundHalfEven
  simp

theorem le_roundHalfEven {N : ℤ} {t : ℚ} (h : (N : ℚ) ≤ t) : N ≤ roundHalfEven t :=
  le_trans (Int.le_floor.mpr h) (floor_le_roundHalfEven t)

theorem roundHalfEven_le {N : ℤ} {t : ℚ} (h : t ≤ (N : ℚ)) : roundHalfEven t ≤ N := by
  rcases eq_or_lt_of_le h with heq | hlt
  · rw [heq, roundHalfEven_intCast]
  · have : ⌊t⌋ < N := Int.floor_lt.mpr hlt
    have := roundHalfEven_le_floor_add_one t
    omega

theorem roundHalfEven_mono {s t : ℚ} (h : s ≤ t) : roundHalfEven s ≤ roundHalfEven t := by
  have hf : ⌊s⌋ ≤ ⌊t⌋ := Int.floor_mono h
  rcases eq_or_lt_of_le hf with heq | hlt
  · unfold roundHalfEven
    rw [heq]
    have hst : s - ⌊t⌋ ≤ t - ⌊t⌋ := by linarith
    split_ifs <;> first | omega | (exfalso; linarith)
  · have h1 := roundHalfEven_le_floor_add_one s
    have h2 := floor_le_roundHalfEven t
    omega

theorem two_zpow_pos (e : ℤ) : (0 : ℚ) < 2 ^ e := zpow_pos (by norm_num) e

theorem roundMagnitude_zero : roundMagnitude 0 = 0 := by
  simp [roundMagnitude, roundHalfEven]

theorem roundMagnitude_nonneg {a : ℚ} (h : 0 ≤ a) : 0 ≤ roundMagnitude a := by
  unfold roundMagnitude
  have hpos := two_zpow_pos (ulpExponent a)
  have h0 : ((0 : ℤ) : ℚ) ≤ a / 2 ^ ulpExponent a := by
    simpa using div_nonneg h hpos.le
  have := le_roundHalfEven h0
  have hc : (0 : ℚ) ≤ (roundHalfEven (a / 2 ^ ulpExponent a) : ℚ) := by exact_mod_cast this
  exact mul_nonneg hc hpos.le

/-- A magnitude below a power of two whose exponent is in the range of the grid rounds to
at most that power. -/
theorem roundMagnitude_le_pow {a : ℚ} {E : ℤ} (hE : max (Int.log 2 a) (-1022) + 1 ≤ E)
    (ha : a ≤ 2 ^ E) : roundMagnitude a ≤ 2 ^ E := by
  unfold roundMagnitude ulpExponent
  set M := max (Int.log 2 a) (-1022) with hM
  have hpos := two_zpow_pos (M - 52)
  have hk : 0 ≤ E - (M - 52) := by omega
  have hsplit : (2 : ℚ) ^ E = ((2 ^ (E - (M - 52)).toNat : ℤ) : ℚ) * 2 ^ (M - 52) := by
    have h1 : ((2 ^ (E - (M - 52)).toNat : ℤ) : ℚ) = 2 ^ (E - (M - 52)) := by
      push_cast
      rw [← zpow_natCast]
      congr 1
      exact Int.toNat_of_nonneg hk
    rw [h1, ← zpow_add₀ (by norm_num : (2 : ℚ) ≠ 0)]
    congr 1
    ring
  have hle : a / 2 ^ (M - 52) ≤ ((2 ^ (E - (M - 52)).toNat : ℤ) : ℚ) := by
    rw [div_le_iff₀ hpos, ← hsplit]
    exact ha
  have hr := roundHalfEven_le hle
  have hc : (roundHalfEven (a / 2 ^ (M - 52)) : ℚ) ≤ ((2 ^ (E - (M - 52)).toNat : ℤ) : ℚ) := by
    exact_mod_cast hr
  rw [hsplit]
  exact mul_le_mul_of_nonneg_right hc hpos.le

/-- A magnitude at or above the power of two of its own binade rounds to at least it. -/
theorem pow_le_roundMagnitude {a : ℚ} {E : ℤ} (hE : E = max (Int.log 2 a) (-1022))
    (ha : 2 ^ E ≤ a) : 2 ^ E ≤ roundMagnitude a := by
  unfold roundMagnitude ulpExponent
  rw [← hE]
  have hpos := two_zpow_pos (E - 52)
  have hsplit : (2 : ℚ) ^ E = ((2 ^ 52 : ℤ) : ℚ) * 2 ^ (E - 52) := by
    have h1 : ((2 ^ 52 : ℤ) : ℚ) = 2 ^ (52 : ℤ) := by norm_num
    rw [h1, ← zpow_add₀ (by norm_num : (2 : ℚ) ≠ 0)]
    congr 1
    ring
  have hle : ((2 ^ 52 : ℤ) : ℚ) ≤ a / 2 ^ (E - 52) := by
    rw [le_div_iff₀ hpos, ← hsplit]
    exact ha
  have hr := le_roundHalfEven hle
  have hc : ((2 ^ 52 : ℤ) : ℚ) ≤ (roundHalfEven (a / 2 ^ (E - 52)) : ℚ) := by
    exact_mod_cast hr
  rw [hsplit]
  exact mul_le_mul_of_nonneg_right hc hpos.le

theorem roundMagnitude_mono {a b : ℚ} (ha : 0 ≤ a) (hab : a ≤ b) :
    roundMagnitude a ≤ roundMagnitude b := by
  rcases eq_or_lt_of_le ha with h0 | hpos
  · rw [← h0, roundMagnitude_zero]
    exact roundMagnitude_nonneg (le_trans ha hab)
  have hbpos : 0 < b := lt_of_lt_of_le hpos hab
  have hlog : Int.log 2 a ≤ Int.log 2 b := Int.log_mono_right hpos hab
  have hM : max (Int.log 2 a) (-1022) ≤ max (Int.log 2 b) (-1022) :=
    max_le_max hlog (le_refl _)
  rcases eq_or_lt_of_le hM with heq | hlt
  · unfold roundMagnitude ulpExponent
    rw [heq]
    have hp := two_zpow_pos (max (Int.log 2 b) (-1022) - 52)
    have hdiv : a / 2 ^ (max (Int.log 2 b) (-1022) - 52) ≤
        b / 2 ^ (max (Int.log 2 b) (-1022) - 52) :=
      div_le_div_of_nonneg_right hab hp.le
    have hr := roundHalfEven_mono hdiv
    have hc : (roundHalfEven (a / 2 ^ (max (Int.log 2 b) (-1022) - 52)) : ℚ) ≤
        (roundHalfEven (b / 2 ^ (max (Int.log 2 b) (-1022) - 52)) : ℚ) := by
      exact_mod_cast hr
    exact mul_le_mul_of_nonneg_right hc hp.le
  · -- the binade of `b` is strictly above that of `a`
    have hEb : max (Int.log 2 b) (-1022) = Int.log 2 b := by
      apply max_eq_left
      have : -1022 ≤ max (Int.log 2 a) (-1022) := le_max_right _ _
      omega
    have hb2 : (2 : ℚ) ^ (Int.log 2 b) ≤ b := by
      have := Int.zpow_log_le_self (b := 2) (by norm_num) hbpos
      simpa using this
    have ha2 : a < (2 : ℚ) ^ (Int.log 2 a + 1) := by
      have := Int.lt_zpow_succ_log_self (b := 2) (by norm_num) a
      simpa using this
    have hstep : (2 : ℚ) ^ (Int.log 2 a + 1) ≤ 2 ^ (max (Int.log 2 a) (-1022) + 1) :=
      zpow_le_zpow_right₀ (by norm_num) (by have := le_max_left (Int.log 2 a) (-1022); omega)
    have h1 : roundMagnitude a ≤ 2 ^ (max (Int.log 2 a) (-1022) + 1) :=
      roundMagnitude_le_pow (le_refl _) (le_of_lt (lt_of_lt_of_le ha2 hstep))
    have h2 : (2 : ℚ) ^ (Int.log 2 b) ≤ roundMagnitude b :=
      pow_le_roundMagnitude hEb.symm hb2
    have h3 : (2 : ℚ) ^ (max (Int.log 2 a) (-1022) + 1) ≤ 2 ^ (Int.log 2 b) :=
      zpow_le_zpow_right₀ (by norm_num) (by omega)
    exact le_trans h1 (le_trans h3 h2)

theorem roundNearest_zero : roundNearest 0 = 0 := by
  simp [roundNearest, roundMagnitude_zero]

theorem roundNearest_mono {x y : ℚ} (h : x ≤ y) : roundNearest x ≤ roundNearest y := by
  unfold roundNearest
  by_cases hx : 0 ≤ x
  · have hy : 0 ≤ y := le_trans hx h
    simp only [hx, hy, if_true]
    exact roundMagnitude_mono hx h
  · simp only [hx, if_false]
    have hx' : 0 ≤ -x := by linarith
    by_cases hy : 0 ≤ y
    · simp only [hy, if_true]
      have h1 := roundMagnitude_nonneg hx'
      have h2 := roundMagnitude_nonneg hy
      linarith
    · simp only [hy, if_false]
      have hy' : 0 ≤ -y := by linarith
      have := roundMagnitude_mono hy' (by linarith : -y ≤ -x)
      linarith

theorem roundNearest_neg (x : ℚ) : roundNearest (-x) = -roundNearest x := by
  unfold roundNearest
  rcases lt_trichotomy x 0 with h | h | h
  · have h1 : 0 ≤ -x := by linarith
    have h2 : ¬ 0 ≤ x := by linarith
    simp [h1, h2]
  · subst h
    simp [roundMagnitude_zero]
  · have h1 : ¬ 0 ≤ -x := by linarith
    have h2 : 0 ≤ x := by linarith
    simp [h1, h2]

theorem ofRat_neg (x : ℚ) : JSNumber.ofRat (-x) = (JSNumber.ofRat x).neg := by
  unfold JSNumber.ofRat
  rw [roundNearest_neg]
  have hp : (0 : ℚ) < 2 ^ 1024 := by positivity
  by_cases h1 : (2 : ℚ) ^ 1024 ≤ roundNearest x
  · have h2 : ¬ (2 : ℚ) ^ 1024 ≤ -roundNearest x := by linarith
    have h3 : -roundNearest x ≤ -2 ^ 1024 := by linarith
    simp [h1, h2, h3, JSNumber.neg]
  · by_cases h2 : roundNearest x ≤ -2 ^ 1024
    · have h3 : (2 : ℚ) ^ 1024 ≤ -roundNearest x := by linarith
      simp [h1, h2, h3, JSNumber.neg]
    · have h3 : ¬ (2 : ℚ) ^ 1024 ≤ -roundNearest x := by
        intro h; apply h2; linarith
      have h4 : ¬ -roundNearest x ≤ -2 ^ 1024 := by
        intro h; apply h1; linarith
      simp [h1, h2, h3, h4, JSNumber.neg]

theorem ofRat_zero : JSNumber.ofRat 0 = .fin 0 := by
  unfold JSNumber.ofRat
  rw [roundNearest_zero]
  norm_num

/-- A double at or below an exact result is at or below the double the result becomes. -/
theorem le_ofRat_of_le {f z : ℚ} (hf : JSNumber.ofRat f = .fin f) (h : f ≤ z) :
    (JSNumber.fin f).le (JSNumber.ofRat z) = true := by
  have hmono := roundNearest_mono h
  unfold JSNumber.ofRat at hf ⊢
  by_cases h1 : (2 : ℚ) ^ 1024 ≤ roundNearest z
  · simp [h1, JSNumber.le]
  · by_cases hf1 : (2 : ℚ) ^ 1024 ≤ roundNearest f
    · simp [hf1] at hf
    · by_cases hf2 : roundNearest f ≤ -2 ^ 1024
      · simp [hf1, hf2] at hf
      · simp only [hf1, hf2, if_false, JSNumber.fin.injEq] at hf
        have h2 : ¬ roundNearest z ≤ -2 ^ 1024 := by
          intro hz; apply hf2; linarith
        simp only [h1, h2, if_false, JSNumber.le, decide_eq_true_eq]
        linarith

theorem int_log_eq {a : ℚ} {E : ℤ} (h1 : 2 ^ E ≤ a) (h2 : a < 2 ^ (E + 1)) :
    Int.log 2 a = E := by
  have hpos : 0 < a := lt_of_lt_of_le (two_zpow_pos E) h1
  have hle : E ≤ Int.log 2 a := by
    rw [← Int.zpow_le_iff_le_log (by norm_num) hpos]
    simpa using h1
  have hlt : Int.log 2 a < E + 1 := by
    rw [← Int.lt_zpow_iff_log_lt (by norm_num) hpos]
    simpa using h2
  omega

/-- Evaluation of the rounding of a magnitude whose binade is known. -/
theorem roundMagnitude_eq {a : ℚ} {E n : ℤ} (h1 : 2 ^ E ≤ a) (h2 : a < 2 ^ (E + 1))
    (hE : -1022 ≤ E) (hn : roundHalfEven (a / 2 ^ (E - 52)) = n) :
    roundMagnitude a = n * 2 ^ (E - 52) := by
  unfold roundMagnitude ulpExponent
  rw [int_log_eq h1 h2, max_eq_left hE, hn]

theorem roundHalfEven_of_lt_half {t : ℚ} {n : ℤ} (h1 : (n : ℚ) ≤ t) (h2 : t < n + 1 / 2) :
    roundHalfEven t = n := by
  have hf : ⌊t⌋ = n := by
    rw [Int.floor_eq_iff]
    constructor
    · exact h1
    · linarith
  unfold roundHalfEven
  rw [hf]
  have : t - n < 1 / 2 := by linarith
  rw [if_pos this]

theorem roundHalfEven_of_gt_half {t : ℚ} {n : ℤ} (h1 : (n : ℚ) + 1 / 2 < t) (h2 : t < n + 1) :
    roundHalfEven t = n + 1 := by
  have hf : ⌊t⌋ = n := by
    rw [Int.floor_eq_iff]
    constructor
    · linarith
    · exact h2
  unfold roundHalfEven
  rw [hf]
  have h3 : ¬ t - n < 1 / 2 := by linarith
  have h4 : 1 / 2 < t - n := by linarith
  rw [if_neg h3, if_pos h4]

theorem roundHalfEven_tie {t : ℚ} {n : ℤ} (h : t = n + 1 / 2) :
    roundHalfEven t = if n % 2 = 0 then n else n + 1 := by
  have hf : ⌊t⌋ = n := by
    rw [Int.floor_eq_iff]
    constructor <;> linarith
  unfold roundHalfEven
  rw [hf]
  have h3 : ¬ t - n < 1 / 2 := by linarith
  have h4 : ¬ 1 / 2 < t - n := by linarith
  rw [if_neg h3, if_neg h4]

/-- A natural number below `2^53` is a double. -/
theorem roundNearest_natCast (n : ℕ) (h : n < 2 ^ 53) : roundNearest (n : ℚ) = n := by
  have h0 : (0 : ℚ) ≤ n := Nat.cast_nonneg n
  unfold roundNearest
  simp only [h0, if_true]
  rcases Nat.eq_zero_or_pos n with hz | hpos
  · subst hz
    simp [roundMagnitude_zero]
  unfold roundMagnitude ulpExponent
  rw [Int.log_natCast]
  have hlog : Nat.log 2 n < 53 := Nat.log_lt_of_lt_pow (by omega) h
  have hmax : max ((Nat.log 2 n : ℕ) : ℤ) (-1022) = (Nat.log 2 n : ℤ) := by
    apply max_eq_left
    omega
  rw [hmax]
  have hpow : (2 : ℚ) ^ ((Nat.log 2 n : ℤ) - 52) = 1 / 2 ^ (52 - Nat.log 2 n) := by
    have : ((Nat.log 2 n : ℤ) - 52) = -((52 - Nat.log 2 n : ℕ) : ℤ) := by omega
    rw [this, zpow_neg, zpow_natCast]
    simp
  rw [hpow]
  have hint : (n : ℚ) / (1 / 2 ^ (52 - Nat.log 2 n)) = ((n * 2 ^ (52 - Nat.log 2 n) : ℤ) : ℚ) := by
    push_cast
    field_simp
  rw [hint, roundHalfEven_intCast]
  push_cast
  field_simp

theorem ofRat_natCast (n : ℕ) (h : n < 2 ^ 53) : JSNumber.ofRat (n : ℚ) = .fin n := by
  unfold JSNumber.ofRat
  rw [roundNearest_natCast n h]
  have h1 : (n : ℚ) < 2 ^ 53 := by exact_mod_cast h
  have h2 : ¬ (2 : ℚ) ^ 1024 ≤ n := by
    intro hc
    have : (2 : ℚ) ^ 53 ≤ 2 ^ 1024 := by norm_num
    linarith
  have h3 : ¬ (n : ℚ) ≤ -2 ^ 1024 := by
    intro hc
    have : (0 : ℚ) ≤ n := Nat.cast_nonneg n
    have : (0 : ℚ) < 2 ^ 1024 := by positivity
    linarith
  simp [h2, h3]

theorem ofRat_eq_of_roundNearest {x r : ℚ} (h : roundNearest x = r) (h1 : r < 2 ^ 1024)
    (h2 : -2 ^ 1024 < r) : JSNumber.ofRat x = .fin r := by
  unfold JSNumber.ofRat
  rw [h, if_neg (not_le.mpr h1), if_neg (not_le.mpr h2)]

/-- `2^53 + 1` is halfway between two doubles and becomes the even one, `2^53`. -/
theorem ofRat_two_pow_53_add_one :
    JSNumber.ofRat (9007199254740992 + 1) = .fin 9007199254740992 := by
  apply ofRat_eq_of_roundNearest _ (by norm_num) (by norm_num)
  unfold roundNearest
  rw [if_pos (by norm_num)]
  have hn : roundHalfEven ((9007199254740992 + 1 : ℚ) / 2 ^ ((53 : ℤ) - 52)) =
      4503599627370496 := by
    rw [roundHalfEven_tie (n := 4503599627370496) (by norm_num)]
    decide
  rw [roundMagnitude_eq (E := 53) (by norm_num) (by norm_num) (by norm_num) hn]
  norm_num

end IEEE

namespace Banking

/-! ## Heap lookups after the elementary mutations -/

theorem account?_log (w : World) (message : Text) (r : Nat) :
    (Logger.log w message).account? r = w.account? r := rfl

theorem account?_setAccount_self {w : World} {r : Nat} {a : BankAccount}
    (h : w.account? r = some a) (b : BankAccount) :
    (w.setAccount r b).account? r = some b := by
  have hlt : r < w.heap.length := by
    by_contra hge
    have hnone : w.heap[r]? = none := List.getElem?_eq_none (Nat.le_of_not_lt hge)
    simp [World.account?, hnone] at h
  simp [World.account?, World.setAccount, List.getElem?_set, hlt]

theorem account?_setAccount_ne (w : World) {r q : Nat} (hne : q ≠ r) (b : BankAccount) :
    (w.setAccount r b).account? q = w.account? q := by
  simp [World.account?, World.setAccount, List.getElem?_set, Ne.symm hne]

theorem account?_recordTransaction_self {w : World} {r : Nat} {a : BankAccount}
    (h : w.account? r = some a) (detail : Text) :
    (BankAccount._recordTransaction w r detail).account? r =
      some { a with transactionHistory :=
                      a.transactionHistory ++ [{ date := w.dates 0, detail := detail }] } := by
  have h1 : ({ w with dates := fun n => w.dates (n + 1) } : World).account? r = some a := h
  simp only [BankAccount._recordTransaction, h, World.newDate]
  exact account?_setAccount_self h1 _

theorem account?_recordTransaction_ne (w : World) {r q : Nat} (hne : q ≠ r) (detail : Text) :
    (BankAccount._recordTransaction w r detail).account? q = w.account? q := by
  unfold BankAccount._recordTransaction
  cases h : w.account? r with
  | none => rfl
  | some a =>
    simp only [World.newDate]
    rw [account?_setAccount_ne _ hne]
    rfl

/-! ## What `deposit` and `withdraw` do -/

theorem deposit_of_none {w : World} {r : Nat} (h : w.account? r = none) (amount : ℚ) :
    BankAccount.deposit w r amount = ⟨.threw typeError, w⟩ := by
  simp [BankAccount.deposit, h]

theorem deposit_of_nonpos {w : World} {r : Nat} {a : BankAccount}
    (h : w.account? r = some a) {amount : ℚ} (hle : amount ≤ 0) :
    BankAccount.deposit w r amount =
      ⟨.threw "Deposit amount must be greater than zero.", w⟩ := by
  simp [BankAccount.deposit, h, hle]

theorem deposit_of_pos {w : World} {r : Nat} {a : BankAccount}
    (h : w.account? r = some a) {amount : ℚ} (hpos : 0 < amount) :
    (BankAccount.deposit w r amount).completion = .returned () ∧
    (BankAccount.deposit w r amount).world.account? r =
      some (a.afterDeposit amount (w.dates 0)) ∧
    ∀ q, q ≠ r → (BankAccount.deposit w r amount).world.account? q = w.account? q := by
  have hnot : ¬ amount ≤ 0 := not_le.mpr hpos
  simp only [BankAccount.deposit, h, hnot, if_false]
  refine ⟨trivial, ?_, ?_⟩
  · rw [account?_log, account?_recordTransaction_self (account?_setAccount_self h _)]
    rfl
  · intro q hq
    rw [account?_log, account?_recordTransaction_ne _ hq, account?_setAccount_ne _ hq]

theorem base_withdraw_of_none {w : World} {r : Nat} (h : w.account? r = none) (amount : ℚ) :
    BankAccount.withdraw w r amount = ⟨.threw typeError, w⟩ := by
  simp [BankAccount.withdraw, h]

theorem base_withdraw_of_gt {w : World} {r : Nat} {a : BankAccount}
    (h : w.account? r = some a) {amount : ℚ} (hgt : amount > a._balance) :
    BankAccount.withdraw w r amount = ⟨.threw "Insufficient funds.", w⟩ := by
  simp [BankAccount.withdraw, h, hgt]

theorem base_withdraw_of_le {w : World} {r : Nat} {a : BankAccount}
    (h : w.account? r = some a) {amount : ℚ} (hle : amount ≤ a._balance) :
    (BankAccount.withdraw w r amount).completion = .returned () ∧
    (BankAccount.withdraw w r amount).world.account? r =
      some (a.afterWithdraw amount (w.dates 0)) ∧
    ∀ q, q ≠ r → (BankAccount.withdraw w r amount).world.account? q = w.account? q := by
  have hnot : ¬ amount > a._balance := not_lt.mpr hle
  simp only [BankAccount.withdraw, h, hnot, if_false]
  refine ⟨trivial, ?_, ?_⟩
  · rw [account?_log, account?_recordTransaction_self (account?_setAccount_self h _)]
    rfl
  · intro q hq
    rw [account?_log, account?_recordTransaction_ne _ hq, account?_setAccount_ne _ hq]

/-! ## Every call changes an account only through steps of `deposit` and `withdraw` -/

theorem accountSteps_refl (a : BankAccount) : AccountSteps a a :=
  Relation.ReflTransGen.refl

theorem accountSteps_single {a b : BankAccount} (h : AccountStep a b) : AccountSteps a b :=
  Relation.ReflTransGen.single h

theorem accountSteps_trans {a b c : BankAccount} (h₁ : AccountSteps a b)
    (h₂ : AccountSteps b c) : AccountSteps a c :=
  Relation.ReflTransGen.trans h₁ h₂

theorem stepsOnly_refl (w : World) : StepsOnly w w :=
  fun _ a h => ⟨a, h, accountSteps_refl a⟩

theorem stepsOnly_trans {w w1 w2 : World} (h₁ : StepsOnly w w1) (h₂ : StepsOnly w1 w2) :
    StepsOnly w w2 := by
  intro r a h
  obtain ⟨b, hb, hab⟩ := h₁ r a h
  obtain ⟨c, hc, hbc⟩ := h₂ r b hb
  exact ⟨c, hc, accountSteps_trans hab hbc⟩

theorem stepsOnly_log {w w1 : World} (h : StepsOnly w w1) (message : Text) :
    StepsOnly w (Logger.log w1 message) := by
  intro r a hr
  obtain ⟨b, hb, hab⟩ := h r a hr
  exact ⟨b, by rw [account?_log]; exact hb, hab⟩

theorem deposit_stepsOnly (w : World) (this : Nat) (amount : ℚ) :
    StepsOnly w (BankAccount.deposit w this amount).world := by
  cases hthis : w.account? this with
  | none => rw [deposit_of_none hthis]; exact stepsOnly_refl w
  | some acc =>
    rcases le_or_lt amount 0 with hle | hpos
    · rw [deposit_of_nonpos hthis hle]; exact stepsOnly_refl w
    · obtain ⟨-, hself, hother⟩ := deposit_of_pos hthis hpos
      intro r a hr
      by_cases hrt : r = this
      · subst hrt
        rw [hthis] at hr
        cases hr
        exact ⟨_, hself, accountSteps_single (.deposited _ _ _ hpos)⟩
      · exact ⟨a, by rw [hother r hrt]; exact hr, accountSteps_refl a⟩

theorem base_withdraw_stepsOnly (w : World) (this : Nat) (amount : ℚ)
    (hover : ∀ acc overdraftLimit, w.account? this = some acc →
      acc.cls = .CurrentAccount overdraftLimit → amount ≤ acc._balance + overdraftLimit) :
    StepsOnly w (BankAccount.withdraw w this amount).world := by
  cases hthis : w.account? this with
  | none => rw [base_withdraw_of_none hthis]; exact stepsOnly_refl w
  | some acc =>
    rcases lt_or_le acc._balance amount with hgt | hle
    · rw [base_withdraw_of_gt hthis hgt]; exact stepsOnly_refl w
    · obtain ⟨-, hself, hother⟩ := base_withdraw_of_le hthis hle
      intro r a hr
      by_cases hrt : r = this
      · subst hrt
        rw [hthis] at hr
        cases hr
        exact ⟨_, hself,
          accountSteps_single (.withdrew _ _ _ hle (fun L hL => hover _ L hthis hL))⟩
      · exact ⟨a, by rw [hother r hrt]; exact hr, accountSteps_refl a⟩

theorem withdraw_of_none {w : World} {r : Nat} (h : w.account? r = none) (amount : ℚ) :
    withdraw w r amount = ⟨.threw typeError, w⟩ := by
  simp [withdraw, h]

theorem withdraw_of_savings {w : World} {r : Nat} {a : BankAccount} {rate : ℚ}
    (h : w.account? r = some a) (hcls : a.cls = .SavingsAccount rate) (amount : ℚ) :
    withdraw w r amount = BankAccount.withdraw w r amount := by
  simp [withdraw, h, hcls]

theorem withdraw_of_current {w : World} {r : Nat} {a : BankAccount} {limit : ℚ}
    (h : w.account? r = some a) (hcls : a.cls = .CurrentAccount limit) (amount : ℚ) :
    withdraw w r amount =
      if amount > a._balance + limit then ⟨.threw "Overdraft limit exceeded.", w⟩
      else BankAccount.withdraw w r amount := by
  simp [withdraw, CurrentAccount.withdraw, h, hcls]

theorem withdraw_stepsOnly (w : World) (account : Nat) (amount : ℚ) :
    StepsOnly w (withdraw w account amount).world := by
  cases hacc : w.account? account with
  | none => rw [withdraw_of_none hacc]; exact stepsOnly_refl w
  | some acc =>
    cases hcls : acc.cls with
    | SavingsAccount rate =>
      rw [withdraw_of_savings hacc hcls]
      apply base_withdraw_stepsOnly
      intro acc1 L h1 hL
      rw [hacc] at h1
      cases h1
      rw [hcls] at hL
      cases hL
    | CurrentAccount limit =>
      rw [withdraw_of_current hacc hcls]
      by_cases hgt : amount > acc._balance + limit
      · rw [if_pos hgt]; exact stepsOnly_refl w
      · rw [if_neg hgt]
        apply base_withdraw_stepsOnly
        intro acc1 L h1 hL
        rw [hacc] at h1
        cases h1
        rw [hcls] at hL
        cases hL
        exact not_lt.mp hgt

theorem applyInterest_world (w : World) (this : Nat) :
    SavingsAccount.applyInterest w this = ⟨.threw typeError, w⟩ ∨
    ∃ acc rate, w.account? this = some acc ∧ acc.cls = .SavingsAccount rate ∧
      ((BankAccount.deposit w this (acc._balance * rate / 100)).completion = .returned () ∧
        SavingsAccount.applyInterest w this =
          ⟨.returned (), Logger.log (BankAccount.deposit w this (acc._balance * rate / 100)).world
            [.str "Interest of ", .num (acc._balance * rate / 100),
             .str " applied to savings account ", .str acc.accountNumber]⟩ ∨
       (∃ e, (BankAccount.deposit w this (acc._balance * rate / 100)).completion = .threw e) ∧
        SavingsAccount.applyInterest w this =
          BankAccount.deposit w this (acc._balance * rate / 100)) := by
  cases hacc : w.account? this with
  | none => left; simp [SavingsAccount.applyInterest, hacc]
  | some acc =>
    cases hcls : acc.cls with
    | CurrentAccount limit => left; simp [SavingsAccount.applyInterest, hacc, hcls]
    | SavingsAccount rate =>
      right
      refine ⟨acc, rate, rfl, hcls, ?_⟩
      cases hdep : BankAccount.deposit w this (acc._balance * rate / 100) with
      | mk c w1 =>
        cases c with
        | returned v => left; simp [SavingsAccount.applyInterest, hacc, hcls, hdep]
        | threw e => right; simp [SavingsAccount.applyInterest, hacc, hcls, hdep]

theorem applyInterest_stepsOnly (w : World) (this : Nat) :
    StepsOnly w (SavingsAccount.applyInterest w this).world := by
  rcases applyInterest_world w this with h | ⟨acc, rate, -, -, ⟨-, h⟩ | ⟨-, h⟩⟩
  · rw [h]; exact stepsOnly_refl w
  · rw [h]; exact stepsOnly_log (deposit_stepsOnly w this _) _
  · rw [h]; exact deposit_stepsOnly w this _

theorem transfer_world (w : World) (fromAccount toAccount : Nat) (amount : ℚ) :
    ((∃ e, (withdraw w fromAccount amount).completion = .threw e) ∧
      TransactionService.transfer w fromAccount toAccount amount =
        withdraw w fromAccount amount) ∨
    ((withdraw w fromAccount amount).completion = .returned () ∧
      (∃ e, (deposit (withdraw w fromAccount amount).world toAccount amount).completion
              = .threw e) ∧
      TransactionService.transfer w fromAccount toAccount amount =
        deposit (withdraw w fromAccount amount).world toAccount amount) ∨
    ((withdraw w fromAccount amount).completion = .returned () ∧
      (deposit (withdraw w fromAccount amount).world toAccount amount).completion
        = .returned () ∧
      ∃ message c,
        TransactionService.transfer w fromAccount toAccount amount =
          ⟨c, Logger.log (deposit (withdraw w fromAccount amount).world toAccount amount).world
                message⟩ ∨
        TransactionService.transfer w fromAccount toAccount amount =
          ⟨c, (deposit (withdraw w fromAccount amount).world toAccount amount).world⟩) := by
  cases hw : withdraw w fromAccount amount with
  | mk c w1 =>
    cases c with
    | threw e => left; simp [TransactionService.transfer, hw]
    | returned v =>
      right
      cases hd : deposit w1 toAccount amount with
      | mk c2 w2 =>
        cases c2 with
        | threw e => left; simp [TransactionService.transfer, hw, hd]
        | returned v2 =>
          right
          refine ⟨rfl, by simp [hd], ?_⟩
          cases hf : w2.account? fromAccount with
          | none =>
            exact ⟨[], .threw typeError,
              Or.inr (by simp [TransactionService.transfer, hw, hd, hf])⟩
          | some f =>
            cases ht : w2.account? toAccount with
            | none =>
              exact ⟨[], .threw typeError,
                Or.inr (by simp [TransactionService.transfer, hw, hd, hf, ht])⟩
            | some t =>
              exact ⟨[.str "Transferred ", .num amount, .str " from ", .str f.accountNumber,
                      .str " to ", .str t.accountNumber], .returned (),
                Or.inl (by simp [TransactionService.transfer, hw, hd, hf, ht])⟩

theorem transfer_stepsOnly (w : World) (fromAccount toAccount : Nat) (amount : ℚ) :
    StepsOnly w (TransactionService.transfer w fromAccount toAccount amount).world := by
  have h1 := withdraw_stepsOnly w fromAccount amount
  have h2 := deposit_stepsOnly (withdraw w fromAccount amount).world toAccount amount
  rcases transfer_world w fromAccount toAccount amount with
    ⟨-, h⟩ | ⟨-, -, h⟩ | ⟨-, -, message, c, h | h⟩
  · rw [h]; exact h1
  · rw [h]; exact stepsOnly_trans h1 h2
  · rw [h]; exact stepsOnly_log (stepsOnly_trans h1 h2) _
  · rw [h]; exact stepsOnly_trans h1 h2

theorem exec_stepsOnly (w : World) (c : Call) : StepsOnly w (c.exec w).world := by
  cases c with
  | deposit account amount => exact deposit_stepsOnly w account amount
  | withdraw account amount => exact withdraw_stepsOnly w account amount
  | applyInterest account => exact applyInterest_stepsOnly w account
  | transfer fromAccount toAccount amount =>
    exact transfer_stepsOnly w fromAccount toAccount amount

theorem runCalls_stepsOnly (calls : List Call) (w : World) :
    StepsOnly w (runCalls w calls) := by
  induction calls generalizing w with
  | nil => exact stepsOnly_refl w
  | cons c cs ih => exact stepsOnly_trans (exec_stepsOnly w c) (ih _)

/-! ## Withdrawals -/

/-- C2 (evaluation of the code). On the current account of the example, balance 10000 and
overdraft limit 2000, `withdraw(11500)` passes the check of `CurrentAccount.withdraw`
(11500 is not above 10000 + 2000) and is then rejected by `super.withdraw`: the call
throws `"Insufficient funds."` and the balance stays 10000. -/
theorem overdraft_withdraw_rejected :
    (11500 : ℚ) ≤ 10000 + 2000 ∧
    (withdraw exampleWorld 1 11500).completion = .threw "Insufficient funds." ∧
    BankAccount.getBalance (withdraw exampleWorld 1 11500).world 1 = some 10000 := by
  have hacc : exampleWorld.account? 1 = some ⟨"CA456", 10000, [], .CurrentAccount 2000⟩ := rfl
  have h : withdraw exampleWorld 1 11500 = ⟨.threw "Insufficient funds.", exampleWorld⟩ := by
    rw [withdraw_of_current hacc rfl, if_neg (by norm_num),
      base_withdraw_of_gt hacc (by norm_num)]
  rw [h]
  exact ⟨by norm_num, rfl, rfl⟩

/-- C3. `withdraw(amount)` on a savings account throws (`"Insufficient funds."`) whenever
`amount > balance`, and on a current account throws (`"Overdraft limit exceeded."`)
whenever `amount > balance + overdraftLimit`; in both cases nothing is changed. -/
theorem withdraw_fails_above_limit (w : World) (account : Nat) (acc : BankAccount)
    (hacc : w.account? account = some acc) (amount : ℚ) :
    (∀ rate, acc.cls = .SavingsAccount rate → amount > acc._balance →
      (withdraw w account amount).failed = true ∧
      withdraw w account amount = ⟨.threw "Insufficient funds.", w⟩) ∧
    (∀ limit, acc.cls = .CurrentAccount limit → amount > acc._balance + limit →
      (withdraw w account amount).failed = true ∧
      withdraw w account amount = ⟨.threw "Overdraft limit exceeded.", w⟩) := by
  constructor
  · intro rate hcls hgt
    have h : withdraw w account amount = ⟨.threw "Insufficient funds.", w⟩ := by
      rw [withdraw_of_savings hacc hcls, base_withdraw_of_gt hacc hgt]
    exact ⟨by rw [h]; rfl, h⟩
  · intro limit hcls hgt
    have h : withdraw w account amount = ⟨.threw "Overdraft limit exceeded.", w⟩ := by
      rw [withdraw_of_current hacc hcls, if_pos hgt]
    exact ⟨by rw [h]; rfl, h⟩

/-- C3, at the two accounts of the example: `savingsAcc.withdraw(5001)` with balance 5000
and `currentAcc.withdraw(12001)` with balance 10000 and limit 2000 both throw. -/
theorem withdraw_fails_above_limit_witness :
    (withdraw exampleWorld 0 5001).failed = true ∧
    (withdraw exampleWorld 1 12001).failed = true :=
  ⟨((withdraw_fails_above_limit exampleWorld 0 ⟨"SA123", 5000, [], .SavingsAccount (5 / 2)⟩
      rfl 5001).1 (5 / 2) rfl (by norm_num)).1,
   ((withdraw_fails_above_limit exampleWorld 1 ⟨"CA456", 10000, [], .CurrentAccount 2000⟩
      rfl 12001).2 2000 rfl (by norm_num)).1⟩

/-- Every `withdraw` call either throws and leaves the world as it was, or returns having
taken `amount`, which was within the balance, from the receiver and nothing else. -/
theorem withdraw_cases (w : World) (r : Nat) (amount : ℚ) :
    (∃ e, withdraw w r amount = ⟨.threw e, w⟩) ∨
    (∃ acc, w.account? r = some acc ∧ amount ≤ acc._balance ∧
      (withdraw w r amount).completion = .returned () ∧
      (withdraw w r amount).world.account? r = some (acc.afterWithdraw amount (w.dates 0)) ∧
      ∀ q, q ≠ r → (withdraw w r amount).world.account? q = w.account? q) := by
  cases hacc : w.account? r with
  | none => exact Or.inl ⟨_, withdraw_of_none hacc amount⟩
  | some acc =>
    have hbase : (∃ e, BankAccount.withdraw w r amount = ⟨.threw e, w⟩) ∨
        (amount ≤ acc._balance ∧
          (BankAccount.withdraw w r amount).completion = .returned () ∧
          (BankAccount.withdraw w r amount).world.account? r =
            some (acc.afterWithdraw amount (w.dates 0)) ∧
          ∀ q, q ≠ r → (BankAccount.withdraw w r amount).world.account? q = w.account? q) := by
      rcases lt_or_le acc._balance amount with hgt | hle
      · exact Or.inl ⟨_, base_withdraw_of_gt hacc hgt⟩
      · exact Or.inr ⟨hle, base_withdraw_of_le hacc hle⟩
    cases hcls : acc.cls with
    | SavingsAccount rate =>
      rw [withdraw_of_savings hacc hcls]
      rcases hbase with h | h
      · exact Or.inl h
      · exact Or.inr ⟨acc, rfl, h⟩
    | CurrentAccount limit =>
      rw [withdraw_of_current hacc hcls]
      by_cases hgt : amount > acc._balance + limit
      · rw [if_pos hgt]; exact Or.inl ⟨_, rfl⟩
      · rw [if_neg hgt]
        rcases hbase with h | h
        · exact Or.inl h
        · exact Or.inr ⟨acc, rfl, h⟩

/-! ## Deposits -/

theorem failed_threw {α : Type} (e : String) (w : World) :
    (⟨.threw e, w⟩ : Outcome α).failed = true := rfl

theorem succeeded_of_returned {α : Type} {o : Outcome α} {v : α}
    (h : o.completion = .returned v) : o.succeeded = true := by
  simp [Outcome.succeeded, h]

theorem not_failed_of_returned {α : Type} {o : Outcome α} {v : α}
    (h : o.completion = .returned v) : o.failed = false := by
  simp [Outcome.failed, Outcome.succeeded, h]

/-! ## Transfers -/

/-- Once both steps of a transfer have returned, the transfer returns: the two property
reads of its log line cannot throw. -/
theorem transfer_returned_of_both (w : World) (a b : Nat) (amount : ℚ)
    (hwd : (withdraw w a amount).completion = .returned ())
    (hdp : (deposit (withdraw w a amount).world b amount).completion = .returned ()) :
    (TransactionService.transfer w a b amount).completion = .returned () := by
  have ha1 : ∃ x, (withdraw w a amount).world.account? a = some x := by
    rcases withdraw_cases w a amount with ⟨e, he⟩ | ⟨acc, -, -, -, hself, -⟩
    · rw [he] at hwd; cases hwd
    · exact ⟨_, hself⟩
  have hb1 : ∃ y, (withdraw w a amount).world.account? b = some y := by
    cases hb : (withdraw w a amount).world.account? b with
    | some y => exact ⟨y, rfl⟩
    | none =>
      unfold deposit at hdp
      rw [deposit_of_none hb] at hdp
      cases hdp
  obtain ⟨x, hx⟩ := ha1
  obtain ⟨y, hy⟩ := hb1
  obtain ⟨x2, hx2, -⟩ := deposit_stepsOnly (withdraw w a amount).world b amount a x hx
  obtain ⟨y2, hy2, -⟩ := deposit_stepsOnly (withdraw w a amount).world b amount b y hy
  cases hw : withdraw w a amount with
  | mk c w1 =>
    rw [hw] at hwd hdp hx2 hy2
    simp only at hwd hdp hx2 hy2
    subst hwd
    cases hd : deposit w1 b amount with
    | mk c2 w2 =>
      rw [hd] at hdp
      simp only at hdp
      subst hdp
      unfold deposit at hd
      rw [hd] at hx2 hy2
      simp only at hx2 hy2
      simp [TransactionService.transfer, hw, deposit, hd, hx2, hy2]

/-- With a positive amount and an existing destination, a transfer that throws has
thrown in its withdraw step and leaves the world as it was: the only failing transfers
that change something are those of a non-positive amount. -/
theorem transfer_failure_unchanged_of_pos (w : World) (a b : Nat) (accB : BankAccount)
    (hB : w.account? b = some accB) (amount : ℚ) (hpos : 0 < amount)
    (hfail : (TransactionService.transfer w a b amount).failed = true) :
    (TransactionService.transfer w a b amount).world = w := by
  rcases withdraw_cases w a amount with ⟨e, he⟩ | ⟨acc, -, -, hret, -, -⟩
  · simp [TransactionService.transfer, he]
  · exfalso
    obtain ⟨y, hy, -⟩ := withdraw_stepsOnly w a amount b accB hB
    have hdp : (deposit (withdraw w a amount).world b amount).completion = .returned () :=
      (deposit_of_pos hy hpos).1
    have hok := transfer_returned_of_both w a b amount hret hdp
    rw [not_failed_of_returned hok] at hfail
    cases hfail

/-- A successful `withdraw` of a non-negative amount does not raise the balance, takes
exactly `amount` and appends exactly one entry. -/
theorem withdraw_effect_of_nonneg (w : World) (r : Nat) (acc : BankAccount)
    (hacc : w.account? r = some acc) (amount : ℚ) (hnn : 0 ≤ amount)
    (hok : (withdraw w r amount).succeeded = true) :
    ∃ acc1 date, (withdraw w r amount).world.account? r = some acc1 ∧
      acc1._balance = acc._balance - amount ∧ acc1._balance ≤ acc._balance ∧
      acc1.transactionHistory =
        acc.transactionHistory ++ [⟨date, [.str "Withdrew ", .num amount]⟩] := by
  rcases withdraw_cases w r amount with ⟨e, he⟩ | ⟨acc0, hacc0, -, -, hself, -⟩
  · rw [he] at hok; cases hok
  · rw [hacc] at hacc0
    cases hacc0
    refine ⟨_, _, hself, rfl, ?_, rfl⟩
    show acc._balance - amount ≤ acc._balance
    linarith

/-- On a current account every amount above the balance and within the overdraft limit is
rejected by the base check, with nothing changed. -/
theorem current_withdraw_within_limit_rejected (w : World) (r : Nat) (acc : BankAccount)
    (limit : ℚ) (hacc : w.account? r = some acc) (hcls : acc.cls = .CurrentAccount limit)
    (amount : ℚ) (hgt : acc._balance < amount) (hle : amount ≤ acc._balance + limit) :
    withdraw w r amount = ⟨.threw "Insufficient funds.", w⟩ := by
  rw [withdraw_of_current hacc hcls, if_neg (not_lt.mpr hle), base_withdraw_of_gt hacc hgt]

/-- C6 (evaluation of the code). `transfer(savingsAcc, currentAcc, -5)` throws, from its
deposit step, after its withdraw step has returned: the call fails and yet the balance
of the source account went from 5000 to 5005 and its transaction history got the entry
`Withdrew -5`. -/
theorem transfer_failure_keeps_withdrawal :
    (TransactionService.transfer exampleWorld 0 1 (-5)).completion =
      .threw "Deposit amount must be greater than zero." ∧
    (withdraw exampleWorld 0 (-5)).succeeded = true ∧
    exampleWorld.account? 0 = some ⟨"SA123", 5000, [], .SavingsAccount (5 / 2)⟩ ∧
    (TransactionService.transfer exampleWorld 0 1 (-5)).world.account? 0 =
      some ⟨"SA123", 5005, [⟨1700000000000, [.str "Withdrew ", .num (-5)]⟩],
        .SavingsAccount (5 / 2)⟩ := by
  refine ⟨by decide, by decide, rfl, ?_⟩
  have h : (TransactionService.transfer exampleWorld 0 1 (-5)).world.account? 0 =
      some ⟨"SA123", 5000 - (-5), [⟨1700000000000, [.str "Withdrew ", .num (-5)]⟩],
        .SavingsAccount (5 / 2)⟩ := rfl
  rw [h]
  norm_num

/-! ## The balance and the transaction history -/

/-- C7 as stated fails: the savings account of the example is created with balance 5000
and an empty history; after `deposit(2000)` its balance is 7000 while the signed amounts
of its history sum to 2000. -/
theorem balance_ne_ledgerSum_with_opening_balance :
    ∃ acc, (runCalls exampleWorld [.deposit 0 2000]).account? 0 = some acc ∧
      acc._balance = 7000 ∧ ledgerSum acc.transactionHistory = 2000 ∧
      acc._balance ≠ ledgerSum acc.transactionHistory := by
  refine ⟨⟨"SA123", 5000 + 2000, [⟨1700000000000, [.str "Deposited ", .num 2000]⟩],
    .SavingsAccount (5 / 2)⟩, rfl, ?_, ?_, ?_⟩
  · norm_num
  · simp [ledgerSum, signedAmount]
  · simp [ledgerSum, signedAmount]

/-! ## Interest -/

/-- C8. On a savings account with balance `b` and rate `r`, `applyInterest()` deposits
`b * r / 100` through `deposit`: it returns if and only if `b * r / 100 > 0`, then leaves
the balance at `b + b * r / 100` with exactly one new entry, `Deposited ${b * r / 100}`,
in the transaction history; otherwise it throws the error of `deposit` and leaves the
world as it was. -/
theorem applyInterest_deposits_interest (w : World) (account : Nat) (acc : BankAccount)
    (rate : ℚ) (hacc : w.account? account = some acc)
    (hcls : acc.cls = .SavingsAccount rate) :
    ((SavingsAccount.applyInterest w account).succeeded = true ↔
      0 < acc._balance * rate / 100) ∧
    (0 < acc._balance * rate / 100 →
      ∃ acc1 date, (SavingsAccount.applyInterest w account).world.account? account
          = some acc1 ∧
        acc1._balance = acc._balance + acc._balance * rate / 100 ∧
        acc1.transactionHistory = acc.transactionHistory ++
          [⟨date, [.str "Deposited ", .num (acc._balance * rate / 100)]⟩]) ∧
    (¬ 0 < acc._balance * rate / 100 →
      SavingsAccount.applyInterest w account =
        ⟨.threw "Deposit amount must be greater than zero.", w⟩) := by
  have hpos : 0 < acc._balance * rate / 100 →
      (SavingsAccount.applyInterest w account).completion = .returned () ∧
      (SavingsAccount.applyInterest w account).world.account? account =
        some (acc.afterDeposit (acc._balance * rate / 100) (w.dates 0)) := by
    intro hp
    obtain ⟨hret, hself, -⟩ := deposit_of_pos hacc hp
    cases hdep : BankAccount.deposit w account (acc._balance * rate / 100) with
    | mk c w1 =>
      rw [hdep] at hret hself
      simp only at hret hself
      subst hret
      simp only [SavingsAccount.applyInterest, hacc, hcls, hdep]
      exact ⟨trivial, by rw [account?_log]; exact hself⟩
  have hneg : ¬ 0 < acc._balance * rate / 100 →
      SavingsAccount.applyInterest w account =
        ⟨.threw "Deposit amount must be greater than zero.", w⟩ := by
    intro hn
    simp only [SavingsAccount.applyInterest, hacc, hcls,
      deposit_of_nonpos hacc (not_lt.mp hn)]
  refine ⟨⟨?_, fun hp => succeeded_of_returned (hpos hp).1⟩, ?_, hneg⟩
  · intro hok
    by_contra hn
    rw [hneg hn] at hok
    cases hok
  · intro hp
    exact ⟨_, _, (hpos hp).2, rfl, rfl⟩

/-- C8, at lines 165-166 of the example: balance 5000, `deposit(2000)` gives 7000, then
`applyInterest()` at rate 2.5 deposits 175 and gives 7175. -/
theorem applyInterest_deposits_interest_witness :
    BankAccount.getBalance (deposit exampleWorld 0 2000).world 0 = some 7000 ∧
    ∃ acc1 date,
      (SavingsAccount.applyInterest (deposit exampleWorld 0 2000).world 0).world.account? 0
        = some acc1 ∧
      acc1._balance = 7175 ∧
      acc1.transactionHistory =
        [⟨1700000000000, [.str "Deposited ", .num 2000]⟩,
         ⟨date, [.str "Deposited ", .num 175]⟩] := by
  have hacc : (deposit exampleWorld 0 2000).world.account? 0 =
      some ⟨"SA123", 5000 + 2000, [⟨1700000000000, [.str "Deposited ", .num 2000]⟩],
        .SavingsAccount (5 / 2)⟩ := rfl
  obtain ⟨acc1, date, h1, h2, h3⟩ :=
    (applyInterest_deposits_interest (deposit exampleWorld 0 2000).world 0 _ (5 / 2)
      hacc rfl).2.1 (by norm_num)
  refine ⟨?_, acc1, date, h1, ?_, ?_⟩
  · simp only [BankAccount.getBalance, hacc]
    norm_num
  · rw [h2]; norm_num
  · rw [h3]; norm_num

/-! ## The factory -/

/-- C9 as stated fails: `BankFactory.createAccount` throws `"Invalid account type."` for
each of the tags `standard`, `interest` and `overdraft`. -/
theorem createAccount_rejects_spec_tags :
    BankFactory.createAccount World.initial "standard" "A1" 100 1 =
      ⟨.threw "Invalid account type.", World.initial⟩ ∧
    BankFactory.createAccount World.initial "interest" "A1" 100 1 =
      ⟨.threw "Invalid account type.", World.initial⟩ ∧
    BankFactory.createAccount World.initial "overdraft" "A1" 100 1 =
      ⟨.threw "Invalid account type.", World.initial⟩ :=
  ⟨rfl, rfl, rfl⟩

/-- C9, amended. `BankFactory.createAccount` maps the tag `savings` to a new
`SavingsAccount` and the tag `current` to a new `CurrentAccount`, each carrying the given
account number, balance and third parameter and an empty transaction history, and throws
`"Invalid account type."`, changing nothing, for every other tag. -/
theorem createAccount_tags (w : World) (accountNumber : String) (balance param : ℚ) :
    (∃ ref, (BankFactory.createAccount w "savings" accountNumber balance param).completion
        = .returned ref ∧
      w.account? ref = none ∧
      (BankFactory.createAccount w "savings" accountNumber balance param).world.account? ref
        = some ⟨accountNumber, balance, [], .SavingsAccount param⟩) ∧
    (∃ ref, (BankFactory.createAccount w "current" accountNumber balance param).completion
        = .returned ref ∧
      w.account? ref = none ∧
      (BankFactory.createAccount w "current" accountNumber balance param).world.account? ref
        = some ⟨accountNumber, balance, [], .CurrentAccount param⟩) ∧
    (∀ type : String, type ≠ "savings" → type ≠ "current" →
      BankFactory.createAccount w type accountNumber balance param =
        ⟨.threw "Invalid account type.", w⟩) := by
  refine ⟨⟨w.heap.length, rfl, ?_, ?_⟩, ⟨w.heap.length, ?_, ?_, ?_⟩, ?_⟩
  · simp [World.account?]
  · simp [BankFactory.createAccount, SavingsAccount.new, World.account?]
  · simp [BankFactory.createAccount, CurrentAccount.new]
  · simp [World.account?]
  · simp [BankFactory.createAccount, CurrentAccount.new, World.account?]
  · intro type h1 h2
    simp [BankFactory.createAccount, h1, h2]

/-- C9 amended, at the tag of the spec's example: `createAccount("bogus", ...)` throws. -/
theorem createAccount_tags_witness :
    (BankFactory.createAccount World.initial "bogus" "A1" 100 1).failed = true ∧
    BankFactory.createAccount World.initial "bogus" "A1" 100 1 =
      ⟨.threw "Invalid account type.", World.initial⟩ :=
  ⟨by decide,
   (createAccount_tags World.initial "A1" 100 1).2.2 "bogus" (by decide) (by decide)⟩

/-! ## Withdrawals of a non-positive amount -/

/-- C10 (evaluation of the code). `savingsAcc.withdraw(-5)` on balance 5000 returns, with
one entry appended to the transaction history and the new balance equal to the old one
minus the amount, which is 5005: greater than the old balance. -/
theorem withdraw_negative_raises_balance :
    (withdraw exampleWorld 0 (-5)).succeeded = true ∧
    exampleWorld.account? 0 = some ⟨"SA123", 5000, [], .SavingsAccount (5 / 2)⟩ ∧
    (withdraw exampleWorld 0 (-5)).world.account? 0 =
      some ⟨"SA123", 5005, [⟨1700000000000, [.str "Withdrew ", .num (-5)]⟩],
        .SavingsAccount (5 / 2)⟩ ∧
    (5005 : ℚ) > 5000 := by
  refine ⟨by decide, rfl, ?_, by norm_num⟩
  have h : (withdraw exampleWorld 0 (-5)).world.account? 0 =
      some ⟨"SA123", 5000 - (-5), [⟨1700000000000, [.str "Withdrew ", .num (-5)]⟩],
        .SavingsAccount (5 / 2)⟩ := rfl
  rw [h]
  norm_num

/-! ## A failed withdrawal -/

/-- C11. If `withdraw(amount)` throws, on an account of either class, the whole world
(the balance and transaction history of every account, the event log, the console) is
exactly as before the call: the checks of `CurrentAccount.withdraw` and of the base
`withdraw` it calls both come before any mutation. -/
theorem withdraw_failure_unchanged (w : World) (account : Nat) (amount : ℚ)
    (hfail : (withdraw w account amount).failed = true) :
    (withdraw w account amount).world = w := by
  rcases withdraw_cases w account amount with ⟨e, he⟩ | ⟨acc, -, -, hret, -, -⟩
  · rw [he]
  · rw [not_failed_of_returned hret] at hfail
    cases hfail

/-- C11, on the current account of the example: `withdraw(11500)` gets through the
override and throws in the base `withdraw`; `withdraw(12001)` throws in the override. -/
theorem withdraw_failure_unchanged_witness :
    (withdraw exampleWorld 1 11500).failed = true ∧
    (withdraw exampleWorld 1 11500).world = exampleWorld ∧
    (withdraw exampleWorld 1 12001).world = exampleWorld :=
  have hacc : exampleWorld.account? 1 = some ⟨"CA456", 10000, [], .CurrentAccount 2000⟩ := rfl
  have h1 : (withdraw exampleWorld 1 11500).failed = true := by
    rw [current_withdraw_within_limit_rejected exampleWorld 1 _ 2000 hacc rfl 11500
      (by norm_num) (by norm_num)]
    rfl
  have h2 : (withdraw exampleWorld 1 12001).failed = true := by
    rw [withdraw_of_current hacc rfl, if_pos (by norm_num)]
    rfl
  ⟨h1, withdraw_failure_unchanged exampleWorld 1 11500 h1,
   withdraw_failure_unchanged exampleWorld 1 12001 h2⟩

/-! ## The event log -/

/-- C12 as stated fails: for the message `hello` logged at the first date of the example
clock, the line appended to `logs` prints as `[2023-11-14T22:13:20.000Z] hello` and the
line written to standard output prints as `[LOG]: hello`. -/
theorem log_console_line_differs :
    (Logger.log World.initial [.str "hello"]).logs =
      [[.str "[", .isoDate 1700000000000, .str "] ", .str "hello"]] ∧
    (Logger.log World.initial [.str "hello"]).console = [[.str "[LOG]: ", .str "hello"]] ∧
    Text.render exampleNum exampleIso [.str "[", .isoDate 1700000000000, .str "] ", .str "hello"]
      = "[2023-11-14T22:13:20.000Z] hello" ∧
    Text.render exampleNum exampleIso [.str "[LOG]: ", .str "hello"] = "[LOG]: hello" ∧
    "[2023-11-14T22:13:20.000Z] hello" ≠ "[LOG]: hello" :=
  ⟨rfl, rfl, by decide, by decide, by decide⟩

/-- C12, amended. `Logger.log(message)` appends to `logs` one line, the text
`[<ISO timestamp>] <message>`, and writes to standard output one line, the text
`[LOG]: <message>`, which carries no timestamp; however numbers and dates print, the
first prints as `[` + timestamp + `] ` + message and the second as `[LOG]: ` + message. -/
theorem log_lines (w : World) (message : Text) (numStr : ℚ → String)
    (isoStr : Nat → String) :
    (Logger.log w message).logs =
      w.logs ++ [[.str "[", .isoDate (w.dates 0), .str "] "] ++ message] ∧
    (Logger.log w message).console = w.console ++ [[.str "[LOG]: "] ++ message] ∧
    Text.render numStr isoStr ([.str "[", .isoDate (w.dates 0), .str "] "] ++ message) =
      "[" ++ (isoStr (w.dates 0) ++ ("] " ++ Text.render numStr isoStr message)) ∧
    Text.render numStr isoStr ([.str "[LOG]: "] ++ message) =
      "[LOG]: " ++ Text.render numStr isoStr message :=
  ⟨rfl, rfl, rfl, rfl⟩

theorem logKept_refl (w : World) : LogKept w w :=
  ⟨⟨[], List.append_nil _⟩, rfl⟩

theorem logKept_trans {w w1 w2 : World} (h₁ : LogKept w w1) (h₂ : LogKept w1 w2) :
    LogKept w w2 :=
  ⟨List.IsPrefix.trans h₁.1 h₂.1, h₂.2.trans h₁.2⟩

theorem logKept_log (w : World) (message : Text) : LogKept w (Logger.log w message) :=
  ⟨⟨_, rfl⟩, rfl⟩

theorem logKept_setAccount (w : World) (r : Nat) (b : BankAccount) :
    LogKept w (w.setAccount r b) :=
  ⟨⟨[], List.append_nil _⟩, rfl⟩

theorem logKept_recordTransaction (w : World) (r : Nat) (detail : Text) :
    LogKept w (BankAccount._recordTransaction w r detail) := by
  unfold BankAccount._recordTransaction
  cases w.account? r with
  | none => exact logKept_refl w
  | some a => exact ⟨⟨[], List.append_nil _⟩, rfl⟩

theorem logKept_base_deposit (w : World) (this : Nat) (amount : ℚ) :
    LogKept w (BankAccount.deposit w this amount).world := by
  unfold BankAccount.deposit
  cases w.account? this with
  | none => exact logKept_refl w
  | some acc =>
    by_cases hle : amount ≤ 0
    · simp only [hle, if_true]; exact logKept_refl w
    · simp only [hle, if_false]
      exact logKept_trans (logKept_trans (logKept_setAccount _ _ _)
        (logKept_recordTransaction _ _ _)) (logKept_log _ _)

theorem logKept_base_withdraw (w : World) (this : Nat) (amount : ℚ) :
    LogKept w (BankAccount.withdraw w this amount).world := by
  unfold BankAccount.withdraw
  cases w.account? this with
  | none => exact logKept_refl w
  | some acc =>
    by_cases hgt : amount > acc._balance
    · simp only [hgt, if_true]; exact logKept_refl w
    · simp only [hgt, if_false]
      exact logKept_trans (logKept_trans (logKept_setAccount _ _ _)
        (logKept_recordTransaction _ _ _)) (logKept_log _ _)

theorem logKept_withdraw (w : World) (account : Nat) (amount : ℚ) :
    LogKept w (withdraw w account amount).world := by
  cases hacc : w.account? account with
  | none => rw [withdraw_of_none hacc]; exact logKept_refl w
  | some acc =>
    cases hcls : acc.cls with
    | SavingsAccount rate =>
      rw [withdraw_of_savings hacc hcls]; exact logKept_base_withdraw w account amount
    | CurrentAccount limit =>
      rw [withdraw_of_current hacc hcls]
      by_cases hgt : amount > acc._balance + limit
      · rw [if_pos hgt]; exact logKept_refl w
      · rw [if_neg hgt]; exact logKept_base_withdraw w account amount

theorem logKept_applyInterest (w : World) (this : Nat) :
    LogKept w (SavingsAccount.applyInterest w this).world := by
  rcases applyInterest_world w this with h | ⟨acc, rate, -, -, ⟨-, h⟩ | ⟨-, h⟩⟩
  · rw [h]; exact logKept_refl w
  · rw [h]; exact logKept_trans (logKept_base_deposit w this _) (logKept_log _ _)
  · rw [h]; exact logKept_base_deposit w this _

theorem logKept_transfer (w : World) (fromAccount toAccount : Nat) (amount : ℚ) :
    LogKept w (TransactionService.transfer w fromAccount toAccount amount).world := by
  have h1 := logKept_withdraw w fromAccount amount
  have h2 : LogKept (withdraw w fromAccount amount).world
      (deposit (withdraw w fromAccount amount).world toAccount amount).world :=
    logKept_base_deposit _ toAccount amount
  rcases transfer_world w fromAccount toAccount amount with
    ⟨-, h⟩ | ⟨-, -, h⟩ | ⟨-, -, message, c, h | h⟩
  · rw [h]; exact h1
  · rw [h]; exact logKept_trans h1 h2
  · rw [h]; exact logKept_trans (logKept_trans h1 h2) (logKept_log _ _)
  · rw [h]; exact logKept_trans h1 h2

theorem logKept_exec (w : World) (c : Call) : LogKept w (c.exec w).world := by
  cases c with
  | deposit account amount => exact logKept_base_deposit w account amount
  | withdraw account amount => exact logKept_withdraw w account amount
  | applyInterest account => exact logKept_applyInterest w account
  | transfer fromAccount toAccount amount =>
    exact logKept_transfer w fromAccount toAccount amount

theorem logKept_runCalls (calls : List Call) (w : World) : LogKept w (runCalls w calls) := by
  induction calls generalizing w with
  | nil => exact logKept_refl w
  | cons c cs ih => exact logKept_trans (logKept_exec w c) (ih _)

/-- C13. In a world where the logger exists (`Logger.instance` is set, as line 23 leaves
it), the event log is append-only: after `Logger.log`, after any `deposit`, `withdraw`,
`applyInterest` or `transfer` call, and after any sequence of them, the old `logs` is an
initial segment of the new `logs` and the instance is still set; `new Logger()` yields
that same instance and leaves the whole world, its `logs` included, as it was, also
after any such sequence. -/
theorem log_append_only (w : World) (hinst : w.loggerInstance = true) :
    (∀ message, w.logs <+: (Logger.log w message).logs) ∧
    (∀ c : Call, w.logs <+: (c.exec w).world.logs) ∧
    (∀ calls, w.logs <+: (runCalls w calls).logs) ∧
    Logger.new w = w ∧
    (∀ calls, Logger.new (runCalls w calls) = runCalls w calls) ∧
    (∀ calls, w.logs <+: (Logger.new (runCalls w calls)).logs) := by
  have hnew : ∀ v : World, v.loggerInstance = true → Logger.new v = v := by
    intro v hv
    simp [Logger.new, hv]
  have hrun : ∀ calls, Logger.new (runCalls w calls) = runCalls w calls :=
    fun calls => hnew _ ((logKept_runCalls calls w).2.trans hinst)
  refine ⟨fun m => (logKept_log w m).1, fun c => (logKept_exec w c).1,
    fun calls => (logKept_runCalls calls w).1, hnew w hinst, hrun, ?_⟩
  intro calls
  rw [hrun calls]
  exact (logKept_runCalls calls w).1

/-- C13, at the example: over lines 165-169 the log has only grown, and a further
`new Logger()` changes nothing. -/
theorem log_append_only_witness :
    exampleWorld.loggerInstance = true ∧
    exampleWorld.logs <+: (runCalls exampleWorld
      [.deposit 0 2000, .applyInterest 0, .withdraw 1 500, .transfer 0 1 1000]).logs ∧
    Logger.new (runCalls exampleWorld
      [.deposit 0 2000, .applyInterest 0, .withdraw 1 500, .transfer 0 1 1000]) =
      runCalls exampleWorld
        [.deposit 0 2000, .applyInterest 0, .withdraw 1 500, .transfer 0 1 1000] :=
  ⟨rfl, (log_append_only exampleWorld rfl).2.2.1 _, (log_append_only exampleWorld rfl).2.2.2.2.1 _⟩

/-! ## Customers -/

theorem getAccountDetails_of_some {w : World} {r : Nat} {acc : BankAccount}
    (h : w.account? r = some acc) :
    BankAccount.getAccountDetails w r = ⟨.returned (accountSummary w r), w⟩ := by
  simp [BankAccount.getAccountDetails, BankAccount.getBalance, accountSummary, h]

theorem mapAccountDetails_of_valid (w : World) (accounts : List Nat)
    (hvalid : ∀ a ∈ accounts, ∃ acc, w.account? a = some acc) :
    mapAccountDetails w accounts = ⟨.returned (accounts.map (accountSummary w)), w⟩ := by
  induction accounts with
  | nil => rfl
  | cons a rest ih =>
    obtain ⟨acc, hacc⟩ := hvalid a (List.mem_cons_self a rest)
    have hrest := ih (fun b hb => hvalid b (List.mem_cons_of_mem a hb))
    simp [mapAccountDetails, getAccountDetails_of_some hacc, hrest]

theorem foldl_addAccount (c : Customer) (added : List Nat) :
    (added.foldl Customer.addAccount c).accounts = c.accounts ++ added ∧
    (added.foldl Customer.addAccount c).name = c.name ∧
    (added.foldl Customer.addAccount c).email = c.email ∧
    (added.foldl Customer.addAccount c).customerId = c.customerId := by
  induction added generalizing c with
  | nil => simp
  | cons a rest ih =>
    obtain ⟨h1, h2, h3, h4⟩ := ih (c.addAccount a)
    simp only [List.foldl_cons]
    refine ⟨?_, h2, h3, h4⟩
    rw [h1]
    simp [Customer.addAccount]

/-- C14. After `addAccount` calls with the accounts `added` (repetitions allowed, each an
existing account object) on a customer, `listAccounts()` returns one summary per account
of the customer, in insertion order, the summary of an account being
`Account: <accountNumber>, Balance: <balance>` with its current balance; the call changes
neither the customer nor the world (balances, transaction histories, log). For a customer
as constructed, with no account, that is exactly one summary per `addAccount` call. -/
theorem listAccounts_summaries (w : World) (c : Customer) (added : List Nat)
    (hvalid : ∀ a ∈ c.accounts ++ added, ∃ acc, w.account? a = some acc) :
    (added.foldl Customer.addAccount c).accounts = c.accounts ++ added ∧
    (Customer.listAccounts w (added.foldl Customer.addAccount c)).1 =
      added.foldl Customer.addAccount c ∧
    (Customer.listAccounts w (added.foldl Customer.addAccount c)).2.world = w ∧
    (Customer.listAccounts w (added.foldl Customer.addAccount c)).2.completion =
      .returned ((c.accounts ++ added).map (accountSummary w)) ∧
    ((c.accounts ++ added).map (accountSummary w)).length = c.accounts.length + added.length ∧
    (∀ a ∈ c.accounts ++ added, ∃ acc, w.account? a = some acc ∧
      accountSummary w a =
        [.str "Account: ", .str acc.accountNumber, .str ", Balance: ", .num acc._balance]) := by
  have hacc := (foldl_addAccount c added).1
  have hmap := mapAccountDetails_of_valid w (c.accounts ++ added) hvalid
  refine ⟨hacc, rfl, ?_, ?_, by simp, ?_⟩
  · simp only [Customer.listAccounts, hacc, hmap]
  · simp only [Customer.listAccounts, hacc, hmap]
  · intro a ha
    obtain ⟨acc, h⟩ := hvalid a ha
    exact ⟨acc, h, by simp [accountSummary, h]⟩

/-- C14, at lines 162-163 and 171 of the example taken on the freshly created accounts,
with the savings account added a second time. -/
theorem listAccounts_summaries_witness :
    Customer.new "Alice Johnson" "alice@example.com" "CUST123" =
      .returned ⟨"Alice Johnson", "alice@example.com", "CUST123", []⟩ ∧
    (Customer.listAccounts exampleWorld
      ([0, 1, 0].foldl Customer.addAccount
        ⟨"Alice Johnson", "alice@example.com", "CUST123", []⟩)).2.completion =
      .returned
        [[.str "Account: ", .str "SA123", .str ", Balance: ", .num 5000],
         [.str "Account: ", .str "CA456", .str ", Balance: ", .num 10000],
         [.str "Account: ", .str "SA123", .str ", Balance: ", .num 5000]] ∧
    (Customer.listAccounts exampleWorld
      ([0, 1, 0].foldl Customer.addAccount
        ⟨"Alice Johnson", "alice@example.com", "CUST123", []⟩)).2.world = exampleWorld :=
  have h := listAccounts_summaries exampleWorld
    ⟨"Alice Johnson", "alice@example.com", "CUST123", []⟩ [0, 1, 0]
    (by
      intro a ha
      simp only [List.nil_append, List.mem_cons, List.mem_singleton, List.not_mem_nil,
        or_false] at ha
      rcases ha with rfl | rfl | rfl
      · exact ⟨_, rfl⟩
      · exact ⟨_, rfl⟩
      · exact ⟨_, rfl⟩)
  ⟨rfl, h.2.2.2.1, h.2.2.1⟩

end Banking

namespace BasicOOPS

open IEEE (JSNumber)

/-! ## Speed -/

theorem length_faster (a b : String) :
    (a ++ " is faster than " ++ b ++ ".").length = a.length + b.length + 17 := by
  simp only [String.length_append]
  have h1 : " is faster than ".length = 16 := by decide
  have h2 : ".".length = 1 := by decide
  omega

theorem length_same (a b : String) :
    (a ++ " and " ++ b ++ " have the same speed.").length = a.length + b.length + 26 := by
  simp only [String.length_append]
  have h1 : " and ".length = 5 := by decide
  have h2 : " have the same speed.".length = 21 := by decide
  omega

theorem faster_ne_same (a b c d : String) (h : a.length + b.length = c.length + d.length) :
    a ++ " is faster than " ++ b ++ "." ≠ c ++ " and " ++ d ++ " have the same speed." := by
  intro heq
  have hl := congrArg String.length heq
  rw [length_faster, length_same] at hl
  omega

theorem set_speed_not_lt (v : Vehicle) (hv : v.speed.lt 0 = false) (value : JSNumber) :
    (v.set_speed value).1.speed.lt 0 = false := by
  unfold Vehicle.set_speed
  cases h : value.lt 0 with
  | true => simpa using hv
  | false => simpa [Vehicle.speed] using h

theorem assignSpeeds_not_lt (values : List JSNumber) (v : Vehicle)
    (hv : v.speed.lt 0 = false) : (v.assignSpeeds values).speed.lt 0 = false := by
  induction values generalizing v with
  | nil => exact hv
  | cons value rest ih => exact ih _ (set_speed_not_lt v hv value)

/-- Neither of two numbers is greater than the other exactly when they are equal or one
of them is `NaN`. -/
theorem not_gt_not_lt_iff (x y : JSNumber) :
    (x.gt y = false ∧ x.lt y = false) ↔ (x = y ∨ x = .nan ∨ y = .nan) := by
  cases x <;> cases y <;> simp [JSNumber.gt, JSNumber.lt]
  rename_i a b
  constructor
  · intro h
    exact le_antisymm h.1 h.2
  · intro h
    subst h
    exact ⟨le_refl _, le_refl _⟩

/-- C19 as stated fails: after `tesla.speed = NaN`, which the setter stores because
`NaN < 0` is false, and `ducati.speed = 150`, `Vehicle.compareSpeeds(tesla, ducati)`
reports the same speed although the two speeds are not equal. -/
theorem same_speed_with_nan_counterexample :
    (tesla.set_speed .nan).1.speed = .nan ∧
    (ducati.set_speed 150).1.speed = 150 ∧
    Vehicle.compareSpeeds (tesla.set_speed .nan).1 (ducati.set_speed 150).1 =
      "Tesla and Ducati have the same speed." ∧
    (tesla.set_speed .nan).1.speed ≠ (ducati.set_speed 150).1.speed := by
  have h150 : (150 : JSNumber).lt 0 = false :=
    decide_eq_false (show ¬ (((150 : Nat) : ℚ) < ((0 : Nat) : ℚ)) by norm_num)
  have h1 : (tesla.set_speed .nan).1 = { tesla with _speed := .nan } := rfl
  have h2 : (ducati.set_speed 150).1 = { ducati with _speed := 150 } := by
    simp [Vehicle.set_speed, h150]
  rw [h1, h2]
  refine ⟨rfl, rfl, ?_, ?_⟩
  · simp [Vehicle.compareSpeeds, Vehicle.speed, JSNumber.gt, JSNumber.lt, tesla, ducati]
  · intro h
    cases h

/-- C19, amended. The speed of a vehicle is never negative: from a vehicle whose speed is
not below 0 (a constructor sets it to 0), any sequence of assignments to `speed`, `NaN`
and the infinities included, leaves a speed that is not below 0; assigning a value that
is not below 0, so any value `>= 0` and also `NaN`, sets the speed to that value, and
assigning a negative value leaves the vehicle as it was. `Vehicle.compareSpeeds(v1, v2)`
returns `<v1> is faster than <v2>.` when the speed of `v1` is strictly greater,
`<v2> is faster than <v1>.` when it is strictly smaller, and the same-speed sentence
exactly when neither speed is strictly greater than the other, that is when the two
speeds are equal or one of them is `NaN`. -/
theorem speed_never_below_zero (v : Vehicle) (hv : v.speed.lt 0 = false)
    (values : List JSNumber) :
    (v.assignSpeeds values).speed.lt 0 = false ∧
    (∀ value : JSNumber, value.lt 0 = false → (v.set_speed value).1.speed = value) ∧
    (∀ value : JSNumber, (0 : JSNumber).le value = true →
      (v.set_speed value).1.speed = value) ∧
    (∀ value : JSNumber, value.lt 0 = true → (v.set_speed value).1 = v) ∧
    (∀ v1 v2 : Vehicle,
      (v1.speed.gt v2.speed = true →
        Vehicle.compareSpeeds v1 v2 = v1.brand ++ " is faster than " ++ v2.brand ++ ".") ∧
      (v1.speed.lt v2.speed = true →
        Vehicle.compareSpeeds v1 v2 = v2.brand ++ " is faster than " ++ v1.brand ++ ".") ∧
      (Vehicle.compareSpeeds v1 v2 =
          v1.brand ++ " and " ++ v2.brand ++ " have the same speed." ↔
        (v1.speed = v2.speed ∨ v1.speed = .nan ∨ v2.speed = .nan))) := by
  have hset : ∀ value : JSNumber, value.lt 0 = false →
      (v.set_speed value).1.speed = value := by
    intro value h
    simp [Vehicle.set_speed, h, Vehicle.speed]
  refine ⟨assignSpeeds_not_lt values v hv, hset, ?_, ?_, ?_⟩
  · intro value h
    apply hset
    cases value <;> simp_all [JSNumber.le, JSNumber.lt, OfNat.ofNat]
  · intro value h
    simp [Vehicle.set_speed, h]
  · intro v1 v2
    have hgt : v1.speed.gt v2.speed = true →
        Vehicle.compareSpeeds v1 v2 = v1.brand ++ " is faster than " ++ v2.brand ++ "." := by
      intro h
      simp [Vehicle.compareSpeeds, h]
    have hlt : v1.speed.lt v2.speed = true →
        Vehicle.compareSpeeds v1 v2 = v2.brand ++ " is faster than " ++ v1.brand ++ "." := by
      intro h
      have hng : v1.speed.gt v2.speed = false := by
        cases h1 : v1.speed <;> cases h2 : v2.speed <;>
          simp_all [JSNumber.gt, JSNumber.lt]
        exact le_of_lt h
      simp [Vehicle.compareSpeeds, h, hng]
    refine ⟨hgt, hlt, ?_⟩
    rw [← not_gt_not_lt_iff]
    constructor
    · intro hsame
      cases h1 : v1.speed.gt v2.speed with
      | true =>
        rw [hgt h1] at hsame
        exact absurd hsame (faster_ne_same _ _ _ _ rfl)
      | false =>
        cases h2 : v1.speed.lt v2.speed with
        | true =>
          rw [hlt h2] at hsame
          exact absurd hsame (faster_ne_same _ _ _ _ (Nat.add_comm _ _))
        | false => exact ⟨rfl, rfl⟩
    · intro h
      simp [Vehicle.compareSpeeds, h.1, h.2]

/-- C19 amended, at lines 96-112 of the script: Tesla at 120 and Ducati at 150, a
negative assignment and an assignment of `NaN` in between. -/
theorem speed_never_below_zero_witness :
    Car.new "Tesla" "Model S" = .returned tesla ∧
    Bike.new "Ducati" "Sports" = .returned ducati ∧
    (tesla.assignSpeeds [120, .fin (-5), .nan, 120]).speed.lt 0 = false ∧
    (tesla.set_speed 120).1.speed = 120 ∧
    (ducati.set_speed 150).1.speed = 150 ∧
    Vehicle.compareSpeeds { tesla with _speed := 120 } { ducati with _speed := 150 } =
      "Ducati is faster than Tesla." := by
  have h0 : tesla.speed.lt 0 = false :=
    decide_eq_false (show ¬ (((0 : Nat) : ℚ) < ((0 : Nat) : ℚ)) by norm_num)
  have h120 : (120 : JSNumber).lt 0 = false :=
    decide_eq_false (show ¬ (((120 : Nat) : ℚ) < ((0 : Nat) : ℚ)) by norm_num)
  have h150 : (150 : JSNumber).lt 0 = false :=
    decide_eq_false (show ¬ (((150 : Nat) : ℚ) < ((0 : Nat) : ℚ)) by norm_num)
  have hlt : (120 : JSNumber).lt 150 = true :=
    decide_eq_true (show (((120 : Nat) : ℚ) < ((150 : Nat) : ℚ)) by norm_num)
  have h := speed_never_below_zero tesla h0 [120, .fin (-5), .nan, 120]
  refine ⟨rfl, rfl, h.1, h.2.1 120 h120, ?_, ?_⟩
  · simp [Vehicle.set_speed, h150, Vehicle.speed]
  · rw [(h.2.2.2.2 { tesla with _speed := 120 } { ducati with _speed := 150 }).2.1 hlt]
    decide

end BasicOOPS

namespace ECommerce

open IEEE (JSNumber Part Text)

/-! ## The total of an order -/

theorem addProducts_total (products : List Product) (o : Order) :
    (o.addProducts products).total = products.foldl (fun t p => t.add p.price) o.total ∧
    (o.addProducts products).checkoutWrappers = o.checkoutWrappers ∧
    (o.addProducts products).products = o.products ++ products := by
  induction products generalizing o with
  | nil => simp [Order.addProducts]
  | cons p rest ih =>
    obtain ⟨h1, h2, h3⟩ := ih (o.addProduct p).1
    have hstep : o.addProducts (p :: rest) = (o.addProduct p).1.addProducts rest := rfl
    rw [hstep, h1, h2, h3]
    refine ⟨rfl, rfl, ?_⟩
    simp [Order.addProduct]

theorem classCheckout_order (o : Order) : (o.classCheckout).1 = o := rfl

theorem checkout_single (o : Order) (rate : JSNumber) (h : o.checkoutWrappers = [rate]) :
    (o.checkout).1.total = o.total.mul ((1 : JSNumber).sub rate) ∧
    (o.checkout).1.checkoutWrappers = [rate] := by
  simp [Order.checkout, h, Order.callCheckout, Order.classCheckout]

theorem checkoutTimes_single (k : Nat) (o : Order) (rate : JSNumber)
    (h : o.checkoutWrappers = [rate]) :
    (o.checkoutTimes k).total = discounted o.total rate k := by
  induction k generalizing o with
  | zero => simp [Order.checkoutTimes, discounted]
  | succ k ih =>
    obtain ⟨h1, h2⟩ := checkout_single o rate h
    have hstep : o.checkoutTimes (k + 1) = (o.checkout).1.checkoutTimes k := rfl
    rw [hstep, ih _ h2, h1]
    rfl

theorem order_totals (user : User) (products : List Product) (rate : JSNumber) (k : Nat) :
    ((Order.new user).addProducts products).products = products ∧
    ((Order.new user).addProducts products).total = priceSum products ∧
    ((DiscountDecorator ((Order.new user).addProducts products) rate).checkoutTimes k).total =
      discounted (priceSum products) rate k := by
  obtain ⟨h1, h2, h3⟩ := addProducts_total products (Order.new user)
  have ht : ((Order.new user).addProducts products).total = priceSum products := by
    rw [h1]
    rfl
  refine ⟨by rw [h3]; simp [Order.new], ht, ?_⟩
  have hw : (DiscountDecorator ((Order.new user).addProducts products) rate).checkoutWrappers
      = [rate] := by
    show rate :: ((Order.new user).addProducts products).checkoutWrappers = [rate]
    rw [h2]
    rfl
  rw [checkoutTimes_single k _ rate hw]
  simp [DiscountDecorator, ht]

end ECommerce

namespace Game

open Banking (Part Text)

/-! ## Heap lookups -/

theorem entity?_log (w : World) (line : Text) (r : Nat) :
    (w.log line).entity? r = w.entity? r := rfl

theorem entity?_setEntity_self {w : World} {r : Nat} {e : Entity}
    (h : w.entity? r = some e) (b : Entity) :
    (w.setEntity r b).entity? r = some b := by
  have hlt : r < w.entities.length := by
    by_contra hge
    have hnone : w.entities[r]? = none := List.getElem?_eq_none (Nat.le_of_not_lt hge)
    simp [World.entity?, hnone] at h
  simp [World.entity?, World.setEntity, List.getElem?_set, hlt]

theorem entity?_setEntity_ne (w : World) {r q : Nat} (hne : q ≠ r) (b : Entity) :
    (w.setEntity r b).entity? q = w.entity? q := by
  simp [World.entity?, World.setEntity, List.getElem?_set, Ne.symm hne]

/-! ## Damage and attacks -/

theorem takeDamage_of_some {w : World} {r : Nat} {e : Entity} (h : w.entity? r = some e)
    (amount : ℚ) :
    ∃ w1, HealthMixin.takeDamage w r amount = some w1 ∧
      w1.entity? r = some (e.damaged amount) ∧
      ∀ q, q ≠ r → w1.entity? q = w.entity? q := by
  unfold HealthMixin.takeDamage
  simp only [h]
  by_cases hle : e.health - amount ≤ 0
  · simp only [hle, if_true]
    refine ⟨_, rfl, ?_, ?_⟩
    · rw [entity?_log, entity?_setEntity_self h]
      simp [Entity.damaged, hle]
    · intro q hq
      rw [entity?_log, entity?_setEntity_ne _ hq]
  · simp only [hle, if_false]
    refine ⟨_, rfl, ?_, ?_⟩
    · rw [entity?_log, entity?_setEntity_self h]
      simp [Entity.damaged, hle]
    · intro q hq
      rw [entity?_log, entity?_setEntity_ne _ hq]

theorem attack_of_dead {w : World} {a t : Nat} {attacker target : Entity}
    (ha : w.entity? a = some attacker) (ht : w.entity? t = some target)
    (hdead : target.isAlive = false) :
    AttackableMixin.attack w a t = some (w.log [.str target.name, .str " is already defeated!"]) := by
  simp [AttackableMixin.attack, ha, ht, hdead]

theorem attack_of_alive {w : World} {a t : Nat} {attacker target : Entity}
    (ha : w.entity? a = some attacker) (ht : w.entity? t = some target)
    (halive : target.isAlive = true) :
    ∃ w1, AttackableMixin.attack w a t = some w1 ∧
      w1.entity? t = some (target.damaged attacker.attackPower) ∧
      ∀ q, q ≠ t → w1.entity? q = w.entity? q := by
  have ht1 : (w.log [.str attacker.name, .str " attacks ", .str target.name, .str " for ",
      .num attacker.attackPower, .str " damage!"]).entity? t = some target := ht
  obtain ⟨w1, h1, h2, h3⟩ := takeDamage_of_some ht1 attacker.attackPower
  refine ⟨w1, ?_, h2, ?_⟩
  · simp [AttackableMixin.attack, ha, ht, halive, h1]
  · intro q hq
    rw [h3 q hq]
    rfl

/-! ## The flag `isAlive` and the health -/

theorem evolves_refl (e : Entity) : e.Evolves e :=
  ⟨rfl, fun h => ⟨h, le_refl _⟩⟩

theorem evolves_trans {e e1 e2 : Entity} (h₁ : e.Evolves e1) (h₂ : e1.Evolves e2) :
    e.Evolves e2 := by
  refine ⟨h₂.1.trans h₁.1, fun hc => ?_⟩
  obtain ⟨hc1, hle1⟩ := h₁.2 hc
  obtain ⟨hc2, hle2⟩ := h₂.2 hc1
  exact ⟨hc2, le_trans hle2 hle1⟩

theorem damaged_evolves (e : Entity) (amount : ℚ) (hpos : 0 < amount)
    (halive : e.isAlive = true) : e.Evolves (e.damaged amount) := by
  unfold Entity.damaged
  by_cases hle : e.health - amount ≤ 0
  · simp only [hle, if_true]
    refine ⟨rfl, fun _ => ⟨?_, ?_⟩⟩
    · simp only [Entity.consistent]
      constructor
      · intro h; cases h
      · intro h; exact absurd h (not_lt.mpr hle)
    · show e.health - amount ≤ e.health
      linarith
  · simp only [hle, if_false]
    refine ⟨rfl, fun _ => ⟨?_, ?_⟩⟩
    · simp only [Entity.consistent]
      exact ⟨fun _ => not_le.mp hle, fun _ => halive⟩
    · show e.health - amount ≤ e.health
      linarith

theorem worldEvolves_refl (w : World) : WorldEvolves w w :=
  fun _ e h => ⟨e, h, evolves_refl e⟩

theorem worldEvolves_trans {w w1 w2 : World} (h₁ : WorldEvolves w w1)
    (h₂ : WorldEvolves w1 w2) : WorldEvolves w w2 := by
  intro q e h
  obtain ⟨e1, he1, hev1⟩ := h₁ q e h
  obtain ⟨e2, he2, hev2⟩ := h₂ q e1 he1
  exact ⟨e2, he2, evolves_trans hev1 hev2⟩

theorem attack_evolves {w : World} {a t : Nat} {attacker target : Entity}
    (ha : w.entity? a = some attacker) (ht : w.entity? t = some target)
    (hpos : 0 < attacker.attackPower) :
    ∃ w1, AttackableMixin.attack w a t = some w1 ∧ WorldEvolves w w1 := by
  cases halive : target.isAlive with
  | false =>
    exact ⟨_, attack_of_dead ha ht halive, fun _ e h => ⟨e, h, evolves_refl e⟩⟩
  | true =>
    obtain ⟨w1, h1, h2, h3⟩ := attack_of_alive ha ht halive
    refine ⟨w1, h1, ?_⟩
    intro q e hq
    by_cases hqt : q = t
    · subst hqt
      rw [ht] at hq
      cases hq
      exact ⟨_, h2, damaged_evolves _ _ hpos halive⟩
    · exact ⟨e, by rw [h3 q hqt]; exact hq, evolves_refl e⟩

/-- The calls name existing entities and every attacker has a positive attack power. -/
theorem runAttacks_evolves (calls : List (Nat × Nat)) (w : World)
    (hcalls : ∀ c ∈ calls, (∃ a, w.entity? c.1 = some a ∧ 0 < a.attackPower) ∧
      ∃ t, w.entity? c.2 = some t) :
    ∃ w1, runAttacks w calls = some w1 ∧ WorldEvolves w w1 := by
  induction calls generalizing w with
  | nil => exact ⟨w, rfl, worldEvolves_refl w⟩
  | cons c rest ih =>
    obtain ⟨⟨attacker, ha, hpos⟩, ⟨target, ht⟩⟩ := hcalls c (List.mem_cons_self c rest)
    obtain ⟨w1, h1, hev⟩ := attack_evolves ha ht hpos
    have hrest : ∀ d ∈ rest, (∃ a, w1.entity? d.1 = some a ∧ 0 < a.attackPower) ∧
        ∃ t, w1.entity? d.2 = some t := by
      intro d hd
      obtain ⟨⟨a0, ha0, hp0⟩, ⟨t0, ht0⟩⟩ := hcalls d (List.mem_cons_of_mem c hd)
      obtain ⟨a1, ha1, hev1⟩ := hev _ _ ha0
      obtain ⟨t1, ht1, -⟩ := hev _ _ ht0
      exact ⟨⟨a1, ha1, by rw [hev1.1]; exact hp0⟩, ⟨t1, ht1⟩⟩
    obtain ⟨w2, h2, hev2⟩ := ih w1 hrest
    refine ⟨w2, ?_, worldEvolves_trans hev hev2⟩
    obtain ⟨c1, c2⟩ := c
    simp only [runAttacks, h1]
    exact h2

theorem runAttacks_append (first second : List (Nat × Nat)) (w : World) :
    runAttacks w (first ++ second) =
      (runAttacks w first).bind (fun w1 => runAttacks w1 second) := by
  induction first generalizing w with
  | nil => rfl
  | cons c rest ih =>
    obtain ⟨c1, c2⟩ := c
    simp only [List.cons_append, runAttacks]
    cases AttackableMixin.attack w c1 c2 with
    | none => rfl
    | some w1 => exact ih w1

/-- C20. Take an entity that is alive with positive health and any sequence of attack
calls among existing entities whose attackers have a positive attack power. Cut the
sequence anywhere: the calls before the cut and all the calls both run to the end, and
at both moments the `isAlive` flag of the entity is true if and only if its health is
greater than 0, the health at the end is not above the health at the cut, and the health
at the cut is not above the health at the start. And an attack on a target that is not
alive leaves every entity, the target with its health and flag included, as it was. -/
theorem alive_flag_tracks_health (w : World) (calls : List (Nat × Nat)) (r : Nat)
    (e : Entity)
    (hcalls : ∀ c ∈ calls, (∃ a, w.entity? c.1 = some a ∧ 0 < a.attackPower) ∧
      ∃ t, w.entity? c.2 = some t)
    (he : w.entity? r = some e) (halive : e.isAlive = true) (hhealth : 0 < e.health) :
    (∀ first second, calls = first ++ second →
      ∃ w1 e1 w2 e2, runAttacks w first = some w1 ∧ w1.entity? r = some e1 ∧
        runAttacks w calls = some w2 ∧ w2.entity? r = some e2 ∧
        (e1.isAlive = true ↔ 0 < e1.health) ∧ (e2.isAlive = true ↔ 0 < e2.health) ∧
        e2.health ≤ e1.health ∧ e1.health ≤ e.health) ∧
    (∀ (v : World) (a t : Nat) (attacker target : Entity), v.entity? a = some attacker →
      v.entity? t = some target → target.isAlive = false →
      ∃ v1, AttackableMixin.attack v a t = some v1 ∧ v1.entities = v.entities) := by
  constructor
  · intro first second hsplit
    subst hsplit
    have hfirst : ∀ c ∈ first, (∃ a, w.entity? c.1 = some a ∧ 0 < a.attackPower) ∧
        ∃ t, w.entity? c.2 = some t :=
      fun c hc => hcalls c (List.mem_append_left _ hc)
    obtain ⟨w1, h1, hev1⟩ := runAttacks_evolves first w hfirst
    have hsecond : ∀ c ∈ second, (∃ a, w1.entity? c.1 = some a ∧ 0 < a.attackPower) ∧
        ∃ t, w1.entity? c.2 = some t := by
      intro d hd
      obtain ⟨⟨a0, ha0, hp0⟩, ⟨t0, ht0⟩⟩ := hcalls d (List.mem_append_right _ hd)
      obtain ⟨a1, ha1, hea⟩ := hev1 _ _ ha0
      obtain ⟨t1, ht1, -⟩ := hev1 _ _ ht0
      exact ⟨⟨a1, ha1, by rw [hea.1]; exact hp0⟩, ⟨t1, ht1⟩⟩
    obtain ⟨w2, h2, hev2⟩ := runAttacks_evolves second w1 hsecond
    obtain ⟨e1, he1, hevo1⟩ := hev1 r e he
    obtain ⟨e2, he2, hevo2⟩ := hev2 r e1 he1
    have hc : e.consistent := ⟨fun _ => hhealth, fun _ => halive⟩
    obtain ⟨hc1, hle1⟩ := hevo1.2 hc
    obtain ⟨hc2, hle2⟩ := hevo2.2 hc1
    refine ⟨w1, e1, w2, e2, h1, he1, ?_, he2, hc1, hc2, hle2, hle1⟩
    rw [runAttacks_append, h1]
    exact h2
  · intro v a t attacker target ha ht hdead
    exact ⟨_, attack_of_dead ha ht hdead, rfl⟩

/-- C20, on the goblin of the script (health 50) under `player.attack(goblin)`,
`goblin.attack(player)`, `player.attack(goblin)` of lines 143-146. -/
theorem alive_flag_tracks_health_witness :
    scriptWorld.entity? 1 = some (Enemy.fresh "Goblin") ∧
    ∃ w2 e2, runAttacks scriptWorld [(0, 1), (1, 0), (0, 1)] = some w2 ∧
      w2.entity? 1 = some e2 ∧ (e2.isAlive = true ↔ 0 < e2.health) ∧ e2.health ≤ 50 := by
  have h := (alive_flag_tracks_health scriptWorld [(0, 1), (1, 0), (0, 1)] 1
    (Enemy.fresh "Goblin")
    (by
      intro c hc
      simp only [List.mem_cons, List.mem_singleton, List.not_mem_nil, or_false] at hc
      rcases hc with rfl | rfl | rfl
      · exact ⟨⟨Player.fresh "Hero", rfl, by decide⟩, ⟨_, rfl⟩⟩
      · exact ⟨⟨Enemy.fresh "Goblin", rfl, by decide⟩, ⟨_, rfl⟩⟩
      · exact ⟨⟨Player.fresh "Hero", rfl, by decide⟩, ⟨_, rfl⟩⟩)
    rfl rfl (by decide)).1 [(0, 1), (1, 0), (0, 1)] [] rfl
  obtain ⟨w1, e1, w2, e2, -, -, h2, he2, -, hc2, hle2, hle1⟩ := h
  exact ⟨rfl, w2, e2, h2, he2, hc2, le_trans hle2 hle1⟩

/-! ## The script -/

/-- The world `scriptWorld` is what `new Player("Hero")` and the two `getEnemy` calls of
lines 135-136 on a new pool build. -/
theorem scriptWorld_built :
    ∃ w0 w1, Player.new ⟨[], []⟩ "Hero" = (0, w0) ∧
      EnemyPool.getEnemy w0 EnemyPool.new "Goblin" = some (1, EnemyPool.new, w1) ∧
      EnemyPool.getEnemy w1 EnemyPool.new "Orc" = some (2, EnemyPool.new, scriptWorld) :=
  ⟨_, _, rfl, rfl, rfl⟩

theorem damaged_of_pos (e : Entity) (amount : ℚ) (h : 0 < e.health - amount) :
    e.damaged amount = { e with health := e.health - amount } := by
  simp [Entity.damaged, not_le.mpr h]

/-- C16 (evaluation of the code). After `player.attack(goblin)` twice on the goblin as
obtained from the pool (health 50, attack power of the player 10) the goblin has health
30 and is alive, and the third `player.attack(goblin)` deals damage again, leaving
health 20: the goblin is not defeated by the second attack. -/
theorem two_attacks_do_not_defeat :
    ∃ w2 w3, runAttacks scriptWorld [(0, 1), (0, 1)] = some w2 ∧
      w2.entity? 1 = some { Enemy.fresh "Goblin" with health := 30 } ∧
      AttackableMixin.attack w2 0 1 = some w3 ∧
      w3.entity? 1 = some { Enemy.fresh "Goblin" with health := 20 } := by
  have ha0 : scriptWorld.entity? 0 = some (Player.fresh "Hero") := rfl
  have ht0 : scriptWorld.entity? 1 = some (Enemy.fresh "Goblin") := rfl
  obtain ⟨w1, h1, hg1, ho1⟩ := attack_of_alive ha0 ht0 rfl
  have hd1 : (Enemy.fresh "Goblin").damaged (Player.fresh "Hero").attackPower =
      { Enemy.fresh "Goblin" with health := 40 } := by
    rw [damaged_of_pos _ _ (by norm_num [Enemy.fresh, Player.fresh])]
    norm_num [Enemy.fresh, Player.fresh]
  rw [hd1] at hg1
  have ha1 : w1.entity? 0 = some (Player.fresh "Hero") := by
    rw [ho1 0 (by decide)]; exact ha0
  obtain ⟨w2, h2, hg2, ho2⟩ := attack_of_alive ha1 hg1 rfl
  have hd2 : ({ Enemy.fresh "Goblin" with health := 40 } : Entity).damaged
      (Player.fresh "Hero").attackPower = { Enemy.fresh "Goblin" with health := 30 } := by
    rw [damaged_of_pos _ _ (by norm_num [Enemy.fresh, Player.fresh])]
    norm_num [Enemy.fresh, Player.fresh]
  rw [hd2] at hg2
  have ha2 : w2.entity? 0 = some (Player.fresh "Hero") := by
    rw [ho2 0 (by decide)]; exact ha1
  obtain ⟨w3, h3, hg3, -⟩ := attack_of_alive ha2 hg2 rfl
  have hd3 : ({ Enemy.fresh "Goblin" with health := 30 } : Entity).damaged
      (Player.fresh "Hero").attackPower = { Enemy.fresh "Goblin" with health := 20 } := by
    rw [damaged_of_pos _ _ (by norm_num [Enemy.fresh, Player.fresh])]
    norm_num [Enemy.fresh, Player.fresh]
  rw [hd3] at hg3
  exact ⟨w2, w3, by simp [runAttacks, h1, h2], hg2, h3, hg3⟩

/-! ## The pool -/

/-- With an empty pool `getEnemy(name)` constructs a new enemy. -/
theorem getEnemy_create (w : World) (name : String) :
    ∃ w1, EnemyPool.getEnemy w ⟨[]⟩ name = some (w.entities.length, ⟨[]⟩, w1) ∧
      w1.entity? w.entities.length = some (Enemy.fresh name) := by
  refine ⟨_, rfl, ?_⟩
  simp [Enemy.new, World.log, World.entity?]

/-- With a pool that is not empty `getEnemy(name)` returns the enemy released last, takes
it out of the pool and sets its name, health and flag, nothing else. -/
theorem getEnemy_reuse (w : World) (rest : List Nat) (enemy : Nat) (e : Entity)
    (name : String) (he : w.entity? enemy = some e) :
    ∃ w1, EnemyPool.getEnemy w ⟨rest ++ [enemy]⟩ name = some (enemy, ⟨rest⟩, w1) ∧
      w1.entity? enemy = some (e.reused name) ∧
      (e.reused name).name = name ∧ (e.reused name).health = 50 ∧
      (e.reused name).isAlive = true ∧ (e.reused name).position = e.position ∧
      (e.reused name).attackPower = e.attackPower := by
  have he1 : (w.log [.str "Reusing enemy: ", .str e.name]).entity? enemy = some e := he
  refine ⟨_, ?_, entity?_setEntity_self he1 _, rfl, rfl, rfl, rfl, rfl⟩
  simp [EnemyPool.getEnemy, he, Entity.reused]

/-- C17 (evaluation of the code). In the script, after `goblin.move(3, 2)`,
`orc.move(1, 1)` and the release of both, `getEnemy("Goblin King")` returns the object of
the orc, released last, and leaves the goblin in the pool; the enemy returned has the new
name, health 50, attack power 5 and is alive, but stands at (1, 1), not at (0, 0) where a
newly constructed enemy stands. -/
theorem reused_enemy_keeps_position :
    ∃ wa wb wc wd we p1 p2 e,
      MovableMixin.move scriptWorld 1 3 2 = some wa ∧
      MovableMixin.move wa 2 1 1 = some wb ∧
      EnemyPool.releaseEnemy wb EnemyPool.new 1 = some (p1, wc) ∧
      EnemyPool.releaseEnemy wc p1 2 = some (p2, wd) ∧
      EnemyPool.getEnemy wd p2 "Goblin King" = some (2, ⟨[1]⟩, we) ∧
      we.entity? 2 = some e ∧
      e.name = "Goblin King" ∧ e.health = 50 ∧ e.isAlive = true ∧ e.attackPower = 5 ∧
      e.position = ⟨1, 1⟩ ∧ (Enemy.fresh "Goblin King").position = ⟨0, 0⟩ ∧
      e ≠ Enemy.fresh "Goblin King" := by
  refine ⟨_, _, _, _, _, _, _, ⟨"Goblin King", ⟨0 + 1, 0 + 1⟩, 50, 5, true, .Enemy⟩,
    rfl, rfl, rfl, rfl, rfl, rfl, rfl, rfl, rfl, rfl, ?_, rfl, ?_⟩
  · norm_num
  · norm_num [Enemy.fresh]

end Game

/-! # Abstract classes -/

/-- C15. Constructing a base entity directly always throws: `new BankAccount(..)` and
`new User(..)` of the banking file and `new Vehicle(..)` throw their abstract-class error
for all arguments, and `new Product(..)` throws for every argument (the abstract-class
error, or a `TypeError` when the options are missing). Constructing a concrete subclass
(`SavingsAccount`, `CurrentAccount`, `Customer`, `Car`, `Bike`, `Electronics`,
`Clothing`) never throws an abstract-class error: it returns the new object, except that
`Electronics` and `Clothing` throw a `TypeError` when the options are missing. The
objects `SavingsAccount.new` and `CurrentAccount.new` put in the heap are those the
constructors return. -/
theorem abstract_classes_not_constructible :
    (∀ accountNumber balance,
      Banking.BankAccount.new accountNumber balance =
        .threw "Cannot instantiate an abstract class.") ∧
    (∀ name email,
      Banking.User.new name email = .threw "Cannot instantiate an abstract class.") ∧
    (∀ brand wheels,
      BasicOOPS.Vehicle.new brand wheels =
        .threw "Vehicle is an abstract class and cannot be instantiated directly.") ∧
    (∀ o, ECommerce.Product.new (some o) = .threw "Cannot instantiate an abstract class.") ∧
    ECommerce.Product.new none = .threw Banking.typeError ∧
    (∀ accountNumber balance interestRate,
      Banking.SavingsAccount.constructor .SavingsAccount accountNumber balance interestRate =
        .returned ⟨accountNumber, balance, [], .SavingsAccount interestRate⟩) ∧
    (∀ accountNumber balance overdraftLimit,
      Banking.CurrentAccount.constructor .CurrentAccount accountNumber balance overdraftLimit =
        .returned ⟨accountNumber, balance, [], .CurrentAccount overdraftLimit⟩) ∧
    (∀ w accountNumber balance interestRate,
      (Banking.SavingsAccount.new w accountNumber balance interestRate).world.heap =
        w.heap ++ [⟨accountNumber, balance, [], .SavingsAccount interestRate⟩]) ∧
    (∀ w accountNumber balance overdraftLimit,
      (Banking.CurrentAccount.new w accountNumber balance overdraftLimit).world.heap =
        w.heap ++ [⟨accountNumber, balance, [], .CurrentAccount overdraftLimit⟩]) ∧
    (∀ name email customerId,
      Banking.Customer.new name email customerId =
        .returned ⟨name, email, customerId, []⟩) ∧
    (∀ brand model, BasicOOPS.Car.new brand model = .returned ⟨brand, 4, 0, .Car model⟩) ∧
    (∀ brand type, BasicOOPS.Bike.new brand type = .returned ⟨brand, 2, 0, .Bike type⟩) ∧
    (∀ o, ECommerce.Electronics.new (some o) =
      .returned ⟨o.name, o.price, .Electronics o.warranty⟩) ∧
    (∀ o, ECommerce.Clothing.new (some o) = .returned ⟨o.name, o.price, .Clothing o.size⟩) ∧
    (∀ options,
      ECommerce.Electronics.new options ≠ .threw "Cannot instantiate an abstract class." ∧
      ECommerce.Clothing.new options ≠ .threw "Cannot instantiate an abstract class.") := by
  refine ⟨fun _ _ => rfl, fun _ _ => rfl, fun _ _ => rfl, fun _ => rfl, rfl, fun _ _ _ => rfl,
    fun _ _ _ => rfl, fun _ _ _ _ => rfl, fun _ _ _ _ => rfl, fun _ _ _ => rfl,
    fun _ _ => rfl, fun _ _ => rfl, fun _ => rfl, fun _ => rfl, ?_⟩
  intro options
  cases options with
  | none =>
    constructor <;>
    · intro h
      have hne : Banking.typeError ≠ "Cannot instantiate an abstract class." := by decide
      exact hne (Banking.Completion.threw.inj h)
  | some o =>
    constructor <;>
    · intro h
      cases h

namespace Banking

/-- The first `new Logger()`, line 23, run while the file is loaded, sets the instance
and gives it an empty log: it leads from `World.atLoad` to `World.initial`. -/
theorem logger_first_construction :
    Logger.new World.atLoad = World.initial ∧ Logger.getLogs World.initial = [] :=
  ⟨rfl, rfl⟩

end Banking

namespace ECommerce

open Banking (Completion)

/-! ## The container -/

theorem get_set (m : List (String × Value)) (key : String) (value : Value) (k : String) :
    Map.get (Map.set m key value) k = if key = k then value else Map.get m k := by
  induction m with
  | nil => simp [Map.set, Map.get]
  | cons entry rest ih =>
    obtain ⟨k0, v0⟩ := entry
    by_cases h0 : k0 = key
    · subst h0
      by_cases hk : k0 = k
      · simp [Map.set, Map.get, hk]
      · simp [Map.set, Map.get, hk]
    · by_cases hk : k0 = k
      · subst hk
        simp [Map.set, Map.get, h0, Ne.symm h0]
      · simp [Map.set, Map.get, h0, hk, ih]

theorem get_registerAll (calls : List (String × Value)) (c : Container) (name : String) :
    Map.get (c.registerAll calls).services name =
      (lastRegistered calls name).getD (Map.get c.services name) := by
  induction calls generalizing c with
  | nil => rfl
  | cons call rest ih =>
    obtain ⟨k, v⟩ := call
    have hstep : c.registerAll ((k, v) :: rest) = (c.register k v).registerAll rest := rfl
    rw [hstep, ih]
    cases hlast : lastRegistered rest name with
    | some later => simp [lastRegistered, hlast]
    | none =>
      simp only [lastRegistered, hlast, Option.getD_none, Container.register, get_set]
      by_cases hk : k = name
      · simp [hk]
      · simp [hk]

theorem resolve_of_truthy (c : Container) (name : String)
    (h : (Map.get c.services name).truthy = true) :
    c.resolve name = .returned (Map.get c.services name) := by
  simp [Container.resolve, h]

theorem resolve_of_falsy (c : Container) (name : String)
    (h : (Map.get c.services name).truthy = false) :
    c.resolve name = .threw ("Service " ++ name ++ " not found.") := by
  simp [Container.resolve, h]

/-- C21 as stated fails: after `register("zero", 0)`, `register("empty", "")`,
`register("no", false)` and `register("nothing", null)` on a new container, each of
these names has a service registered and `resolve` throws for each of them. -/
theorem resolve_rejects_falsy_services :
    lastRegistered [("zero", .num 0), ("empty", .str ""), ("no", .bool false),
      ("nothing", .null)] "zero" = some (.num 0) ∧
    (Container.new.registerAll [("zero", .num 0), ("empty", .str ""), ("no", .bool false),
      ("nothing", .null)]).resolve "zero" = .threw "Service zero not found." ∧
    (Container.new.registerAll [("zero", .num 0), ("empty", .str ""), ("no", .bool false),
      ("nothing", .null)]).resolve "empty" = .threw "Service empty not found." ∧
    (Container.new.registerAll [("zero", .num 0), ("empty", .str ""), ("no", .bool false),
      ("nothing", .null)]).resolve "no" = .threw "Service no not found." ∧
    (Container.new.registerAll [("zero", .num 0), ("empty", .str ""), ("no", .bool false),
      ("nothing", .null)]).resolve "nothing" = .threw "Service nothing not found." := by
  refine ⟨rfl, ?_, ?_, ?_, ?_⟩ <;> decide

/-- C21, amended. For a new container and any sequence of `register` calls,
`resolve(name)` throws (`Service <name> not found.`) if and only if no service has been
registered under `name` or the service most recently registered under it is falsy
(`undefined`, `null`, `false`, `0` or the empty string); otherwise it returns the
service most recently registered under `name`. -/
theorem resolve_latest_truthy (calls : List (String × Value)) (name : String) :
    (hasThrown ((Container.new.registerAll calls).resolve name) = true ↔
      (lastRegistered calls name = none ∨
        ∃ v, lastRegistered calls name = some v ∧ v.truthy = false)) ∧
    (hasThrown ((Container.new.registerAll calls).resolve name) = true →
      (Container.new.registerAll calls).resolve name =
        .threw ("Service " ++ name ++ " not found.")) ∧
    (∀ v, lastRegistered calls name = some v → v.truthy = true →
      (Container.new.registerAll calls).resolve name = .returned v) := by
  have hget := get_registerAll calls Container.new name
  have hempty : Map.get Container.new.services name = .undefined := rfl
  rw [hempty] at hget
  cases hlast : lastRegistered calls name with
  | none =>
    rw [hlast] at hget
    simp only [Option.getD_none] at hget
    have hres := resolve_of_falsy (Container.new.registerAll calls) name (by rw [hget]; rfl)
    rw [hres]
    refine ⟨⟨fun _ => Or.inl rfl, fun _ => rfl⟩, fun _ => rfl, ?_⟩
    intro v hv
    cases hv
  | some v0 =>
    rw [hlast] at hget
    simp only [Option.getD_some] at hget
    cases htr : v0.truthy with
    | false =>
      have hres := resolve_of_falsy (Container.new.registerAll calls) name
        (by rw [hget]; exact htr)
      rw [hres]
      refine ⟨⟨fun _ => Or.inr ⟨v0, rfl, htr⟩, fun _ => rfl⟩, fun _ => rfl, ?_⟩
      intro v hv hvt
      cases hv
      rw [htr] at hvt
      cases hvt
    | true =>
      have hres := resolve_of_truthy (Container.new.registerAll calls) name
        (by rw [hget]; exact htr)
      rw [hres, hget]
      refine ⟨⟨fun h => ?_, fun h => ?_⟩, fun h => ?_, ?_⟩
      · cases h
      · rcases h with h | ⟨v, hv, hvt⟩
        · cases h
        · cases hv
          rw [htr] at hvt
          cases hvt
      · cases h
      · intro v hv _
        cases hv
        rfl

/-- C21 amended, at lines 159-166 of the script, the service being an object, with a
second registration under the same name and a name never registered. -/
theorem resolve_latest_truthy_witness :
    (Container.new.registerAll [("UserService", .obj 0), ("UserService", .obj 1)]).resolve
      "UserService" = .returned (.obj 1) ∧
    (Container.new.registerAll [("UserService", .obj 0), ("UserService", .obj 1)]).resolve
      "OrderService" = .threw "Service OrderService not found." :=
  ⟨(resolve_latest_truthy [("UserService", .obj 0), ("UserService", .obj 1)]
      "UserService").2.2 (.obj 1) rfl rfl,
   (resolve_latest_truthy [("UserService", .obj 0), ("UserService", .obj 1)]
      "OrderService").2.1 (by decide)⟩

end ECommerce

namespace Banking64

open IEEE (JSNumber Part Text)
open Banking (Completion typeError)

/-! ## Heap lookups over doubles -/

theorem account64_log (w : World) (message : Text) (r : Nat) :
    (Logger.log w message).account? r = w.account? r := rfl

theorem account64_setAccount_self {w : World} {r : Nat} {a : BankAccount}
    (h : w.account? r = some a) (b : BankAccount) :
    (w.setAccount r b).account? r = some b := by
  have hlt : r < w.heap.length := by
    by_contra hge
    have hnone : w.heap[r]? = none := List.getElem?_eq_none (Nat.le_of_not_lt hge)
    simp [World.account?, hnone] at h
  simp [World.account?, World.setAccount, List.getElem?_set, hlt]

theorem account64_setAccount_ne (w : World) {r q : Nat} (hne : q ≠ r) (b : BankAccount) :
    (w.setAccount r b).account? q = w.account? q := by
  simp [World.account?, World.setAccount, List.getElem?_set, Ne.symm hne]

theorem account64_recordTransaction_self {w : World} {r : Nat} {a : BankAccount}
    (h : w.account? r = some a) (detail : Text) :
    (BankAccount._recordTransaction w r detail).account? r =
      some { a with transactionHistory :=
                      a.transactionHistory ++ [{ date := w.dates 0, detail := detail }] } := by
  have h1 : ({ w with dates := fun n => w.dates (n + 1) } : World).account? r = some a := h
  simp only [BankAccount._recordTransaction, h, World.newDate]
  exact account64_setAccount_self h1 _

theorem account64_recordTransaction_ne (w : World) {r q : Nat} (hne : q ≠ r)
    (detail : Text) :
    (BankAccount._recordTransaction w r detail).account? q = w.account? q := by
  unfold BankAccount._recordTransaction
  cases h : w.account? r with
  | none => rfl
  | some a =>
    simp only [World.newDate]
    rw [account64_setAccount_ne _ hne]
    rfl

/-! ## What `deposit` and `withdraw` do over doubles -/

theorem deposit64_of_none {w : World} {r : Nat} (h : w.account? r = none)
    (amount : JSNumber) :
    BankAccount.deposit w r amount = ⟨.threw typeError, w⟩ := by
  simp [BankAccount.deposit, h]

theorem deposit64_of_le {w : World} {r : Nat} {a : BankAccount}
    (h : w.account? r = some a) {amount : JSNumber} (hle : amount.le 0 = true) :
    BankAccount.deposit w r amount =
      ⟨.threw "Deposit amount must be greater than zero.", w⟩ := by
  simp [BankAccount.deposit, h, hle]

theorem deposit64_of_not_le {w : World} {r : Nat} {a : BankAccount}
    (h : w.account? r = some a) {amount : JSNumber} (hle : amount.le 0 = false) :
    (BankAccount.deposit w r amount).completion = .returned () ∧
    (BankAccount.deposit w r amount).world.account? r =
      some (a.afterDeposit amount (w.dates 0)) ∧
    (∀ q, q ≠ r → (BankAccount.deposit w r amount).world.account? q = w.account? q) ∧
    (BankAccount.deposit w r amount).world.logs =
      w.logs ++ [[.str "[", .isoDate (w.dates 1), .str "] ", .str "Deposit of ", .num amount,
                  .str " made to account ", .str a.accountNumber]] := by
  simp only [BankAccount.deposit, h, hle, Bool.false_eq_true, if_false]
  refine ⟨trivial, ?_, ?_, ?_⟩
  · rw [account64_log, account64_recordTransaction_self (account64_setAccount_self h _)]
    rfl
  · intro q hq
    rw [account64_log, account64_recordTransaction_ne _ hq, account64_setAccount_ne _ hq]
  · have hs : (w.setAccount r { a with _balance := a._balance.add amount }).account? r =
        some { a with _balance := a._balance.add amount } := account64_setAccount_self h _
    simp only [Logger.log, World.newDate, BankAccount._recordTransaction, hs]
    rfl

theorem base_withdraw64_of_none {w : World} {r : Nat} (h : w.account? r = none)
    (amount : JSNumber) :
    BankAccount.withdraw w r amount = ⟨.threw typeError, w⟩ := by
  simp [BankAccount.withdraw, h]

theorem base_withdraw64_of_gt {w : World} {r : Nat} {a : BankAccount}
    (h : w.account? r = some a) {amount : JSNumber} (hgt : amount.gt a._balance = true) :
    BankAccount.withdraw w r amount = ⟨.threw "Insufficient funds.", w⟩ := by
  simp [BankAccount.withdraw, h, hgt]

theorem base_withdraw64_of_not_gt {w : World} {r : Nat} {a : BankAccount}
    (h : w.account? r = some a) {amount : JSNumber} (hgt : amount.gt a._balance = false) :
    (BankAccount.withdraw w r amount).completion = .returned () ∧
    (BankAccount.withdraw w r amount).world.account? r =
      some (a.afterWithdraw amount (w.dates 0)) ∧
    ∀ q, q ≠ r → (BankAccount.withdraw w r amount).world.account? q = w.account? q := by
  simp only [BankAccount.withdraw, h, hgt, Bool.false_eq_true, if_false]
  refine ⟨trivial, ?_, ?_⟩
  · rw [account64_log, account64_recordTransaction_self (account64_setAccount_self h _)]
    rfl
  · intro q hq
    rw [account64_log, account64_recordTransaction_ne _ hq, account64_setAccount_ne _ hq]

theorem withdraw64_of_none {w : World} {r : Nat} (h : w.account? r = none)
    (amount : JSNumber) :
    withdraw w r amount = ⟨.threw typeError, w⟩ := by
  simp [withdraw, h]

theorem withdraw64_of_savings {w : World} {r : Nat} {a : BankAccount} {rate : JSNumber}
    (h : w.account? r = some a) (hcls : a.cls = .SavingsAccount rate) (amount : JSNumber) :
    withdraw w r amount = BankAccount.withdraw w r amount := by
  simp [withdraw, h, hcls]

theorem withdraw64_of_current {w : World} {r : Nat} {a : BankAccount} {limit : JSNumber}
    (h : w.account? r = some a) (hcls : a.cls = .CurrentAccount limit) (amount : JSNumber) :
    withdraw w r amount =
      if amount.gt (a._balance.add limit) then ⟨.threw "Overdraft limit exceeded.", w⟩
      else BankAccount.withdraw w r amount := by
  simp [withdraw, CurrentAccount.withdraw, h, hcls]

/-- Every `withdraw` call either throws and leaves the world as it was, or returns having
passed the check `amount > balance` and subtracted `amount` from the receiver only. -/
theorem withdraw64_cases (w : World) (r : Nat) (amount : JSNumber) :
    (∃ e, withdraw w r amount = ⟨.threw e, w⟩) ∨
    (∃ acc, w.account? r = some acc ∧ amount.gt acc._balance = false ∧
      (withdraw w r amount).completion = .returned () ∧
      (withdraw w r amount).world.account? r = some (acc.afterWithdraw amount (w.dates 0)) ∧
      ∀ q, q ≠ r → (withdraw w r amount).world.account? q = w.account? q) := by
  cases hacc : w.account? r with
  | none => exact Or.inl ⟨_, withdraw64_of_none hacc amount⟩
  | some acc =>
    have hbase : (∃ e, BankAccount.withdraw w r amount = ⟨.threw e, w⟩) ∨
        (amount.gt acc._balance = false ∧
          (BankAccount.withdraw w r amount).completion = .returned () ∧
          (BankAccount.withdraw w r amount).world.account? r =
            some (acc.afterWithdraw amount (w.dates 0)) ∧
          ∀ q, q ≠ r → (BankAccount.withdraw w r amount).world.account? q = w.account? q) := by
      cases hgt : amount.gt acc._balance with
      | true => exact Or.inl ⟨_, base_withdraw64_of_gt hacc hgt⟩
      | false => exact Or.inr ⟨rfl, base_withdraw64_of_not_gt hacc hgt⟩
    cases hcls : acc.cls with
    | SavingsAccount rate =>
      rw [withdraw64_of_savings hacc hcls]
      rcases hbase with h | h
      · exact Or.inl h
      · exact Or.inr ⟨acc, rfl, h⟩
    | CurrentAccount limit =>
      rw [withdraw64_of_current hacc hcls]
      cases hgt : amount.gt (acc._balance.add limit) with
      | true => simp only [if_true]; exact Or.inl ⟨_, rfl⟩
      | false =>
        simp only [Bool.false_eq_true, if_false]
        rcases hbase with h | h
        · exact Or.inl h
        · exact Or.inr ⟨acc, rfl, h⟩

/-! ## Every call changes an account only through steps of `deposit` and `withdraw` -/

theorem accountSteps64_refl (a : BankAccount) : AccountSteps a a :=
  Relation.ReflTransGen.refl

theorem accountSteps64_single {a b : BankAccount} (h : AccountStep a b) : AccountSteps a b :=
  Relation.ReflTransGen.single h

theorem accountSteps64_trans {a b c : BankAccount} (h₁ : AccountSteps a b)
    (h₂ : AccountSteps b c) : AccountSteps a c :=
  Relation.ReflTransGen.trans h₁ h₂

theorem stepsOnly64_refl (w : World) : StepsOnly w w :=
  fun _ a h => ⟨a, h, accountSteps64_refl a⟩

theorem stepsOnly64_trans {w w1 w2 : World} (h₁ : StepsOnly w w1) (h₂ : StepsOnly w1 w2) :
    StepsOnly w w2 := by
  intro r a h
  obtain ⟨b, hb, hab⟩ := h₁ r a h
  obtain ⟨c, hc, hbc⟩ := h₂ r b hb
  exact ⟨c, hc, accountSteps64_trans hab hbc⟩

theorem stepsOnly64_log {w w1 : World} (h : StepsOnly w w1) (message : Text) :
    StepsOnly w (Logger.log w1 message) := by
  intro r a hr
  obtain ⟨b, hb, hab⟩ := h r a hr
  exact ⟨b, by rw [account64_log]; exact hb, hab⟩

theorem deposit64_stepsOnly (w : World) (this : Nat) (amount : JSNumber) :
    StepsOnly w (BankAccount.deposit w this amount).world := by
  cases hthis : w.account? this with
  | none => rw [deposit64_of_none hthis]; exact stepsOnly64_refl w
  | some acc =>
    cases hle : amount.le 0 with
    | true => rw [deposit64_of_le hthis hle]; exact stepsOnly64_refl w
    | false =>
      obtain ⟨-, hself, hother, -⟩ := deposit64_of_not_le hthis hle
      intro r a hr
      by_cases hrt : r = this
      · subst hrt
        rw [hthis] at hr
        cases hr
        exact ⟨_, hself, accountSteps64_single (.deposited _ _ _ hle)⟩
      · exact ⟨a, by rw [hother r hrt]; exact hr, accountSteps64_refl a⟩

theorem withdraw64_stepsOnly (w : World) (account : Nat) (amount : JSNumber) :
    StepsOnly w (withdraw w account amount).world := by
  rcases withdraw64_cases w account amount with ⟨e, he⟩ | ⟨acc, hacc, hgt, -, hself, hother⟩
  · rw [he]; exact stepsOnly64_refl w
  · intro r a hr
    by_cases hrt : r = account
    · subst hrt
      rw [hacc] at hr
      cases hr
      exact ⟨_, hself, accountSteps64_single (.withdrew _ _ _ hgt)⟩
    · exact ⟨a, by rw [hother r hrt]; exact hr, accountSteps64_refl a⟩

theorem applyInterest64_world (w : World) (this : Nat) :
    SavingsAccount.applyInterest w this = ⟨.threw typeError, w⟩ ∨
    ∃ acc rate, w.account? this = some acc ∧ acc.cls = .SavingsAccount rate ∧
      ((BankAccount.deposit w this ((acc._balance.mul rate).div 100)).completion
          = .returned () ∧
        SavingsAccount.applyInterest w this =
          ⟨.returned (),
            Logger.log (BankAccount.deposit w this ((acc._balance.mul rate).div 100)).world
              [.str "Interest of ", .num ((acc._balance.mul rate).div 100),
               .str " applied to savings account ", .str acc.accountNumber]⟩ ∨
       (∃ e, (BankAccount.deposit w this ((acc._balance.mul rate).div 100)).completion
          = .threw e) ∧
        SavingsAccount.applyInterest w this =
          BankAccount.deposit w this ((acc._balance.mul rate).div 100)) := by
  cases hacc : w.account? this with
  | none => left; simp [SavingsAccount.applyInterest, hacc]
  | some acc =>
    cases hcls : acc.cls with
    | CurrentAccount limit => left; simp [SavingsAccount.applyInterest, hacc, hcls]
    | SavingsAccount rate =>
      right
      refine ⟨acc, rate, rfl, hcls, ?_⟩
      cases hdep : BankAccount.deposit w this ((acc._balance.mul rate).div 100) with
      | mk c w1 =>
        cases c with
        | returned v => left; simp [SavingsAccount.applyInterest, hacc, hcls, hdep]
        | threw e => right; simp [SavingsAccount.applyInterest, hacc, hcls, hdep]

theorem applyInterest64_stepsOnly (w : World) (this : Nat) :
    StepsOnly w (SavingsAccount.applyInterest w this).world := by
  rcases applyInterest64_world w this with h | ⟨acc, rate, -, -, ⟨-, h⟩ | ⟨-, h⟩⟩
  · rw [h]; exact stepsOnly64_refl w
  · rw [h]; exact stepsOnly64_log (deposit64_stepsOnly w this _) _
  · rw [h]; exact deposit64_stepsOnly w this _

theorem transfer64_world (w : World) (fromAccount toAccount : Nat) (amount : JSNumber) :
    ((∃ e, (withdraw w fromAccount amount).completion = .threw e) ∧
      TransactionService.transfer w fromAccount toAccount amount =
        withdraw w fromAccount amount) ∨
    ((withdraw w fromAccount amount).completion = .returned () ∧
      (∃ e, (deposit (withdraw w fromAccount amount).world toAccount amount).completion
              = .threw e) ∧
      TransactionService.transfer w fromAccount toAccount amount =
        deposit (withdraw w fromAccount amount).world toAccount amount) ∨
    ((withdraw w fromAccount amount).completion = .returned () ∧
      (deposit (withdraw w fromAccount amount).world toAccount amount).completion
        = .returned () ∧
      ∃ message c,
        TransactionService.transfer w fromAccount toAccount amount =
          ⟨c, Logger.log (deposit (withdraw w fromAccount amount).world toAccount amount).world
                message⟩ ∨
        TransactionService.transfer w fromAccount toAccount amount =
          ⟨c, (deposit (withdraw w fromAccount amount).world toAccount amount).world⟩) := by
  cases hw : withdraw w fromAccount amount with
  | mk c w1 =>
    cases c with
    | threw e => left; simp [TransactionService.transfer, hw]
    | returned v =>
      right
      cases hd : deposit w1 toAccount amount with
      | mk c2 w2 =>
        cases c2 with
        | threw e => left; simp [TransactionService.transfer, hw, hd]
        | returned v2 =>
          right
          refine ⟨rfl, by simp [hd], ?_⟩
          cases hf : w2.account? fromAccount with
          | none =>
            exact ⟨[], .threw typeError,
              Or.inr (by simp [TransactionService.transfer, hw, hd, hf])⟩
          | some f =>
            cases ht : w2.account? toAccount with
            | none =>
              exact ⟨[], .threw typeError,
                Or.inr (by simp [TransactionService.transfer, hw, hd, hf, ht])⟩
            | some t =>
              exact ⟨[.str "Transferred ", .num amount, .str " from ", .str f.accountNumber,
                      .str " to ", .str t.accountNumber], .returned (),
                Or.inl (by simp [TransactionService.transfer, hw, hd, hf, ht])⟩

theorem transfer64_stepsOnly (w : World) (fromAccount toAccount : Nat) (amount : JSNumber) :
    StepsOnly w (TransactionService.transfer w fromAccount toAccount amount).world := by
  have h1 := withdraw64_stepsOnly w fromAccount amount
  have h2 : StepsOnly (withdraw w fromAccount amount).world
      (deposit (withdraw w fromAccount amount).world toAccount amount).world :=
    deposit64_stepsOnly _ toAccount amount
  rcases transfer64_world w fromAccount toAccount amount with
    ⟨-, h⟩ | ⟨-, -, h⟩ | ⟨-, -, message, c, h | h⟩
  · rw [h]; exact h1
  · rw [h]; exact stepsOnly64_trans h1 h2
  · rw [h]; exact stepsOnly64_log (stepsOnly64_trans h1 h2) _
  · rw [h]; exact stepsOnly64_trans h1 h2

theorem exec64_stepsOnly (w : World) (c : Call) : StepsOnly w (c.exec w).world := by
  cases c with
  | deposit account amount => exact deposit64_stepsOnly w account amount
  | withdraw account amount => exact withdraw64_stepsOnly w account amount
  | applyInterest account => exact applyInterest64_stepsOnly w account
  | transfer fromAccount toAccount amount =>
    exact transfer64_stepsOnly w fromAccount toAccount amount

theorem runCalls64_stepsOnly (calls : List Call) (w : World) :
    StepsOnly w (runCalls w calls) := by
  induction calls generalizing w with
  | nil => exact stepsOnly64_refl w
  | cons c cs ih => exact stepsOnly64_trans (exec64_stepsOnly w c) (ih _)

end Banking64

namespace IEEE

/-! ## The order of the doubles under addition and subtraction -/

theorem not_nan_ofRat (x : ℚ) : JSNumber.ofRat x ≠ .nan := by
  unfold JSNumber.ofRat
  split_ifs <;> simp

theorem negInf_le_iff (r : JSNumber) : r = .nan ∨ JSNumber.negInf.le r = true := by
  cases r <;> simp [JSNumber.le]

/-- Adding an amount that passed the check `amount <= 0` of `deposit` to a balance that
is `NaN` or at or above a double `f` leaves a balance that is `NaN` or at or above `f`. -/
theorem add_keeps_floor {f : ℚ} (hf : JSNumber.ofRat f = .fin f) {b amount : JSNumber}
    (hb : b = .nan ∨ (JSNumber.fin f).le b = true) (hguard : amount.le 0 = false) :
    b.add amount = .nan ∨ (JSNumber.fin f).le (b.add amount) = true := by
  rcases hb with hb | hb
  · subst hb
    left
    cases amount <;> rfl
  · cases b with
    | nan => simp [JSNumber.le] at hb
    | negInf => simp [JSNumber.le] at hb
    | posInf =>
      cases amount with
      | nan => left; rfl
      | negInf => simp [JSNumber.le] at hguard
      | posInf => right; rfl
      | fin y => right; rfl
    | fin x =>
      have hfx : f ≤ x := by simpa [JSNumber.le] using hb
      cases amount with
      | nan => left; rfl
      | negInf => simp [JSNumber.le] at hguard
      | posInf => right; rfl
      | fin y =>
        right
        have hy : 0 < y := by
          have : ¬ y ≤ 0 := by simpa [JSNumber.le, OfNat.ofNat] using hguard
          exact not_le.mp this
        show (JSNumber.fin f).le (JSNumber.ofRat (x + y)) = true
        exact le_ofRat_of_le hf (by linarith)

/-- Subtracting an amount that passed the check `amount > balance` of `withdraw` from a
balance that is `NaN` or at or above a double `f <= 0` leaves a balance that is `NaN` or
at or above `f`. -/
theorem sub_keeps_floor {f : ℚ} (hf : JSNumber.ofRat f = .fin f) (hf0 : f ≤ 0)
    {b amount : JSNumber} (hb : b = .nan ∨ (JSNumber.fin f).le b = true)
    (hguard : amount.gt b = false) :
    b.sub amount = .nan ∨ (JSNumber.fin f).le (b.sub amount) = true := by
  rcases hb with hb | hb
  · subst hb
    left
    cases amount <;> rfl
  · cases b with
    | nan => simp [JSNumber.le] at hb
    | negInf => simp [JSNumber.le] at hb
    | posInf =>
      cases amount with
      | nan => left; rfl
      | negInf => right; rfl
      | posInf => left; rfl
      | fin y => right; rfl
    | fin x =>
      have hfx : f ≤ x := by simpa [JSNumber.le] using hb
      cases amount with
      | nan => left; rfl
      | negInf => right; rfl
      | posInf => simp [JSNumber.gt, JSNumber.lt] at hguard
      | fin y =>
        right
        have hy : y ≤ x := by
          have : ¬ x < y := by simpa [JSNumber.gt, JSNumber.lt] using hguard
          exact not_lt.mp this
        show (JSNumber.fin f).le (JSNumber.ofRat (x + -y)) = true
        exact le_ofRat_of_le hf (by linarith)

/-- `2^53 + 3` is halfway between two doubles and becomes the even one, `2^53 + 4`. -/
theorem ofRat_two_pow_53_add_three :
    JSNumber.ofRat (9007199254740996 + -1) = .fin 9007199254740996 := by
  apply ofRat_eq_of_roundNearest _ (by norm_num) (by norm_num)
  unfold roundNearest
  rw [if_pos (by norm_num)]
  have hn : roundHalfEven ((9007199254740996 + -1 : ℚ) / 2 ^ ((53 : ℤ) - 52)) =
      4503599627370498 := by
    rw [roundHalfEven_tie (n := 4503599627370497) (by norm_num)]
    decide
  rw [roundMagnitude_eq (E := 53) (by norm_num) (by norm_num) (by norm_num) hn]
  norm_num

end IEEE

namespace Banking64

open IEEE (JSNumber Part Text)
open Banking (Completion typeError)

/-! ## The floor of the balance over doubles -/

theorem accountStep64_keeps {a b : BankAccount} (h : AccountStep a b)
    (hlimit : a.limitNonneg) (hfloor : a.notBelowFloor) :
    b.cls = a.cls ∧ b.limitNonneg ∧ b.notBelowFloor := by
  have hcls : b.cls = a.cls := by cases h <;> rfl
  have hfl : b.floor = a.floor := by cases h <;> rfl
  have hlim : b.limitNonneg := by
    unfold BankAccount.limitNonneg at hlimit ⊢
    rw [hcls]
    exact hlimit
  refine ⟨hcls, hlim, ?_⟩
  unfold BankAccount.notBelowFloor at hfloor ⊢
  rw [hfl]
  -- the floor is `-Infinity`, or a double that is not positive
  have hF : a.floor = .negInf ∨
      ∃ f : ℚ, a.floor = .fin f ∧ f ≤ 0 ∧ JSNumber.ofRat f = .fin f := by
    unfold BankAccount.floor BankAccount.limitNonneg at *
    cases hc : a.cls with
    | SavingsAccount rate =>
      right
      exact ⟨0, by simp [OfNat.ofNat], le_refl _, IEEE.ofRat_zero⟩
    | CurrentAccount limit =>
      rw [hc] at hlimit
      obtain ⟨h0, hd⟩ := hlimit
      cases limit with
      | nan => simp [JSNumber.le] at h0
      | negInf => simp [JSNumber.le] at h0
      | posInf => left; rfl
      | fin l =>
        right
        have hl : 0 ≤ l := by simpa [JSNumber.le, OfNat.ofNat] using h0
        refine ⟨-l, rfl, by linarith, ?_⟩
        have hd' : JSNumber.ofRat l = .fin l := hd
        rw [IEEE.ofRat_neg, hd']
        rfl
  rcases hF with hF | ⟨f, hF, hf0, hf⟩
  · rw [hF]
    exact IEEE.negInf_le_iff _
  · rw [hF] at hfloor ⊢
    cases h with
    | deposited amount date hguard => exact IEEE.add_keeps_floor hf hfloor hguard
    | withdrew amount date hguard => exact IEEE.sub_keeps_floor hf hf0 hfloor hguard

theorem accountSteps64_keeps {a b : BankAccount} (h : AccountSteps a b)
    (hlimit : a.limitNonneg) (hfloor : a.notBelowFloor) :
    b.cls = a.cls ∧ b.limitNonneg ∧ b.notBelowFloor := by
  induction h with
  | refl => exact ⟨rfl, hlimit, hfloor⟩
  | tail _ hstep ih =>
    obtain ⟨h1, h2, h3⟩ := accountStep64_keeps hstep ih.2.1 ih.2.2
    exact ⟨h1.trans ih.1, h2, h3⟩

end Banking64

namespace Banking64

open IEEE (JSNumber Part Text)
open Banking (Completion typeError)

/-- C1 as stated fails, in two ways. On a savings account of balance 5000,
`withdraw(NaN)` passes the check `amount > balance`, returns and leaves the balance `NaN`,
which is not at or above the floor 0. On a current account of balance `2^53 + 4` and
overdraft limit -1, hence floor 1, `withdraw(2^53 + 4)` passes both checks, because the
sum `balance + overdraftLimit` rounds back to the balance, returns and leaves the
balance 0, below the floor. -/
theorem balance_below_floor_counterexamples :
    (∃ acc1, (runCalls (singleAccount 5000 (.SavingsAccount (.fin (5 / 2))))
        [.withdraw 0 .nan]).account? 0 = some acc1 ∧
      acc1._balance = .nan ∧ acc1.floor = 0 ∧ acc1.floor.le acc1._balance = false) ∧
    (JSNumber.fin 1).le (.fin 9007199254740996) = true ∧
    (∃ acc1, (runCalls
        (singleAccount (.fin 9007199254740996) (.CurrentAccount (.fin (-1))))
        [.withdraw 0 (.fin 9007199254740996)]).account? 0 = some acc1 ∧
      acc1._balance = .fin 0 ∧ acc1.floor = .fin 1 ∧
      acc1.floor.le acc1._balance = false) := by
  refine ⟨⟨_, rfl, rfl, rfl, rfl⟩, by simp [JSNumber.le], ?_⟩
  have hacc : (singleAccount (.fin 9007199254740996)
      (.CurrentAccount (.fin (-1)))).account? 0 =
      some ⟨"A1", .fin 9007199254740996, [], .CurrentAccount (.fin (-1))⟩ := rfl
  have hg1 : (JSNumber.fin 9007199254740996).gt
      ((JSNumber.fin 9007199254740996).add (.fin (-1))) = false := by
    show (JSNumber.ofRat (9007199254740996 + -1)).lt (.fin 9007199254740996) = false
    rw [IEEE.ofRat_two_pow_53_add_three]
    simp [JSNumber.lt]
  have hg2 : (JSNumber.fin 9007199254740996).gt (.fin 9007199254740996) = false := by
    simp [JSNumber.gt, JSNumber.lt]
  have hw : withdraw (singleAccount (.fin 9007199254740996) (.CurrentAccount (.fin (-1)))) 0
      (.fin 9007199254740996) =
      BankAccount.withdraw
        (singleAccount (.fin 9007199254740996) (.CurrentAccount (.fin (-1)))) 0
        (.fin 9007199254740996) := by
    rw [withdraw64_of_current hacc rfl]
    simp only [hg1, Bool.false_eq_true, if_false]
  obtain ⟨-, hself, -⟩ := base_withdraw64_of_not_gt hacc hg2
  rw [← hw] at hself
  have h0 : (9007199254740996 + -9007199254740996 : ℚ) = 0 := by norm_num
  have hbal : (JSNumber.fin 9007199254740996).sub (.fin 9007199254740996) = .fin 0 := by
    simp only [JSNumber.sub, JSNumber.neg, JSNumber.add]
    rw [h0, IEEE.ofRat_zero]
  have hfl : (JSNumber.fin (-1)).neg = .fin 1 := by
    simp only [JSNumber.neg]
    norm_num
  simp only [BankAccount.afterWithdraw, hbal] at hself
  have hrun : ∀ (w : World) (r : Nat) (x : JSNumber),
      runCalls w [Call.withdraw r x] = (withdraw w r x).world := fun _ _ _ => rfl
  rw [hrun]
  refine ⟨_, hself, rfl, ?_, ?_⟩
  · simp only [BankAccount.floor, hfl]
  · simp only [BankAccount.floor, hfl]
    simp [JSNumber.le]

/-- C1, amended. For an account whose balance is at or above its floor (`0` for a savings
account, `-overdraftLimit` for a current account, the overdraft limit being a number that
is not negative), after any finite sequence of `deposit`, `withdraw`, `applyInterest`
and `TransactionService.transfer` calls on any accounts with any amounts, `NaN` and the
infinities included, each call succeeding or throwing, the account is still of the same
class and its balance is never below that floor: it is at or above the floor, or it is
`NaN`. -/
theorem balance_not_below_floor (w : World) (account : Nat) (acc : BankAccount)
    (hacc : w.account? account = some acc) (hlimit : acc.limitNonneg)
    (hfloor : acc.floor.le acc._balance = true) (calls : List Call) :
    ∃ acc1, (runCalls w calls).account? account = some acc1 ∧ acc1.cls = acc.cls ∧
      (acc1._balance = .nan ∨ acc1.floor.le acc1._balance = true) := by
  obtain ⟨b, hb, hsteps⟩ := runCalls64_stepsOnly calls w account acc hacc
  obtain ⟨h1, -, h3⟩ := accountSteps64_keeps hsteps hlimit (Or.inr hfloor)
  exact ⟨b, hb, h1, h3⟩

/-- C1 amended, at the current account of the example (balance 10000, limit 2000, floor
-2000) under calls that succeed, calls that throw and calls with `NaN` and `Infinity`. -/
theorem balance_not_below_floor_witness :
    exampleWorld.account? 1 = some ⟨"CA456", 10000, [], .CurrentAccount 2000⟩ ∧
    ∃ acc1, (runCalls exampleWorld
        [.withdraw 1 11500, .withdraw 1 10000, .transfer 1 0 1, .deposit 1 (.fin (-5)),
         .deposit 1 .posInf, .withdraw 1 .posInf, .applyInterest 1,
         .transfer 0 1 .nan]).account? 1 = some acc1 ∧
      acc1.cls = .CurrentAccount 2000 ∧
      (acc1._balance = .nan ∨ acc1.floor.le acc1._balance = true) :=
  ⟨rfl,
   balance_not_below_floor exampleWorld 1 ⟨"CA456", 10000, [], .CurrentAccount 2000⟩ rfl
     ⟨show decide (((0 : Nat) : ℚ) ≤ ((2000 : Nat) : ℚ)) = true from
        decide_eq_true (by norm_num), IEEE.ofRat_natCast 2000 (by norm_num)⟩
     (show decide (-((2000 : Nat) : ℚ) ≤ ((10000 : Nat) : ℚ)) = true from
        decide_eq_true (by norm_num)) _⟩

end Banking64

namespace Banking64

open IEEE (JSNumber Part Text)
open Banking (Completion typeError)

/-! ## Deposits and transfers over doubles -/

theorem succeeded64_of_returned {α : Type} {o : Outcome α} {v : α}
    (h : o.completion = .returned v) : o.succeeded = true := by
  simp [Outcome.succeeded, h]

theorem not_failed64_of_returned {α : Type} {o : Outcome α} {v : α}
    (h : o.completion = .returned v) : o.failed = false := by
  simp [Outcome.failed, Outcome.succeeded, h]

theorem runCalls64_single (w : World) (c : Call) : runCalls w [c] = (c.exec w).world := rfl

/-- C4 as stated fails: `deposit(1)` on an account of balance `2^53` returns, and the
balance afterwards is still `2^53`, not `2^53 + 1`: the sum is rounded to the nearest
double. -/
theorem deposit_not_exact_counterexample :
    (deposit (singleAccount (.fin 9007199254740992) (.SavingsAccount (.fin (5 / 2)))) 0
      (.fin 1)).succeeded = true ∧
    ∃ acc1, (deposit (singleAccount (.fin 9007199254740992)
        (.SavingsAccount (.fin (5 / 2)))) 0 (.fin 1)).world.account? 0 = some acc1 ∧
      acc1._balance = .fin 9007199254740992 ∧
      acc1._balance ≠ .fin (9007199254740992 + 1) := by
  have hacc : (singleAccount (.fin 9007199254740992)
      (.SavingsAccount (.fin (5 / 2)))).account? 0 =
      some ⟨"A1", .fin 9007199254740992, [], .SavingsAccount (.fin (5 / 2))⟩ := rfl
  have hle : (JSNumber.fin 1).le 0 = false := by
    show decide ((1 : ℚ) ≤ ((0 : Nat) : ℚ)) = false
    exact decide_eq_false (by norm_num)
  obtain ⟨hret, hself, -, -⟩ := deposit64_of_not_le hacc hle
  have hbal : (JSNumber.fin 9007199254740992).add (.fin 1) = .fin 9007199254740992 := by
    simp only [JSNumber.add]
    exact IEEE.ofRat_two_pow_53_add_one
  simp only [BankAccount.afterDeposit, hbal] at hself
  refine ⟨succeeded64_of_returned hret, _, hself, rfl, ?_⟩
  intro h
  injection h with h
  norm_num at h

/-- C4, amended. `deposit(amount)` on an account throws if and only if `amount <= 0`
(so not for `NaN`); when it throws, the whole world (balance, transaction history, event
log) is as before the call; when it returns, the balance is the double sum
`balance + amount`, which is the old balance increased by exactly `amount` whenever that
exact sum is a double, exactly one entry, `Deposited ${amount}`, has been appended to the
transaction history and exactly one line to the event log. -/
theorem deposit_fails_iff_le_zero (w : World) (account : Nat) (acc : BankAccount)
    (hacc : w.account? account = some acc) (amount : JSNumber) :
    ((deposit w account amount).failed = true ↔ amount.le 0 = true) ∧
    (amount.le 0 = true → (deposit w account amount).world = w) ∧
    (amount.le 0 = false → (deposit w account amount).succeeded = true ∧
      ∃ acc1 date line, (deposit w account amount).world.account? account = some acc1 ∧
        acc1._balance = acc._balance.add amount ∧
        (∀ x y : ℚ, acc._balance = .fin x → amount = .fin y →
          JSNumber.ofRat (x + y) = .fin (x + y) → acc1._balance = .fin (x + y)) ∧
        acc1.transactionHistory =
          acc.transactionHistory ++ [⟨date, [.str "Deposited ", .num amount]⟩] ∧
        (deposit w account amount).world.logs = w.logs ++ [line]) := by
  unfold deposit
  refine ⟨?_, ?_, ?_⟩
  · constructor
    · intro hfail
      by_contra hnot
      have hret := (deposit64_of_not_le hacc (Bool.eq_false_iff.mpr hnot)).1
      rw [not_failed64_of_returned hret] at hfail
      cases hfail
    · intro hle
      rw [deposit64_of_le hacc hle]
      rfl
  · intro hle
    rw [deposit64_of_le hacc hle]
  · intro hle
    obtain ⟨hret, hself, -, hlogs⟩ := deposit64_of_not_le hacc hle
    refine ⟨succeeded64_of_returned hret, _, _, _, hself, rfl, ?_, rfl, hlogs⟩
    intro x y hx hy hexact
    show acc._balance.add amount = _
    rw [hx, hy]
    exact hexact

/-- C4 amended, at line 165 of the example, `savingsAcc.deposit(2000)` on balance 5000:
the sum 7000 is a double, so the balance grows by exactly 2000. -/
theorem deposit_fails_iff_le_zero_witness :
    ((5000 : JSNumber).add 2000 = 7000) ∧
    (deposit exampleWorld 0 2000).succeeded = true ∧
    ∃ acc1 date line, (deposit exampleWorld 0 2000).world.account? 0 = some acc1 ∧
      acc1._balance = (5000 : JSNumber).add 2000 ∧
      (∀ x y : ℚ, (5000 : JSNumber) = .fin x → (2000 : JSNumber) = .fin y →
        JSNumber.ofRat (x + y) = .fin (x + y) → acc1._balance = .fin (x + y)) ∧
      acc1.transactionHistory = [] ++ [⟨date, [.str "Deposited ", .num 2000]⟩] ∧
      (deposit exampleWorld 0 2000).world.logs = exampleWorld.logs ++ [line] :=
  ⟨(congrArg JSNumber.ofRat (Nat.cast_add 5000 2000).symm).trans
      (IEEE.ofRat_natCast 7000 (by norm_num)),
   (deposit_fails_iff_le_zero exampleWorld 0
      ⟨"SA123", 5000, [], .SavingsAccount (.fin (5 / 2))⟩ rfl 2000).2.2
      (decide_eq_false (show ¬ (((2000 : Nat) : ℚ) ≤ ((0 : Nat) : ℚ)) by norm_num))⟩

end Banking64

namespace IEEE

/-- `2^53 + 5` is halfway between two doubles and becomes the even one, `2^53 + 4`. -/
theorem ofRat_two_pow_53_add_five :
    JSNumber.ofRat (9007199254740996 + 1) = .fin 9007199254740996 := by
  apply ofRat_eq_of_roundNearest _ (by norm_num) (by norm_num)
  unfold roundNearest
  rw [if_pos (by norm_num)]
  have hn : roundHalfEven ((9007199254740996 + 1 : ℚ) / 2 ^ ((53 : ℤ) - 52)) =
      4503599627370498 := by
    rw [roundHalfEven_tie (n := 4503599627370498) (by norm_num)]
    decide
  rw [roundMagnitude_eq (E := 53) (by norm_num) (by norm_num) (by norm_num) hn]
  norm_num

/-- `2^53 + 6` is a double. -/
theorem ofRat_two_pow_53_add_six :
    JSNumber.ofRat (9007199254740996 + 2) = .fin 9007199254740998 := by
  apply ofRat_eq_of_roundNearest _ (by norm_num) (by norm_num)
  unfold roundNearest
  rw [if_pos (by norm_num)]
  have hn : roundHalfEven ((9007199254740996 + 2 : ℚ) / 2 ^ ((53 : ℤ) - 52)) =
      4503599627370499 := by
    have h : ((9007199254740996 + 2 : ℚ) / 2 ^ ((53 : ℤ) - 52)) =
        ((4503599627370499 : ℤ) : ℚ) := by norm_num
    rw [h, roundHalfEven_intCast]
  rw [roundMagnitude_eq (E := 53) (by norm_num) (by norm_num) (by norm_num) hn]
  norm_num

theorem ofRat_one_add_one : JSNumber.ofRat (1 + 1) = .fin 2 := by
  have h : (1 + 1 : ℚ) = ((2 : ℕ) : ℚ) := by norm_num
  rw [h, ofRat_natCast 2 (by norm_num)]
  norm_num

end IEEE

namespace Banking64

open IEEE (JSNumber Part Text)
open Banking (Completion typeError)

/-- Once both steps of a transfer have returned, the transfer returns: the two property
reads of its log line cannot throw. -/
theorem transfer64_returned_of_both (w : World) (a b : Nat) (amount : JSNumber)
    (hwd : (withdraw w a amount).completion = .returned ())
    (hdp : (deposit (withdraw w a amount).world b amount).completion = .returned ()) :
    (TransactionService.transfer w a b amount).completion = .returned () := by
  have ha1 : ∃ x, (withdraw w a amount).world.account? a = some x := by
    rcases withdraw64_cases w a amount with ⟨e, he⟩ | ⟨acc, -, -, -, hself, -⟩
    · rw [he] at hwd; cases hwd
    · exact ⟨_, hself⟩
  have hb1 : ∃ y, (withdraw w a amount).world.account? b = some y := by
    cases hb : (withdraw w a amount).world.account? b with
    | some y => exact ⟨y, rfl⟩
    | none =>
      unfold deposit at hdp
      rw [deposit64_of_none hb] at hdp
      cases hdp
  obtain ⟨x, hx⟩ := ha1
  obtain ⟨y, hy⟩ := hb1
  have hsteps : StepsOnly (withdraw w a amount).world
      (deposit (withdraw w a amount).world b amount).world :=
    deposit64_stepsOnly (withdraw w a amount).world b amount
  obtain ⟨x1, hx1, -⟩ := hsteps a x hx
  obtain ⟨y1, hy1, -⟩ := hsteps b y hy
  cases hw : withdraw w a amount with
  | mk c w1 =>
    rw [hw] at hwd hdp hx1 hy1
    simp only at hwd hdp hx1 hy1
    subst hwd
    cases hd : deposit w1 b amount with
    | mk c2 w2 =>
      rw [hd] at hdp hx1 hy1
      simp only at hdp hx1 hy1
      subst hdp
      simp [TransactionService.transfer, hw, hd, hx1, hy1]

/-- The two balances after a transfer that returned. -/
theorem transfer64_balances (w : World) (a b : Nat) (accA accB : BankAccount)
    (hA : w.account? a = some accA) (hB : w.account? b = some accB) (hne : a ≠ b)
    (amount : JSNumber)
    (hok : (TransactionService.transfer w a b amount).succeeded = true) :
    ∃ accA1 accB1,
      (TransactionService.transfer w a b amount).world.account? a = some accA1 ∧
      (TransactionService.transfer w a b amount).world.account? b = some accB1 ∧
      accA1._balance = accA._balance.sub amount ∧
      accB1._balance = accB._balance.add amount := by
  rcases transfer64_world w a b amount with
    ⟨⟨e, he⟩, h⟩ | ⟨-, ⟨e, he⟩, h⟩ | ⟨hwd, hdp, message, c, h | h⟩
  · rw [h] at hok; simp [Outcome.succeeded, he] at hok
  · rw [h] at hok; simp [Outcome.succeeded, he] at hok
  all_goals
    rcases withdraw64_cases w a amount with ⟨e, he⟩ | ⟨acc, hacc, -, -, hself, hother⟩
    · rw [he] at hwd; cases hwd
    rw [hA] at hacc
    cases hacc
    have hB1 : (withdraw w a amount).world.account? b = some accB := by
      rw [hother b (Ne.symm hne)]; exact hB
    have hle : amount.le 0 = false := by
      cases hc : amount.le 0 with
      | false => rfl
      | true =>
        have hthrow := deposit64_of_le hB1 hc
        unfold deposit at hdp
        rw [hthrow] at hdp
        cases hdp
    obtain ⟨-, hselfB, hotherB, -⟩ := deposit64_of_not_le hB1 hle
    have hA2 : (deposit (withdraw w a amount).world b amount).world.account? a =
        some (accA.afterWithdraw amount (w.dates 0)) := by
      unfold deposit
      rw [hotherB a hne]; exact hself
    have hB2 : (deposit (withdraw w a amount).world b amount).world.account? b =
        some (accB.afterDeposit amount ((withdraw w a amount).world.dates 0)) := hselfB
    refine ⟨accA.afterWithdraw amount (w.dates 0),
      accB.afterDeposit amount ((withdraw w a amount).world.dates 0), ?_, ?_, rfl, rfl⟩
    · rw [h]
      first
        | (rw [account64_log]; exact hA2)
        | exact hA2
    · rw [h]
      first
        | (rw [account64_log]; exact hB2)
        | exact hB2

/-- A transfer between two distinct savings accounts returns when the amount passes the
two checks, `amount > balance` of the source and `amount <= 0`. -/
theorem transfer64_succeeds (w : World) (a b : Nat) (accA accB : BankAccount)
    (rate : JSNumber) (hA : w.account? a = some accA) (hB : w.account? b = some accB)
    (hne : a ≠ b) (hcls : accA.cls = .SavingsAccount rate) (amount : JSNumber)
    (hgt : amount.gt accA._balance = false) (hle : amount.le 0 = false) :
    (TransactionService.transfer w a b amount).succeeded = true := by
  have hw : withdraw w a amount = BankAccount.withdraw w a amount :=
    withdraw64_of_savings hA hcls amount
  obtain ⟨hret, -, hother⟩ := base_withdraw64_of_not_gt hA hgt
  rw [← hw] at hret hother
  have hB1 : (withdraw w a amount).world.account? b = some accB := by
    rw [hother b (Ne.symm hne)]; exact hB
  obtain ⟨hretB, -, -, -⟩ := deposit64_of_not_le hB1 hle
  exact succeeded64_of_returned (transfer64_returned_of_both w a b amount hret hretB)

/-- C5 as stated fails: between two savings accounts of balances `2^53 + 4` and 1,
`transfer(A, B, 1)` returns; the balance of `A` is still `2^53 + 4`, not the old balance
minus 1, because the difference is rounded to the nearest double, while the balance of
`B` is 2; and the sum `A.balance + B.balance`, which was `2^53 + 4` before the call, is
`2^53 + 6` after it. -/
theorem transfer_not_exact_counterexample :
    (TransactionService.transfer
      (twoAccounts (.fin 9007199254740996) (.fin 1)) 0 1 (.fin 1)).succeeded = true ∧
    ∃ accA1 accB1,
      (TransactionService.transfer
        (twoAccounts (.fin 9007199254740996) (.fin 1)) 0 1 (.fin 1)).world.account? 0
          = some accA1 ∧
      (TransactionService.transfer
        (twoAccounts (.fin 9007199254740996) (.fin 1)) 0 1 (.fin 1)).world.account? 1
          = some accB1 ∧
      accA1._balance = .fin 9007199254740996 ∧
      accA1._balance ≠ .fin (9007199254740996 - 1) ∧
      accB1._balance = .fin 2 ∧
      (JSNumber.fin 9007199254740996).add (.fin 1) = .fin 9007199254740996 ∧
      accA1._balance.add accB1._balance = .fin 9007199254740998 := by
  have hA : (twoAccounts (.fin 9007199254740996) (.fin 1)).account? 0 =
      some ⟨"A1", .fin 9007199254740996, [], .SavingsAccount (.fin (5 / 2))⟩ := rfl
  have hB : (twoAccounts (.fin 9007199254740996) (.fin 1)).account? 1 =
      some ⟨"B1", .fin 1, [], .SavingsAccount (.fin (5 / 2))⟩ := rfl
  have hgt : (JSNumber.fin 1).gt (.fin 9007199254740996) = false := by
    simp [JSNumber.gt, JSNumber.lt]
  have hle : (JSNumber.fin 1).le 0 = false := by
    show decide ((1 : ℚ) ≤ ((0 : Nat) : ℚ)) = false
    exact decide_eq_false (by norm_num)
  have hok := transfer64_succeeds _ 0 1 _ _ _ hA hB (by decide) rfl (.fin 1) hgt hle
  obtain ⟨accA1, accB1, h1, h2, h3, h4⟩ :=
    transfer64_balances _ 0 1 _ _ hA hB (by decide) (.fin 1) hok
  have hsub : (JSNumber.fin 9007199254740996).sub (.fin 1) = .fin 9007199254740996 := by
    simp only [JSNumber.sub, JSNumber.neg, JSNumber.add]
    exact IEEE.ofRat_two_pow_53_add_three
  have hadd : (JSNumber.fin 1).add (.fin 1) = .fin 2 := by
    simp only [JSNumber.add]
    exact IEEE.ofRat_one_add_one
  have hsum0 : (JSNumber.fin 9007199254740996).add (.fin 1) = .fin 9007199254740996 := by
    simp only [JSNumber.add]
    exact IEEE.ofRat_two_pow_53_add_five
  have hsum1 : (JSNumber.fin 9007199254740996).add (.fin 2) = .fin 9007199254740998 := by
    simp only [JSNumber.add]
    exact IEEE.ofRat_two_pow_53_add_six
  simp only [hsub] at h3
  simp only [hadd] at h4
  refine ⟨hok, accA1, accB1, h1, h2, h3, ?_, h4, hsum0, ?_⟩
  · rw [h3]
    intro h
    injection h with h
    norm_num at h
  · rw [h3, h4]
    exact hsum1

/-- C5, amended. When `TransactionService.transfer(A, B, amount)` between two distinct
accounts returns, the balance of `A` is the double difference `A.balance - amount` and the
balance of `B` is the double sum `B.balance + amount`; whenever that difference and that
sum are exact (the exact results are doubles), the balance of `A` is its old balance minus
`amount`, the balance of `B` is its old balance plus `amount` and
`A.balance + B.balance` is the same as before the call. -/
theorem transfer_moves_rounded_amount (w : World) (a b : Nat) (accA accB : BankAccount)
    (hA : w.account? a = some accA) (hB : w.account? b = some accB) (hne : a ≠ b)
    (amount : JSNumber)
    (hok : (TransactionService.transfer w a b amount).succeeded = true) :
    ∃ accA1 accB1,
      (TransactionService.transfer w a b amount).world.account? a = some accA1 ∧
      (TransactionService.transfer w a b amount).world.account? b = some accB1 ∧
      accA1._balance = accA._balance.sub amount ∧
      accB1._balance = accB._balance.add amount ∧
      (∀ x y z : ℚ, accA._balance = .fin x → accB._balance = .fin y → amount = .fin z →
        JSNumber.ofRat (x - z) = .fin (x - z) → JSNumber.ofRat (y + z) = .fin (y + z) →
        accA1._balance = .fin (x - z) ∧ accB1._balance = .fin (y + z) ∧
        accA1._balance.add accB1._balance = accA._balance.add accB._balance) := by
  obtain ⟨accA1, accB1, h1, h2, h3, h4⟩ := transfer64_balances w a b accA accB hA hB hne amount hok
  refine ⟨accA1, accB1, h1, h2, h3, h4, ?_⟩
  intro x y z hx hy hz hexA hexB
  have hA1 : accA1._balance = .fin (x - z) := by
    rw [h3, hx, hz]
    simp only [JSNumber.sub, JSNumber.neg, JSNumber.add]
    rw [← sub_eq_add_neg]
    exact hexA
  have hB1 : accB1._balance = .fin (y + z) := by
    rw [h4, hy, hz]
    simp only [JSNumber.add]
    exact hexB
  refine ⟨hA1, hB1, ?_⟩
  rw [hA1, hB1, hx, hy]
  simp only [JSNumber.add]
  congr 1
  ring

/-- C5 amended, at line 169 of the example taken on the freshly created accounts:
`transfer(savingsAcc, currentAcc, 1000)` with balances 5000 and 10000, where the
difference 4000 and the sum 11000 are exact. -/
theorem transfer_moves_rounded_amount_witness :
    (TransactionService.transfer exampleWorld 0 1 1000).succeeded = true ∧
    (5000 : JSNumber).sub 1000 = 4000 ∧ (10000 : JSNumber).add 1000 = 11000 ∧
    ∃ accA1 accB1,
      (TransactionService.transfer exampleWorld 0 1 1000).world.account? 0 = some accA1 ∧
      (TransactionService.transfer exampleWorld 0 1 1000).world.account? 1 = some accB1 ∧
      accA1._balance = (5000 : JSNumber).sub 1000 ∧
      accB1._balance = (10000 : JSNumber).add 1000 ∧
      (∀ x y z : ℚ, (5000 : JSNumber) = .fin x → (10000 : JSNumber) = .fin y →
        (1000 : JSNumber) = .fin z →
        JSNumber.ofRat (x - z) = .fin (x - z) → JSNumber.ofRat (y + z) = .fin (y + z) →
        accA1._balance = .fin (x - z) ∧ accB1._balance = .fin (y + z) ∧
        accA1._balance.add accB1._balance = (5000 : JSNumber).add 10000) := by
  have hgt : (1000 : JSNumber).gt 5000 = false :=
    decide_eq_false (show ¬ (((5000 : Nat) : ℚ) < ((1000 : Nat) : ℚ)) by norm_num)
  have hle : (1000 : JSNumber).le 0 = false :=
    decide_eq_false (show ¬ (((1000 : Nat) : ℚ) ≤ ((0 : Nat) : ℚ)) by norm_num)
  have hok : (TransactionService.transfer exampleWorld 0 1 1000).succeeded = true :=
    transfer64_succeeds exampleWorld 0 1 ⟨"SA123", 5000, [], .SavingsAccount (.fin (5 / 2))⟩
      ⟨"CA456", 10000, [], .CurrentAccount 2000⟩ _ rfl rfl (by decide) rfl 1000 hgt hle
  have hsub : (5000 : JSNumber).sub 1000 = 4000 := by
    show JSNumber.ofRat (((5000 : Nat) : ℚ) + -((1000 : Nat) : ℚ)) = .fin ((4000 : Nat) : ℚ)
    have h : (((5000 : Nat) : ℚ) + -((1000 : Nat) : ℚ)) = ((4000 : Nat) : ℚ) := by norm_num
    rw [h]
    exact IEEE.ofRat_natCast 4000 (by norm_num)
  have hadd : (10000 : JSNumber).add 1000 = 11000 := by
    show JSNumber.ofRat (((10000 : Nat) : ℚ) + ((1000 : Nat) : ℚ)) = .fin ((11000 : Nat) : ℚ)
    have h : (((10000 : Nat) : ℚ) + ((1000 : Nat) : ℚ)) = ((11000 : Nat) : ℚ) := by norm_num
    rw [h]
    exact IEEE.ofRat_natCast 11000 (by norm_num)
  exact ⟨hok, hsub, hadd,
    transfer_moves_rounded_amount exampleWorld 0 1
      ⟨"SA123", 5000, [], .SavingsAccount (.fin (5 / 2))⟩
      ⟨"CA456", 10000, [], .CurrentAccount 2000⟩ rfl rfl (by decide) 1000 hok⟩

end Banking64

namespace Banking64

open IEEE (JSNumber Part Text)
open Banking (Completion typeError)

/-! ## The balance and the transaction history over doubles -/

theorem replay_append_deposited (start : JSNumber) (l : List Transaction)
    (amount : JSNumber) (date : Nat) :
    replay start (l ++ [⟨date, [.str "Deposited ", .num amount]⟩]) =
      (replay start l).add amount := by
  induction l generalizing start with
  | nil => simp [replay]
  | cons t rest ih =>
    simp only [List.cons_append, replay]
    split <;> exact ih _

theorem replay_append_withdrew (start : JSNumber) (l : List Transaction)
    (amount : JSNumber) (date : Nat) :
    replay start (l ++ [⟨date, [.str "Withdrew ", .num amount]⟩]) =
      (replay start l).sub amount := by
  induction l generalizing start with
  | nil => simp [replay]
  | cons t rest ih =>
    simp only [List.cons_append, replay]
    split <;> exact ih _

theorem accountSteps64_replay {a b : BankAccount} (h : AccountSteps a b) :
    ∃ l, b.transactionHistory = a.transactionHistory ++ l ∧
      b._balance = replay a._balance l := by
  induction h with
  | refl => exact ⟨[], by simp, rfl⟩
  | tail _ hstep ih =>
    obtain ⟨l, hl, hbal⟩ := ih
    cases hstep with
    | deposited amount date hguard =>
      refine ⟨l ++ [⟨date, [.str "Deposited ", .num amount]⟩], ?_, ?_⟩
      · simp [BankAccount.afterDeposit, hl]
      · rw [replay_append_deposited, ← hbal]
        rfl
    | withdrew amount date hguard =>
      refine ⟨l ++ [⟨date, [.str "Withdrew ", .num amount]⟩], ?_, ?_⟩
      · simp [BankAccount.afterWithdraw, hl]
      · rw [replay_append_withdrew, ← hbal]
        rfl

/-- C7, amended. For an account as its constructor leaves it (opening balance `b`, empty
transaction history), after any sequence of `deposit`, `withdraw`, `applyInterest` and
`transfer` calls, successful or not, the balance is what the entries of its transaction
history give when applied in order to the opening balance in double arithmetic:
`+ amount` for each `Deposited ${amount}` entry, `- amount` for each `Withdrew ${amount}`
entry, each result rounded to the nearest double. -/
theorem balance_eq_replay_of_history (w : World) (account : Nat) (acc : BankAccount)
    (hacc : w.account? account = some acc) (hnew : acc.transactionHistory = [])
    (calls : List Call) :
    ∃ acc1, (runCalls w calls).account? account = some acc1 ∧
      acc1._balance = replay acc._balance acc1.transactionHistory := by
  obtain ⟨b, hb, hsteps⟩ := runCalls64_stepsOnly calls w account acc hacc
  obtain ⟨l, hl, hbal⟩ := accountSteps64_replay hsteps
  refine ⟨b, hb, ?_⟩
  rw [hl, hnew, List.nil_append]
  exact hbal

/-- C7 amended, at the savings account of the example (opening balance 5000). -/
theorem balance_eq_replay_of_history_witness :
    exampleWorld.account? 0 = some ⟨"SA123", 5000, [], .SavingsAccount (.fin (5 / 2))⟩ ∧
    ∃ acc1, (runCalls exampleWorld
        [.deposit 0 2000, .applyInterest 0, .withdraw 1 500, .transfer 0 1 1000,
         .withdraw 0 .nan]).account? 0 = some acc1 ∧
      acc1._balance = replay 5000 acc1.transactionHistory :=
  ⟨rfl, balance_eq_replay_of_history exampleWorld 0
    ⟨"SA123", 5000, [], .SavingsAccount (.fin (5 / 2))⟩ rfl rfl _⟩

end Banking64

namespace IEEE

/-- Evaluation of the rounding of a positive number whose binade is known. -/
theorem ofRat_of_binade {x r : ℚ} {E n : ℤ} (h1 : 2 ^ E ≤ x) (h2 : x < 2 ^ (E + 1))
    (hE : -1022 ≤ E) (hn : roundHalfEven (x / 2 ^ (E - 52)) = n)
    (hr : (n : ℚ) * 2 ^ (E - 52) = r) (hlt : r < 2 ^ 1024) : JSNumber.ofRat x = .fin r := by
  have hx : 0 ≤ x := le_trans (le_of_lt (two_zpow_pos E)) h1
  have hround : roundNearest x = r := by
    unfold roundNearest
    rw [if_pos hx, roundMagnitude_eq h1 h2 hE hn, hr]
  have h0 : 0 ≤ r := by
    rw [← hround]
    unfold roundNearest
    rw [if_pos hx]
    exact roundMagnitude_nonneg hx
  apply ofRat_eq_of_roundNearest hround hlt
  have : (0 : ℚ) < 2 ^ 1024 := by positivity
  linarith

/-- `2^53` is a double. -/
theorem ofRat_two_pow_53 : JSNumber.ofRat (0 + 9007199254740992) = .fin 9007199254740992 := by
  apply ofRat_of_binade (E := 53) (n := 4503599627370496) (by norm_num) (by norm_num)
    (by norm_num) _ (by norm_num) (by norm_num)
  have h : ((0 + 9007199254740992 : ℚ) / 2 ^ ((53 : ℤ) - 52)) =
      ((4503599627370496 : ℤ) : ℚ) := by norm_num
  rw [h, roundHalfEven_intCast]

/-- The double written `0.1`. -/
theorem ofRat_one_tenth :
    JSNumber.ofRat (1 / 10) = .fin (3602879701896397 / 36028797018963968) := by
  apply ofRat_of_binade (E := -4) (n := 7205759403792794) (by norm_num) (by norm_num)
    (by norm_num) _ (by norm_num) (by norm_num)
  have h := roundHalfEven_of_gt_half (t := (1 / 10 : ℚ) / 2 ^ ((-4 : ℤ) - 52))
    (n := 7205759403792793) (by norm_num) (by norm_num)
  rw [h]
  norm_num

/-- The difference `1 - 0.1` is the double written `0.9`. -/
theorem ofRat_one_sub_tenth :
    JSNumber.ofRat (1 + -(3602879701896397 / 36028797018963968)) =
      .fin (8106479329266893 / 9007199254740992) := by
  apply ofRat_of_binade (E := -1) (n := 8106479329266893) (by norm_num) (by norm_num)
    (by norm_num) _ (by norm_num) (by norm_num)
  have h := roundHalfEven_of_gt_half
    (t := (1 + -(3602879701896397 / 36028797018963968) : ℚ) / 2 ^ ((-1 : ℤ) - 52))
    (n := 8106479329266892) (by norm_num) (by norm_num)
  rw [h]
  norm_num

/-- The product `1024 * 0.9` is the double written `921.6`. -/
theorem ofRat_discount_one :
    JSNumber.ofRat (1024 * (8106479329266893 / 9007199254740992)) =
      .fin (8106479329266893 / 8796093022208) := by
  apply ofRat_of_binade (E := 9) (n := 8106479329266893) (by norm_num) (by norm_num)
    (by norm_num) _ (by norm_num) (by norm_num)
  have h : ((1024 * (8106479329266893 / 9007199254740992) : ℚ) / 2 ^ ((9 : ℤ) - 52)) =
      ((8106479329266893 : ℤ) : ℚ) := by norm_num
  rw [h, roundHalfEven_intCast]

/-- The product `921.6 * 0.9` is the double written `829.44`. -/
theorem ofRat_discount_two :
    JSNumber.ofRat (8106479329266893 / 8796093022208 *
        (8106479329266893 / 9007199254740992)) =
      .fin (1823957849085051 / 2199023255552) := by
  apply ofRat_of_binade (E := 9) (n := 7295831396340204) (by norm_num) (by norm_num)
    (by norm_num) _ (by norm_num) (by norm_num)
  have h := roundHalfEven_of_gt_half
    (t := (8106479329266893 / 8796093022208 *
        (8106479329266893 / 9007199254740992) : ℚ) / 2 ^ ((9 : ℤ) - 52))
    (n := 7295831396340203) (by norm_num) (by norm_num)
  rw [h]
  norm_num

/-- The product `829.44 * 0.9` is the double written `746.4960000000001`. -/
theorem ofRat_discount_three :
    JSNumber.ofRat (1823957849085051 / 2199023255552 *
        (8106479329266893 / 9007199254740992)) =
      .fin (820781032088273 / 1099511627776) := by
  apply ofRat_of_binade (E := 9) (n := 6566248256706184) (by norm_num) (by norm_num)
    (by norm_num) _ (by norm_num) (by norm_num)
  have h := roundHalfEven_of_gt_half
    (t := (1823957849085051 / 2199023255552 *
        (8106479329266893 / 9007199254740992) : ℚ) / 2 ^ ((9 : ℤ) - 52))
    (n := 6566248256706183) (by norm_num) (by norm_num)
  rw [h]
  norm_num

/-- The double written `746.496`. -/
theorem ofRat_exact_three :
    JSNumber.ofRat (1024 * (1 - 1 / 10) ^ 3) = .fin (6566248256706183 / 8796093022208) := by
  apply ofRat_of_binade (E := 9) (n := 6566248256706183) (by norm_num) (by norm_num)
    (by norm_num) _ (by norm_num) (by norm_num)
  exact roundHalfEven_of_lt_half (by norm_num) (by norm_num)

/-- The double written `921.6`. -/
theorem ofRat_exact_one :
    JSNumber.ofRat (1024 * (1 - 1 / 10)) = .fin (8106479329266893 / 8796093022208) := by
  apply ofRat_of_binade (E := 9) (n := 8106479329266893) (by norm_num) (by norm_num)
    (by norm_num) _ (by norm_num) (by norm_num)
  have h := roundHalfEven_of_gt_half
    (t := (1024 * (1 - 1 / 10) : ℚ) / 2 ^ ((9 : ℤ) - 52))
    (n := 8106479329266892) (by norm_num) (by norm_num)
  rw [h]
  norm_num

end IEEE

namespace ECommerce

open IEEE (JSNumber Part Text)

/-! ## The total of an order over doubles -/

theorem add_natCast (m n : Nat) (h : m + n < 2 ^ 53) :
    (JSNumber.fin (m : ℚ)).add (.fin (n : ℚ)) = .fin ((m + n : Nat) : ℚ) := by
  show JSNumber.ofRat ((m : ℚ) + (n : ℚ)) = _
  rw [← Nat.cast_add]
  exact IEEE.ofRat_natCast _ h

theorem priceSum_pair (p q : Product) :
    priceSum [p, q] = ((0 : JSNumber).add p.price).add q.price := rfl

theorem priceSum_demo : priceSum [phone, shirt] = 1024 := by
  rw [priceSum_pair]
  have hp : phone.price = 999 := rfl
  have hq : shirt.price = 25 := rfl
  rw [hp, hq]
  have e0 : (0 : JSNumber).add 999 = 999 := add_natCast 0 999 (by norm_num)
  have e1 : (999 : JSNumber).add 25 = 1024 := add_natCast 999 25 (by norm_num)
  rw [e0, e1]

theorem one_sub_tenth :
    (1 : JSNumber).sub (.fin (3602879701896397 / 36028797018963968)) =
      .fin (8106479329266893 / 9007199254740992) := by
  show JSNumber.ofRat (((1 : Nat) : ℚ) + -(3602879701896397 / 36028797018963968)) = _
  rw [Nat.cast_one]
  exact IEEE.ofRat_one_sub_tenth

theorem discounted_demo_one :
    (1024 : JSNumber).mul (.fin (8106479329266893 / 9007199254740992)) =
      .fin (8106479329266893 / 8796093022208) := by
  show JSNumber.ofRat (((1024 : Nat) : ℚ) * (8106479329266893 / 9007199254740992)) = _
  rw [Nat.cast_ofNat]
  exact IEEE.ofRat_discount_one

theorem discounted_demo_two :
    (JSNumber.fin (8106479329266893 / 8796093022208)).mul
        (.fin (8106479329266893 / 9007199254740992)) =
      .fin (1823957849085051 / 2199023255552) := by
  simp only [JSNumber.mul]
  exact IEEE.ofRat_discount_two

theorem discounted_demo_three :
    (JSNumber.fin (1823957849085051 / 2199023255552)).mul
        (.fin (8106479329266893 / 9007199254740992)) =
      .fin (820781032088273 / 1099511627776) := by
  simp only [JSNumber.mul]
  exact IEEE.ofRat_discount_three

/-- C18 as stated fails, in the sum and in the discount. An order of two products priced
`2^53` and 1 has total `2^53`, not `2^53 + 1`: the sum is rounded to the nearest double.
The order of the demo, 999 + 25 decorated at rate `0.1`, has after three checkouts the
total `746.4960000000001`, one double above `746.496`, the double nearest to
`1024 * (1 - 0.1)^3`: every product is rounded to the nearest double. -/
theorem order_total_not_exact_counterexample :
    ((Order.new user1).addProducts
      [⟨"a", .fin 9007199254740992, .Clothing none⟩, ⟨"b", .fin 1, .Clothing none⟩]).total
        = .fin 9007199254740992 ∧
    JSNumber.fin 9007199254740992 ≠ .fin (9007199254740992 + 1) ∧
    JSNumber.ofRat (1 / 10) = .fin (3602879701896397 / 36028797018963968) ∧
    ((DiscountDecorator ((Order.new user1).addProducts [phone, shirt])
      (.fin (3602879701896397 / 36028797018963968))).checkoutTimes 3).total =
        .fin (820781032088273 / 1099511627776) ∧
    JSNumber.ofRat (1024 * (1 - 1 / 10) ^ 3) = .fin (6566248256706183 / 8796093022208) ∧
    JSNumber.fin (820781032088273 / 1099511627776) ≠
      .fin (6566248256706183 / 8796093022208) := by
  refine ⟨?_, ?_, IEEE.ofRat_one_tenth, ?_, IEEE.ofRat_exact_three, ?_⟩
  · rw [(order_totals user1 _ 0 0).2.1, priceSum_pair]
    simp only []
    have e0 : (0 : JSNumber).add (.fin 9007199254740992) = .fin 9007199254740992 := by
      show JSNumber.ofRat (((0 : Nat) : ℚ) + 9007199254740992) = _
      rw [Nat.cast_zero]
      exact IEEE.ofRat_two_pow_53
    have e1 : (JSNumber.fin 9007199254740992).add (.fin 1) = .fin 9007199254740992 := by
      simp only [JSNumber.add]
      exact IEEE.ofRat_two_pow_53_add_one
    rw [e0, e1]
  · intro h
    injection h with h
    norm_num at h
  · rw [(order_totals user1 _ _ 3).2.2, priceSum_demo]
    simp only [discounted]
    rw [one_sub_tenth, discounted_demo_one, discounted_demo_two, discounted_demo_three]
  · intro h
    injection h with h
    norm_num at h

/-- C18, amended. For an order built by `new Order(user)` and any sequence of
`addProduct` calls, the total before checkout is the sum of the prices of the products
added, each addition made from 0 in the order of the calls and rounded to the nearest
double; after `k` calls of the `checkout` that `DiscountDecorator(order, rate)` installs,
the total is that sum multiplied `k` times by the double `1 - rate`, each product rounded
to the nearest double, so that one checkout applies the discount once. -/
theorem order_total_after_checkouts_rounded (user : User) (products : List Product)
    (rate : JSNumber) (k : Nat) :
    ((Order.new user).addProducts products).products = products ∧
    ((Order.new user).addProducts products).total = priceSum products ∧
    ((DiscountDecorator ((Order.new user).addProducts products) rate).checkoutTimes k).total =
      discounted (priceSum products) rate k ∧
    ((DiscountDecorator ((Order.new user).addProducts products) rate).checkout).1.total =
      (priceSum products).mul ((1 : JSNumber).sub rate) :=
  ⟨(order_totals user products rate k).1, (order_totals user products rate k).2.1,
   (order_totals user products rate k).2.2, (order_totals user products rate 1).2.2⟩

/-- C18 amended, at lines 185-196 of the script: 999 + 25 is 1024, and one checkout at
rate `0.1` leaves the double `921.6`. -/
theorem order_total_after_checkouts_rounded_witness :
    ((Order.new user1).addProducts [phone, shirt]).total = 1024 ∧
    JSNumber.ofRat (1 / 10) = .fin (3602879701896397 / 36028797018963968) ∧
    ((DiscountDecorator ((Order.new user1).addProducts [phone, shirt])
      (.fin (3602879701896397 / 36028797018963968))).checkout).1.total =
        .fin (8106479329266893 / 8796093022208) ∧
    JSNumber.ofRat (1024 * (1 - 1 / 10)) = .fin (8106479329266893 / 8796093022208) := by
  have h := order_total_after_checkouts_rounded user1 [phone, shirt]
    (.fin (3602879701896397 / 36028797018963968)) 1
  refine ⟨h.2.1.trans priceSum_demo, IEEE.ofRat_one_tenth, ?_, IEEE.ofRat_exact_one⟩
  rw [h.2.2.2, priceSum_demo, one_sub_tenth, discounted_demo_one]

end ECommerce
